import Mathlib

/-!
# Link protocol engine and routine interpreter of estem-qt

A shallow embedding of the frame codec (`frameMessage`, `decodeBuffer`) and of
the command dispatcher (`parseDecodedBuffer`, `handleCommand`) of the
`Communicator` class (`src/cpp/communicator.cpp`), and of the routine
interpreter `RoutineController` (`src/cpp/routinecontroller.cpp`), followed by
theorems about them.

* A byte (`uint8_t`, or a `char` of a `QByteArray` read as `uint8_t`) is a
  `Fin 256`; a `QByteArray` is a `List Byte`.
* The member variables of `Communicator` are the fields of the structure
  `Communicator`; a member function takes the object and returns the object
  after the call next to its result.
* Signals (`emit ...`), Qt diagnostics (`qWarning() << ...`) and the call of
  the pure virtual `sendMessage` are recorded as a list of `Effect`s in the
  order in which they happen.
* The protocol constants used by `communicator.cpp` that `constants.h` does not
  declare (`START_BYTE`, `STOP_BYTE`, `ESCAPE_BYTE`, the command tags with
  `NUM_COMMANDS`, the `LogLevel` tags) are the fields of `Constants`, and every
  definition that uses one takes them as a parameter. A theorem says which
  relations between them it needs, such as the markers being different bytes.
* A `double` is a value of the type `Double`, which follows IEEE 754 binary64:
  a finite value, an infinity or a NaN, every operation rounding its exact
  result to nearest, ties to even; a conversion to an unsigned integer type is
  `Double.toUInt`, which has no result where C++ leaves the conversion
  undefined. The two pressure events of `handleCommand` alone record the
  `double` they carry as the exact quotient of which it is the rounding.
* A `QString` is the list of its characters. What `RoutineController` reads
  from outside the class (the component counts and pressure ranges of the
  application controller, the conversions `QString::toUInt` and
  `QString::toDouble`) is the parameter `Host`; what other threads do to the
  flags of the controller while `run` executes is the parameter `Schedule`.
-/

namespace Estem

/-- A `uint8_t`. -/
abbrev Byte := Fin 256

/-- Protocol constants referenced by `communicator.cpp` whose declarations are
not in the available `constants.h`. `LONG_BITS` is the width of the C++ type
`long` on the target platform. -/
structure Constants where
  START_BYTE : Byte
  STOP_BYTE : Byte
  ESCAPE_BYTE : Byte
  NUM_COMMANDS : Byte
  VALVE : Byte
  PUMP : Byte
  PRESSURE : Byte
  UPTIME : Byte
  ERROR : Byte
  LOG : Byte
  LOG_FATAL : Byte
  LOG_ERROR : Byte
  LOG_WARNING : Byte
  LOG_INFO : Byte
  LOG_DEBUG : Byte
  LONG_BITS : Nat
  deriving DecidableEq, Repr

/-- The value of `PR_MAX_VALUE`, defined in `constants.h` as `UINT8_MAX`. -/
def PR_MAX_VALUE : Nat := 255

/-- The enumerator `STATUS` of `SerialRequests` in `constants.h`: `OFF + 1`, where
the enumerators count up from `VALVE1 = 0` through `COMPONENTS_END = 38`,
`OPEN = 39`, `CLOSED = 40`, `ON = 41` and `OFF = 42`. -/
def STATUS : Byte := 43

/-- The enum `Communicator::ConnectionStatus`. -/
inductive ConnectionStatus where
  | Disconnected
  | Connecting
  | Connected
  deriving DecidableEq, Repr

/-- The member variables of `Communicator` (`communicator.h`). -/
structure Communicator where
  mConnectionStatus : ConnectionStatus
  mBuffer : List Byte
  mDecodedBuffer : List Byte
  mDecoderRecording : Bool
  mDecoderEscaped : Bool
  mLastByteWasStart : Bool
  deriving DecidableEq, Repr

/-- The function `Communicator::frameMessage`: the range-for loop is a left fold
over `message`, each `push_back` appends one byte to `framedMessage`. -/
def frameMessage (k : Constants) (message : List Byte) : List Byte :=
  let framedMessage : List Byte := [k.START_BYTE]
  let framedMessage := message.foldl
    (fun framedMessage c =>
      let framedMessage :=
        if c = k.STOP_BYTE ∨ c = k.ESCAPE_BYTE then framedMessage ++ [k.ESCAPE_BYTE]
        else framedMessage
      framedMessage ++ [c])
    framedMessage
  framedMessage ++ [k.STOP_BYTE]

/-- The range-for loop of `Communicator::decodeBuffer` over the bytes of
`mBuffer` that are still to be visited. The result is the object after the
loop, `foundCompleteMessage` and `decoderIndex`. A `break` returns without
running the `decoderIndex++` at the end of the loop body. -/
def decodeLoop (k : Constants) : List Byte → Communicator → Nat → Communicator × Bool × Nat
  | [], s, decoderIndex => (s, false, decoderIndex)
  | c :: rest, s, decoderIndex =>
    if s.mDecoderRecording then
      if s.mDecoderEscaped then
        decodeLoop k rest
          { s with mDecodedBuffer := s.mDecodedBuffer ++ [c], mDecoderEscaped := false,
                   mLastByteWasStart := false } (decoderIndex + 1)
      else if c = k.ESCAPE_BYTE then
        decodeLoop k rest
          { s with mDecoderEscaped := true, mLastByteWasStart := false } (decoderIndex + 1)
      else if c = k.STOP_BYTE then
        ({ s with mDecoderRecording := false }, true, decoderIndex)
      else if s.mLastByteWasStart ∧ k.NUM_COMMANDS ≤ c then
        ({ s with mDecoderRecording := false, mLastByteWasStart := false }, false, decoderIndex)
      else
        decodeLoop k rest
          { s with mDecodedBuffer := s.mDecodedBuffer ++ [c], mLastByteWasStart := false }
          (decoderIndex + 1)
    else if c = k.START_BYTE then
      decodeLoop k rest
        { s with mDecoderRecording := true, mLastByteWasStart := true } (decoderIndex + 1)
    else
      decodeLoop k rest s (decoderIndex + 1)

/-- The function `Communicator::decodeBuffer`: the returned `QByteArray` and the
object after the call. -/
def decodeBuffer (k : Constants) (s : Communicator) : List Byte × Communicator :=
  match decodeLoop k s.mBuffer s 0 with
  | (s, foundCompleteMessage, decoderIndex) =>
    let s := { s with mBuffer := s.mBuffer.drop decoderIndex }
    if foundCompleteMessage then
      (s.mDecodedBuffer, { s with mDecodedBuffer := [] })
    else
      ([], s)

/-- The Qt message stream a diagnostic is written to. -/
inductive Channel where
  | critical
  | warning
  | info
  | debug
  deriving DecidableEq, Repr

/-- What a member function does to the outside of the object: an emitted
signal, a line written to a Qt message stream, or a frame handed to the pure
virtual `sendMessage`. The `double` of a pressure signal is recorded as the
exact quotient it is computed from. -/
inductive Effect where
  | valveStateChanged (valveNumber : Nat) (isOpen : Bool)
  | pumpStateChanged (pumpNumber : Nat) (isOn : Bool)
  | pressureChanged (controllerNumber : Nat) (pressure : ℚ)
  | pressureSetpointChanged (controllerNumber : Nat) (pressure : ℚ)
  | uptimeChanged (seconds : Nat)
  | connectionStatusChanged (newStatus : ConnectionStatus)
  | diagnostic (channel : Channel) (text : String)
  | microcontrollerMessage (channel : Channel) (levelKnown : Bool) (message : List Byte)
  | sendMessage (message : List Byte)
  deriving DecidableEq

/-- The signals that report the state of a hardware component or the uptime. -/
def Effect.isDomainEvent : Effect → Bool
  | .valveStateChanged _ _ => true
  | .pumpStateChanged _ _ => true
  | .pressureChanged _ _ => true
  | .pressureSetpointChanged _ _ => true
  | .uptimeChanged _ => true
  | _ => false

/-- The function `Communicator::logMicrocontrollerMessage`. -/
def logMicrocontrollerMessage (k : Constants) (level : Byte) (message : List Byte) :
    List Effect :=
  if level = k.LOG_FATAL then [Effect.microcontrollerMessage .critical true message]
  else if level = k.LOG_ERROR then [Effect.microcontrollerMessage .critical true message]
  else if level = k.LOG_WARNING then [Effect.microcontrollerMessage .warning true message]
  else if level = k.LOG_INFO then [Effect.microcontrollerMessage .info true message]
  else if level = k.LOG_DEBUG then [Effect.microcontrollerMessage .debug true message]
  else [Effect.microcontrollerMessage .debug false message]

/-- The expression `parameters[i][j]` read as `uint8_t`. Where the source guards
the access with a length check the index is in range; an index past the end of
a `QByteArray` reads as 0. -/
def paramByte (parameters : List (List Byte)) (i j : Nat) : Byte :=
  (parameters.getD i []).getD j 0

/-- The value of an `int` expression: the low 32 bits, read as two's
complement. -/
def wrapInt32 (n : Nat) : Int :=
  if n % 2 ^ 32 < 2 ^ 31 then (n % 2 ^ 32 : Nat) else ((n % 2 ^ 32 : Nat) : Int) - 2 ^ 32

/-- The function `Communicator::handleCommand`. The `switch` is the chain of
comparisons with the case labels in the order of the source. -/
def handleCommand (k : Constants) (command : Byte) (parameters : List (List Byte)) :
    List Effect :=
  let nParameters := parameters.length
  if command = k.VALVE then
    if nParameters ≠ 2 then
      [Effect.diagnostic .warning "Invalid number of parameters for VALVE command:"]
    else if (parameters.getD 0 []).length ≠ 1 ∨ (parameters.getD 1 []).length ≠ 1 then
      [Effect.diagnostic .warning "Invalid parameter sizes for VALVE command"]
    else
      [Effect.valveStateChanged (paramByte parameters 0 0).val (paramByte parameters 1 0 ≠ 0)]
  else if command = k.PUMP then
    if nParameters ≠ 2 then
      [Effect.diagnostic .warning "Invalid number of parameters for PUMP command:"]
    else if (parameters.getD 0 []).length ≠ 1 ∨ (parameters.getD 1 []).length ≠ 1 then
      [Effect.diagnostic .warning "Invalid parameter sizes for PUMP command"]
    else
      [Effect.pumpStateChanged (paramByte parameters 0 0).val (paramByte parameters 1 0 ≠ 0)]
  else if command = k.PRESSURE then
    if nParameters ≠ 3 then
      [Effect.diagnostic .warning "Invalid number of parameters for PRESSURE command:"]
    else if (parameters.getD 0 []).length ≠ 1 ∨ (parameters.getD 1 []).length ≠ 1
        ∨ (parameters.getD 2 []).length ≠ 1 then
      [Effect.diagnostic .warning "Invalid parameter sizes for PRESSURE command"]
    else
      let number := paramByte parameters 0 0
      let sp := paramByte parameters 1 0
      let pv := paramByte parameters 2 0
      [Effect.pressureSetpointChanged number.val ((sp.val : ℚ) / (PR_MAX_VALUE : ℚ)),
       Effect.pressureChanged number.val ((pv.val : ℚ) / (PR_MAX_VALUE : ℚ))]
  else if command = k.UPTIME then
    if nParameters ≠ 1 then
      [Effect.diagnostic .warning "Invalid number of parameters for UPTIME command:"]
    else if (parameters.getD 0 []).length ≠ 4 then
      [Effect.diagnostic .warning "Invalid parameter size for UPTIME command"]
    else
      let value0 := paramByte parameters 0 0
      let value1 := paramByte parameters 0 1
      let value2 := paramByte parameters 0 2
      let value3 := paramByte parameters 0 3
      let uptime : Int :=
        wrapInt32 (value0.val <<< 24 ||| value1.val <<< 16 ||| value2.val <<< 8 ||| value3.val)
      [Effect.uptimeChanged (uptime % 2 ^ k.LONG_BITS).toNat]
  else if command = k.ERROR then
    [Effect.diagnostic .debug "Error received"]
  else if command = k.LOG then
    if nParameters ≠ 2 then
      [Effect.diagnostic .warning "Invalid number of parameters for LOG command"]
    else
      logMicrocontrollerMessage k (paramByte parameters 0 0) (parameters.getD 1 [])
  else
    [Effect.diagnostic .warning "Unknown command received:"]

/-- How a call of `Communicator::parseDecodedBuffer` ends: one of its three
early exits, or the call of `handleCommand` with the parameters collected.
`timeout` is the loop of the model running out of iterations. -/
inductive ParseTrace where
  | tooShort
  | unknownCommand
  | incomplete
  | handleCommand (command : Byte) (parameters : List (List Byte))
  | timeout
  deriving DecidableEq, Repr

/-- The `while (i < buffer.size())` loop of `Communicator::parseDecodedBuffer`,
run for at most the given number of iterations: `none` is the early `return`
on an incomplete parameter, `some (some parameters)` the normal exit of the
loop, `some none` the iterations running out. -/
def parseLoop (buffer : List Byte) :
    Nat → Nat → List (List Byte) → Option (Option (List (List Byte)))
  | 0, i, parameters => if i < buffer.length then some none else some (some parameters)
  | fuel + 1, i, parameters =>
    if i < buffer.length then
      let paramSize := (buffer.getD i 0).val
      let i := i + 1
      if i + paramSize ≤ buffer.length then
        let paramData := (buffer.drop i).take paramSize
        parseLoop buffer fuel (i + paramSize) (parameters ++ [paramData])
      else
        none
    else
      some (some parameters)

/-- The control path of `Communicator::parseDecodedBuffer`. Every iteration of
the loop advances `i` by at least one from 1, so `buffer.size()` iterations
are enough. -/
def parseDecodedBufferTrace (k : Constants) (buffer : List Byte) : ParseTrace :=
  if buffer.length < 2 then .tooShort
  else
    let command := buffer.getD 0 0
    if command < k.NUM_COMMANDS then
      match parseLoop buffer buffer.length 1 [] with
      | none => .incomplete
      | some (some parameters) => .handleCommand command parameters
      | some none => .timeout
    else .unknownCommand

/-- The function `Communicator::parseDecodedBuffer`: the effects of the path
taken. -/
def parseDecodedBuffer (k : Constants) (buffer : List Byte) : List Effect :=
  match parseDecodedBufferTrace k buffer with
  | .tooShort =>
    [Effect.diagnostic .warning
      "parseDecodedBuffer called when the buffer is too short to contain a message"]
  | .unknownCommand => [Effect.diagnostic .debug "Unknown command received. Full buffer: "]
  | .incomplete => [Effect.diagnostic .warning "Command parameter incomplete; ignoring command"]
  | .handleCommand command parameters => handleCommand k command parameters
  | .timeout => []

/-- The bytes of `message` in order, with one `ESCAPE_BYTE` inserted right
before each byte equal to `STOP_BYTE` or `ESCAPE_BYTE` and before no other
byte. -/
def escapeBytes (k : Constants) : List Byte → List Byte
  | [] => []
  | c :: rest =>
    if c = k.STOP_BYTE ∨ c = k.ESCAPE_BYTE then k.ESCAPE_BYTE :: c :: escapeBytes k rest
    else c :: escapeBytes k rest

/-- The wire format of a frame as the specification words it: `START_BYTE`, the
escaped bytes of the message, `STOP_BYTE`. -/
def frameSpec (k : Constants) (message : List Byte) : List Byte :=
  k.START_BYTE :: (escapeBytes k message ++ [k.STOP_BYTE])

/-- An idle decoder with an empty pending buffer: not recording, not escaped,
nothing accumulated. -/
def idle : Communicator :=
  { mConnectionStatus := .Disconnected, mBuffer := [], mDecodedBuffer := [],
    mDecoderRecording := false, mDecoderEscaped := false, mLastByteWasStart := false }

/-- The message body is not empty and its first byte is a known command tag,
that is, smaller than `NUM_COMMANDS`. -/
def startsWithCommand (k : Constants) : List Byte → Bool
  | [] => false
  | t :: _ => decide (t < k.NUM_COMMANDS)

/-- The frames of the given messages, one after the other. -/
def frameAll (k : Constants) : List (List Byte) → List Byte
  | [] => []
  | m :: ms => frameMessage k m ++ frameAll k ms

/-- The given number of consecutive calls of `decodeBuffer`: the arrays
returned, in the order of the calls, and the object after the last call. -/
def decodeCalls (k : Constants) : Nat → Communicator → List (List Byte) × Communicator
  | 0, s => ([], s)
  | n + 1, s =>
    let r := decodeBuffer k s
    let rs := decodeCalls k n r.2
    (r.1 :: rs.1, rs.2)

/-- Modelled from the spec: the loop of the caller of `decodeBuffer`, which is
not in the available sources, as section 4.1 words it: "callers must invoke
decode repeatedly, draining one message at a time, until no further completed
message is produced". The loop stops at the first call that returns an empty
array; the result is the messages returned before it and the object after it.
The first argument bounds the number of calls. -/
def drainUntilNoMessage (k : Constants) : Nat → Communicator → List (List Byte) × Communicator
  | 0, s => ([], s)
  | fuel + 1, s =>
    let r := decodeBuffer k s
    if r.1 = [] then ([], r.2)
    else
      let rs := drainUntilNoMessage k fuel r.2
      (r.1 :: rs.1, rs.2)

/-- Modelled from the spec: a chunk arrives, is appended to `mBuffer`, and the
caller drains with `drainUntilNoMessage`; then the next chunk. A call that
returns a message either removes a byte from `mBuffer` or leaves the recording
state, so the bound of twice the length of the buffer plus two calls is never
what ends the drain. -/
def feedUntilNoMessage (k : Constants) :
    Communicator → List (List Byte) → List (List Byte) × Communicator
  | s, [] => ([], s)
  | s, chunk :: chunks =>
    let s := { s with mBuffer := s.mBuffer ++ chunk }
    let d := drainUntilNoMessage k (2 * s.mBuffer.length + 2) s
    let r := feedUntilNoMessage k d.2 chunks
    (d.1 ++ r.1, r.2)

/-- Modelled from the spec: the loop of the caller of `decodeBuffer` as the doc
comment of `decodeBuffer` words it: "this method can be called repeatedly as
long as there is data left in mBuffer". The result is the non-empty arrays
returned, in order, and the object after the last call. The first argument
bounds the number of calls. -/
def drainWhileData (k : Constants) : Nat → Communicator → List (List Byte) × Communicator
  | 0, s => ([], s)
  | fuel + 1, s =>
    if s.mBuffer = [] then ([], s)
    else
      let r := decodeBuffer k s
      let rs := drainWhileData k fuel r.2
      (if r.1 = [] then rs.1 else r.1 :: rs.1, rs.2)

/-- Modelled from the spec: a chunk arrives, is appended to `mBuffer`, and the
caller drains with `drainWhileData`; then the next chunk. A call either
removes a byte from `mBuffer` or leaves the recording state, so twice the
length of the buffer plus one calls empty it. -/
def feedWhileData (k : Constants) :
    Communicator → List (List Byte) → List (List Byte) × Communicator
  | s, [] => ([], s)
  | s, chunk :: chunks =>
    let s := { s with mBuffer := s.mBuffer ++ chunk }
    let d := drainWhileData k (2 * s.mBuffer.length + 1) s
    let r := feedWhileData k d.2 chunks
    (d.1 ++ r.1, r.2)

/-- The length-prefixed layout of a parameter list, as the dispatcher reads it:
for each parameter one byte holding its length, then its bytes. -/
def encodeParameters : List (List Byte) → List Byte
  | [] => []
  | p :: ps => (Fin.ofNat p.length : Byte) :: (p ++ encodeParameters ps)

/-- The byte-at-a-time view of the decoder, used to reason about draining: what
the loop of `decodeBuffer` does with one byte, where a `break` on the byte is
followed at once by what the next call does with the same byte, which the
`break` left at the head of `mBuffer` and which that call meets while not
recording. The result is the decoder once the byte is consumed and the array
that the call ended by the `break` returns, if it found a complete message. -/
def scanByte (k : Constants) (s : Communicator) (c : Byte) : Communicator × Option (List Byte) :=
  if s.mDecoderRecording then
    if s.mDecoderEscaped then
      ({ s with mDecodedBuffer := s.mDecodedBuffer ++ [c], mDecoderEscaped := false,
                mLastByteWasStart := false }, none)
    else if c = k.ESCAPE_BYTE then
      ({ s with mDecoderEscaped := true, mLastByteWasStart := false }, none)
    else if c = k.STOP_BYTE then
      let s1 := { s with mDecoderRecording := false, mDecodedBuffer := [] }
      (if c = k.START_BYTE then { s1 with mDecoderRecording := true, mLastByteWasStart := true }
        else s1, some s.mDecodedBuffer)
    else if s.mLastByteWasStart ∧ k.NUM_COMMANDS ≤ c then
      let s1 := { s with mDecoderRecording := false, mLastByteWasStart := false }
      (if c = k.START_BYTE then { s1 with mDecoderRecording := true, mLastByteWasStart := true }
        else s1, none)
    else
      ({ s with mDecodedBuffer := s.mDecodedBuffer ++ [c], mLastByteWasStart := false }, none)
  else if c = k.START_BYTE then
    ({ s with mDecoderRecording := true, mLastByteWasStart := true }, none)
  else
    (s, none)

/-- A returned array in front of the later ones, when it is a message: a call
that found no complete message, or an empty one, returns the empty array. -/
def emit (returned : Option (List Byte)) (later : List (List Byte)) : List (List Byte) :=
  match returned with
  | some m => if m = [] then later else m :: later
  | none => later

/-- The byte-at-a-time view of draining: `scanByte` over the given bytes, the
non-empty arrays returned on the way, and the object at the end, its pending
buffer empty. -/
def scan (k : Constants) : List Byte → Communicator → List (List Byte) × Communicator
  | [], s => ([], { s with mBuffer := [] })
  | c :: rest, s =>
    let r := scanByte k s c
    let later := scan k rest r.1
    (emit r.2 later.1, later.2)

/-! ### The type `double` -/

/-- The power `2 ^ k` for an integer `k`, as a rational. -/
def pow2 (k : ℤ) : ℚ :=
  if 0 ≤ k then ((2 ^ k.toNat : ℕ) : ℚ) else 1 / ((2 ^ (-k).toNat : ℕ) : ℚ)

/-- The number of halvings that bring `n` below 2, in at most `fuel` steps: the
position of the highest bit of `n` when `fuel` is at least that. -/
def log2Loop : Nat → Nat → Nat
  | 0, _ => 0
  | fuel + 1, n => if n < 2 then 0 else log2Loop fuel (n / 2) + 1

/-- The binary exponent of a positive rational `a`: the integer `e` with
`2 ^ e ≤ a < 2 ^ (e + 1)`. -/
def ilog2 (a : ℚ) : ℤ :=
  let e : ℤ := (log2Loop a.num.toNat a.num.toNat : ℤ) - (log2Loop a.den a.den : ℤ)
  if pow2 e ≤ a then e else e - 1

/-- The integer nearest to `n`; of two equally near, the even one. -/
def roundEven (n : ℚ) : ℤ :=
  if n - (Int.floor n : ℚ) < 1 / 2 then Int.floor n
  else if 1 / 2 < n - (Int.floor n : ℚ) then Int.floor n + 1
  else if Int.floor n % 2 = 0 then Int.floor n
  else Int.floor n + 1

/-- The rounding of IEEE 754 binary64 on what is not negative, before the test
for overflow: the multiple of `2 ^ (e - 52)` nearest to `a`, ties to even, where
`e` is the binary exponent of `a` and at least -1022, so that the result has 53
significant bits, or fewer below `2 ^ (-1022)`. -/
def roundMagnitude (a : ℚ) : ℚ :=
  if a ≤ 0 then 0
  else (roundEven (a / pow2 (max (ilog2 a) (-1022) - 52)) : ℚ) * pow2 (max (ilog2 a) (-1022) - 52)

/-- A value of the C++ type `double`, which is IEEE 754 binary64 on the platforms
of Qt: a finite value, an infinity or a NaN. The finite values are the
rationals that `Double.ofRat` returns; the two zeros are one value here, and
the NaNs are one value. -/
inductive Double where
  | finite (value : ℚ)
  | infinite (negative : Bool)
  | nan
  deriving DecidableEq

/-- The `double` nearest to a rational, as the arithmetic of IEEE 754 rounds a
result and as a decimal literal or a decimal string is converted: to nearest,
ties to even, and to an infinity from `2 ^ 1024` on. -/
def Double.ofRat (q : ℚ) : Double :=
  if pow2 1024 ≤ roundMagnitude |q| then Double.infinite (decide (q < 0))
  else Double.finite (if q < 0 then -roundMagnitude |q| else roundMagnitude |q|)

/-- The finite value is one that `double` has: rounding leaves it as it is. -/
def Double.IsValue : Double → Prop
  | .finite v => Double.ofRat v = Double.finite v
  | _ => True

instance (x : Double) : Decidable x.IsValue := by
  cases x <;> unfold Double.IsValue <;> infer_instance

/-- The sum of two `double`s. -/
def Double.add : Double → Double → Double
  | .nan, _ => .nan
  | _, .nan => .nan
  | .infinite a, .infinite b => if a = b then .infinite a else .nan
  | .infinite a, .finite _ => .infinite a
  | .finite _, .infinite b => .infinite b
  | .finite x, .finite y => Double.ofRat (x + y)

/-- The product of two `double`s. -/
def Double.mul : Double → Double → Double
  | .nan, _ => .nan
  | _, .nan => .nan
  | .infinite a, .infinite b => .infinite (a != b)
  | .infinite a, .finite y => if y = 0 then .nan else .infinite (a != decide (y < 0))
  | .finite x, .infinite b => if x = 0 then .nan else .infinite (decide (x < 0) != b)
  | .finite x, .finite y => Double.ofRat (x * y)

/-- The quotient of two `double`s. A zero divisor is taken as the positive
zero. -/
def Double.div : Double → Double → Double
  | .nan, _ => .nan
  | _, .nan => .nan
  | .infinite _, .infinite _ => .nan
  | .infinite a, .finite y => .infinite (a != decide (y < 0))
  | .finite _, .infinite _ => .finite 0
  | .finite x, .finite y =>
    if y = 0 then (if x = 0 then .nan else .infinite (decide (x < 0)))
    else Double.ofRat (x / y)

/-- The comparison `x < y` of two `double`s, false when one of them is a NaN. -/
def Double.lt : Double → Double → Bool
  | .nan, _ => false
  | _, .nan => false
  | .infinite a, .infinite b => a && !b
  | .infinite a, .finite _ => a
  | .finite _, .infinite b => !b
  | .finite x, .finite y => decide (x < y)

instance : Add Double := ⟨Double.add⟩
instance : Mul Double := ⟨Double.mul⟩
instance : Div Double := ⟨Double.div⟩
instance : LT Double := ⟨fun x y => Double.lt x y = true⟩
instance (x y : Double) : Decidable (x < y) := inferInstanceAs (Decidable (Double.lt x y = true))
instance (n : Nat) : OfNat Double n := ⟨Double.ofRat n⟩

/-- The conversion of a `double` to an unsigned integer type of the given number
of bits: the fractional part is dropped; `none` where the C++ standard leaves
the behaviour undefined, that is for a NaN, an infinity, and a value whose
integer part the type cannot hold. -/
def Double.toUInt (bits : Nat) : Double → Option Nat
  | .finite v => if -1 < v ∧ v < ((2 ^ bits : ℕ) : ℚ) then some (Int.floor v).toNat else none
  | _ => none

/-! ### Outgoing commands -/

/-- The function `Communicator::setPressure`. In `uint8_t sp = pressure*PR_MAX_VALUE`
the product is the `double` product, rounded, and the conversion drops its
fractional part; `(uint8_t)controllerNumber` keeps the low 8 bits. The result
is `none` where the conversion to `uint8_t` is undefined. -/
def setPressure (k : Constants) (controllerNumber : Nat) (pressure : Double) :
    Option (List Effect) :=
  let log := Effect.diagnostic Channel.debug "Communicator: setting pressure controller"
  if pressure < 0 ∨ pressure > 1 then
    some [log, Effect.diagnostic Channel.warning "Pressure invalid. Must be between 0 and 1."]
  else
    match Double.toUInt 8 (pressure * Double.ofRat (PR_MAX_VALUE : ℚ)) with
    | none => none
    | some sp =>
      let message : List Byte := [k.PRESSURE, 1, Fin.ofNat controllerNumber, 1, Fin.ofNat sp]
      some [log, Effect.sendMessage (frameMessage k message)]

/-- The function `Communicator::setConnectionStatus`: the signal emitted, if any,
and the object after the call. -/
def setConnectionStatus (status : ConnectionStatus) (s : Communicator) :
    List Effect × Communicator :=
  if status ≠ s.mConnectionStatus then
    ([Effect.connectionStatusChanged status], { s with mConnectionStatus := status })
  else
    ([], s)

/-- Consecutive calls of `setConnectionStatus` with the given statuses: the
signals emitted, in order, and the object after the last call. -/
def setConnectionStatuses : List ConnectionStatus → Communicator → List Effect × Communicator
  | [], s => ([], s)
  | status :: rest, s =>
    let r := setConnectionStatus status s
    let later := setConnectionStatuses rest r.2
    (r.1 ++ later.1, later.2)

/-- The bytes a call of `decodeBuffer` removes from the front of `mBuffer`: the
first `decoderIndex` of them. -/
def consumed (k : Constants) (s : Communicator) : List Byte :=
  s.mBuffer.take (decodeLoop k s.mBuffer s 0).2.2

/-- A byte the decoder consumed, with the values `mDecoderRecording` and
`mDecoderEscaped` had when the loop of `decodeBuffer` met it. -/
structure LastConsumed where
  byte : Byte
  recording : Bool
  escaped : Bool
  deriving DecidableEq, Repr

/-- Arrivals and calls, from the given decoder: for each chunk in turn, the chunk
is appended to `mBuffer` (an empty chunk is a call with no new data) and
`decodeBuffer` is called once. The result is the object after the last call and
the last byte consumed so far, if any, with the flags the decoder had when it
met the byte: these are the flags after the loop has visited the consumed bytes
of the call but the last. -/
def feedCalls (k : Constants) :
    Communicator → Option LastConsumed → List (List Byte) → Communicator × Option LastConsumed
  | s, last, [] => (s, last)
  | s, last, chunk :: chunks =>
    let s1 := { s with mBuffer := s.mBuffer ++ chunk }
    let last :=
      match (consumed k s1).getLast? with
      | none => last
      | some c =>
        some ⟨c, (decodeLoop k (consumed k s1).dropLast s1 0).1.mDecoderRecording,
               (decodeLoop k (consumed k s1).dropLast s1 0).1.mDecoderEscaped⟩
    feedCalls k (decodeBuffer k s1).2 last chunks

/-- What holds of the decoder between two bytes: when it is not recording, or
when it records and the last byte was the start byte, it is not escaped and the
accumulator is empty. -/
def Communicator.settled (s : Communicator) : Prop :=
  (s.mDecoderRecording = false → s.mDecoderEscaped = false ∧ s.mDecodedBuffer = []) ∧
  (s.mDecoderRecording = true → s.mLastByteWasStart = true →
    s.mDecoderEscaped = false ∧ s.mDecodedBuffer = [])

/-! ### The routine interpreter -/

/-- A `QString`, as the list of its characters. -/
abbrev QString := List Char

/-- The function `QChar::isSpace` of Qt: the ASCII white space, U+0085, U+00A0 and
the characters of the Unicode separator categories. -/
def isSpace (c : Char) : Bool :=
  c = ' ' ∨ (9 ≤ c.toNat ∧ c.toNat ≤ 13) ∨ c.toNat = 0x85 ∨ c.toNat = 0xA0 ∨
  c.toNat = 0x1680 ∨ (0x2000 ≤ c.toNat ∧ c.toNat ≤ 0x200A) ∨ c.toNat = 0x2028 ∨
  c.toNat = 0x2029 ∨ c.toNat = 0x202F ∨ c.toNat = 0x205F ∨ c.toNat = 0x3000

/-- The call `line.remove(QRegExp("#.*"))`: the first `#` and everything after it
is removed. -/
def removeComment (line : QString) : QString :=
  line.takeWhile (fun c => c ≠ '#')

/-- The copy loop of `QString::simplified`: white space is skipped, and a single
space is written before a word that follows an earlier word. `started` says
that a word was written, `gap` that white space was met since. -/
def simplifiedFrom : Bool → Bool → QString → QString
  | _, _, [] => []
  | started, gap, c :: cs =>
    if isSpace c then simplifiedFrom started started cs
    else if gap then ' ' :: c :: simplifiedFrom true false cs
    else c :: simplifiedFrom true false cs

/-- The function `QString::simplified` of Qt: white space is removed from the start
and the end, and each run of white space inside is replaced by one space. -/
def simplified (line : QString) : QString :=
  simplifiedFrom false false line

/-- The function `QString::split(sep)` of Qt, which keeps empty parts. -/
def split (sep : Char) : QString → List QString
  | [] => [[]]
  | c :: cs =>
    if c = sep then [] :: split sep cs
    else
      match split sep cs with
      | [] => [[c]]
      | w :: ws => (c :: w) :: ws

/-- What `RoutineController::run` reads from outside the class: the component
counts and pressure ranges of the application controller, whose code is not in
the available sources, and the conversions `QString::toUInt` and
`QString::toDouble` of Qt, which give `none` where Qt sets `ok` to false. The
`double` that `toDouble` gives may be an infinity or a NaN. -/
structure Host where
  nValves : Nat
  nPressureControllers : Nat
  minPressure : Nat → Double
  maxPressure : Nat → Double
  toUInt : QString → Option Nat
  toDouble : QString → Option Double

/-- The enum `RoutineController::RunStatus`. -/
inductive RunStatus where
  | NotReady
  | Ready
  | Running
  | Paused
  | Finished
  deriving DecidableEq, Repr

/-- An error string of `RoutineController`: the text
`"Line " + QString::number(line) + ": ..."` is kept as the line number and the
fixed part of what follows it. -/
structure RoutineError where
  line : Nat
  text : String
  deriving DecidableEq, Repr

/-- The member variables of `RoutineController`. Their declarations are not in the
available sources; the types are those the constructor and `run` use them
with. -/
structure RoutineController where
  mRunStatus : RunStatus
  mCurrentStep : Int
  mErrorCount : Int
  mStopRequested : Bool
  mPauseRequested : Bool
  mNumberOfSteps : Int
  mTotalWaitTime : Double
  mElapsedTime : Double
  mLines : List QString
  mValidSteps : List QString
  mErrors : List RoutineError
  mRoutineName : QString
  deriving DecidableEq

/-- The signals of `RoutineController`, and the timed wait of a `wait` step with
its duration in milliseconds, which is `none` where the conversion
`uint64_t(time*1000)` is undefined. The `qDebug` lines of `run` are not
recorded. -/
inductive Signal where
  | runStatusChanged (status : RunStatus)
  | currentStepChanged (stepNumber : Int)
  | error (errorString : RoutineError)
  | setValve (valveNumber : Nat) (isOpen : Bool)
  | setPressure (controllerNumber : Nat) (pressure : Double)
  | setMultiplexer (channel : QString)
  | setInputMultiplexer (channel : QString)
  | totalRunTimeChanged (seconds : Double)
  | elapsedTimeChanged (seconds : Double)
  | waitFor (milliseconds : Option Nat)
  | stepsListChanged
  | paused
  | resumed
  | finished
  deriving DecidableEq

/-- The signals that ask the device to do something. -/
def Signal.isIntent : Signal → Bool
  | .setValve _ _ => true
  | .setPressure _ _ => true
  | .setMultiplexer _ => true
  | .setInputMultiplexer _ => true
  | _ => false

namespace RoutineController

/-- The object the constructor of `RoutineController` builds. -/
def initial : RoutineController :=
  { mRunStatus := .NotReady, mCurrentStep := -1, mErrorCount := 0, mStopRequested := false,
    mPauseRequested := false, mNumberOfSteps := -1, mTotalWaitTime := 0, mElapsedTime := 0,
    mLines := [], mValidSteps := [], mErrors := [], mRoutineName := [] }

/-- The function `RoutineController::reset`. -/
def reset (s : RoutineController) : RoutineController :=
  { s with mLines := [], mValidSteps := [], mErrors := [], mRoutineName := [],
           mNumberOfSteps := 0, mCurrentStep := -1, mErrorCount := 0, mRunStatus := .NotReady,
           mTotalWaitTime := 0, mElapsedTime := 0, mPauseRequested := false }

/-- The function `RoutineController::loadFile`. The argument is what the file
system gives: `none` when the file cannot be opened, else the lines read and
the base name of the file. The result is the returned `bool`, the signals and
the object after the call. -/
def loadFile (file : Option (List QString × QString)) (s : RoutineController) :
    Bool × List Signal × RoutineController :=
  let s := reset s
  match file with
  | none => (false, [], s)
  | some (lines, baseName) =>
    (true, [Signal.runStatusChanged .Ready],
      { s with mLines := s.mLines ++ lines, mRoutineName := baseName, mRunStatus := .Ready })

/-- The function `RoutineController::resume`. -/
def resume (s : RoutineController) : RoutineController :=
  { s with mPauseRequested := false }

/-- The function `RoutineController::wake`: it notifies the timed wait of a `wait`
step and changes no member. -/
def wake (s : RoutineController) : RoutineController := s

/-- The function `RoutineController::stop`. -/
def stop (s : RoutineController) : RoutineController :=
  let s := { s with mStopRequested := true }
  let s := if s.mRunStatus = .Paused then resume s else s
  wake s

/-- The function `RoutineController::pause`. -/
def pause (s : RoutineController) : RoutineController :=
  wake { s with mPauseRequested := true }

/-- The function `RoutineController::reportError`, called with the line number
and the text of the error string. -/
def reportError (line : Nat) (text : String) (s : RoutineController) :
    RoutineController × List Signal :=
  ({ s with mErrors := s.mErrors ++ [⟨line, text⟩], mErrorCount := s.mErrorCount + 1 },
   [Signal.error ⟨line, text⟩])

/-- The function `RoutineController::setCurrentStep`. -/
def setCurrentStep (stepNumber : Int) (s : RoutineController) :
    RoutineController × List Signal :=
  ({ s with mCurrentStep := stepNumber }, [Signal.currentStepChanged stepNumber])

end RoutineController

/-- What the body of the loop of `run` does with one line before it reaches the
stop and pause checks: the object, the signals, and whether the iteration
ended in a `continue`, which skips those checks. -/
structure LineResult where
  state : RoutineController
  signals : List Signal
  continued : Bool

/-- A call of `reportError` followed by `continue`. -/
def RoutineController.reject (line : Nat) (text : String) (s : RoutineController) : LineResult :=
  ⟨(RoutineController.reportError line text s).1, (RoutineController.reportError line text s).2,
    true⟩

/-- The loop `for (uint v(1); v <= nValves; v++) emit setValve(v, isOpen)`, run for
at most the given number of iterations; `v++` wraps at `2^32`. -/
def toggleAllLoop (nValves : Nat) (isOpen : Bool) : Nat → Nat → List Signal
  | 0, _ => []
  | fuel + 1, v =>
    if v ≤ nValves then
      Signal.setValve v isOpen :: toggleAllLoop nValves isOpen fuel ((v + 1) % 2 ^ 32)
    else []

/-- The factor a unit of a `wait` line stands for, in seconds: the `multiplier`
of `run`, where the literal `0.001` is the `double` nearest to 1/1000. -/
def waitMultiplier (unit : QString) : Double :=
  if unit = "ms".toList ∨ unit = "milliseconds".toList ∨ unit = "millisecond".toList
      ∨ unit = "msec".toList then Double.ofRat (1 / 1000)
  else if unit = "minutes".toList ∨ unit = "minute".toList ∨ unit = "min".toList
      ∨ unit = "mins".toList ∨ unit = "min".toList then 60
  else if unit = "hours".toList ∨ unit = "hour".toList ∨ unit = "hrs".toList
      ∨ unit = "hr".toList ∨ unit = "h".toList then 3600
  else 1

/-- The end of the `valve` branch of `run`, from `QString state = list[2]` on, with
`toggleAll` and `valveNumber` as the lines before it set them. -/
def valveStep (h : Host) (dummyRun : Bool) (i : Nat) (line : QString) (list : List QString)
    (toggleAll : Bool) (valveNumber : Nat) (s : RoutineController) : LineResult :=
  let state := list.getD 2 []
  if state ≠ "open".toList ∧ state ≠ "close".toList then
    s.reject (i + 1) ": valve status not recognized"
  else if dummyRun then
    ⟨{ s with mValidSteps := s.mValidSteps ++ [line] }, [], false⟩
  else
    let step := s.setCurrentStep (s.mCurrentStep + 1)
    let isOpen : Bool := decide (state = "open".toList)
    ⟨step.1,
     step.2 ++ (if toggleAll then toggleAllLoop h.nValves isOpen (h.nValves + 1) 1
                else [Signal.setValve valveNumber isOpen]),
     false⟩

/-- The `valve` branch of the loop body of `run`. -/
def valveLine (h : Host) (dummyRun : Bool) (i : Nat) (line : QString) (list : List QString)
    (s : RoutineController) : LineResult :=
  if list.length ≠ 3 then
    s.reject (i + 1) ": line starting with \"valve\" should contain 3 arguments."
  else if list.getD 1 [] = "all".toList then
    valveStep h dummyRun i line list true 0 s
  else
    match h.toUInt (list.getD 1 []) with
    | none => s.reject (i + 1) ": invalid valve ID"
    | some valveNumber =>
      if valveNumber < 1 ∨ valveNumber > h.nValves then s.reject (i + 1) ": invalid valve ID"
      else valveStep h dummyRun i line list false valveNumber s

/-- The `pressure` branch of the loop body of `run`. -/
def pressureLine (h : Host) (dummyRun : Bool) (i : Nat) (line : QString) (list : List QString)
    (s : RoutineController) : LineResult :=
  if list.length ≠ 3 then
    s.reject (i + 1) ": line starting with \"pressure\" should contain 3 arguments."
  else
    match h.toUInt (list.getD 1 []) with
    | none => s.reject (i + 1) ": invalid pressure controller ID"
    | some controllerNumber =>
      if controllerNumber < 1 ∨ controllerNumber > h.nPressureControllers then
        s.reject (i + 1) ": invalid pressure controller ID"
      else
        match h.toDouble (list.getD 2 []) with
        | none => s.reject (i + 1) ": Pressure value invalid"
        | some pressure =>
          if pressure < 0 then s.reject (i + 1) ": Pressure value invalid"
          else if pressure < h.minPressure controllerNumber
              ∨ pressure > h.maxPressure controllerNumber then
            s.reject (i + 1) ": Pressure value out of bounds for this controller"
          else if dummyRun then
            ⟨{ s with mValidSteps := s.mValidSteps ++ [line] }, [], false⟩
          else
            let p := h.minPressure controllerNumber + pressure / h.maxPressure controllerNumber
            let step := s.setCurrentStep (s.mCurrentStep + 1)
            ⟨step.1, step.2 ++ [Signal.setPressure controllerNumber p], false⟩

/-- The `wait` branch of the loop body of `run`. -/
def waitLine (h : Host) (dummyRun : Bool) (i : Nat) (line : QString) (list : List QString)
    (s : RoutineController) : LineResult :=
  if list.length ≠ 2 ∧ list.length ≠ 3 then
    s.reject (i + 1) ": line starting with \"wait\" should contain 2 or 3 arguments."
  else
    match h.toDouble (list.getD 1 []) with
    | none => s.reject (i + 1) ": could not parse wait time argument"
    | some time =>
      let time := if list.length = 3 then time * waitMultiplier (list.getD 2 []) else time
      if dummyRun then
        let total := s.mTotalWaitTime + time
        ⟨{ s with mValidSteps := s.mValidSteps ++ [line], mTotalWaitTime := total },
         [Signal.totalRunTimeChanged total], false⟩
      else
        let step := s.setCurrentStep (s.mCurrentStep + 1)
        let elapsed := step.1.mElapsedTime + time
        ⟨{ step.1 with mElapsedTime := elapsed },
         step.2 ++ [Signal.waitFor (Double.toUInt 64 (time * 1000)),
                    Signal.elapsedTimeChanged elapsed],
         false⟩

/-- The `multiplexer` branch of the loop body of `run`. -/
def multiplexerLine (dummyRun : Bool) (i : Nat) (line : QString) (list : List QString)
    (s : RoutineController) : LineResult :=
  if list.length ≠ 2 then
    s.reject (i + 1) ": line starting with \"multiplexer\" should contain 2 arguments."
  else
    let channel := list.getD 1 []
    if dummyRun then
      ⟨{ s with mValidSteps := s.mValidSteps ++ [line] }, [], false⟩
    else
      let step := s.setCurrentStep (s.mCurrentStep + 1)
      ⟨step.1, step.2 ++ [Signal.setMultiplexer channel], false⟩

/-- The `input` branch of the loop body of `run`. -/
def inputLine (dummyRun : Bool) (i : Nat) (line : QString) (list : List QString)
    (s : RoutineController) : LineResult :=
  if list.length ≠ 2 then
    s.reject (i + 1) ": line starting with \"input\" should contain 2 arguments."
  else
    let channel := list.getD 1 []
    if dummyRun then
      ⟨{ s with mValidSteps := s.mValidSteps ++ [line] }, [], false⟩
    else
      let step := s.setCurrentStep (s.mCurrentStep + 1)
      ⟨step.1, step.2 ++ [Signal.setInputMultiplexer channel], false⟩

/-- The body of the loop `for (int i(0); i < mLines.size(); ++i)` of
`RoutineController::run`, applied to the line `mLines[i]`, up to the stop and
pause checks. -/
def processLine (h : Host) (dummyRun : Bool) (i : Nat) (raw : QString)
    (s : RoutineController) : LineResult :=
  let line := simplified (removeComment raw)
  if line = [] then ⟨s, [], true⟩
  else
    let list := split ' ' line
    if list.getD 0 [] = "valve".toList then valveLine h dummyRun i line list s
    else if list.getD 0 [] = "pressure".toList then pressureLine h dummyRun i line list s
    else if list.getD 0 [] = "wait".toList then waitLine h dummyRun i line list s
    else if list.getD 0 [] = "multiplexer".toList then multiplexerLine dummyRun i line list s
    else if list.getD 0 [] = "input".toList then inputLine dummyRun i line list s
    else ⟨s, [], false⟩

/-- A line that `run` accepts, with the values `run` reads from it. -/
inductive Step where
  | valve (toggleAll : Bool) (valveNumber : Nat) (isOpen : Bool)
  | pressure (controllerNumber : Nat) (pressure : Double)
  | wait (time : Double)
  | multiplexer (channel : QString)
  | input (channel : QString)
  deriving DecidableEq

/-- What the checks of `run` make of a line, whatever the mode of the run and the
object: an empty line, a line refused with the text of its error, a line
accepted as a step, or a line whose first word is none of the five commands. -/
inductive LineAction where
  | blank
  | reject (text : String)
  | step (step : Step)
  | unknown
  deriving DecidableEq

/-- The checks of the `valve` branch of `run`, in the order of the source. -/
def classifyValve (h : Host) (list : List QString) : LineAction :=
  if list.length ≠ 3 then
    .reject ": line starting with \"valve\" should contain 3 arguments."
  else if list.getD 1 [] = "all".toList then
    if list.getD 2 [] ≠ "open".toList ∧ list.getD 2 [] ≠ "close".toList then
      .reject ": valve status not recognized"
    else .step (.valve true 0 (decide (list.getD 2 [] = "open".toList)))
  else
    match h.toUInt (list.getD 1 []) with
    | none => .reject ": invalid valve ID"
    | some valveNumber =>
      if valveNumber < 1 ∨ valveNumber > h.nValves then .reject ": invalid valve ID"
      else if list.getD 2 [] ≠ "open".toList ∧ list.getD 2 [] ≠ "close".toList then
        .reject ": valve status not recognized"
      else .step (.valve false valveNumber (decide (list.getD 2 [] = "open".toList)))

/-- The checks of the `pressure` branch of `run`, in the order of the source. -/
def classifyPressure (h : Host) (list : List QString) : LineAction :=
  if list.length ≠ 3 then
    .reject ": line starting with \"pressure\" should contain 3 arguments."
  else
    match h.toUInt (list.getD 1 []) with
    | none => .reject ": invalid pressure controller ID"
    | some controllerNumber =>
      if controllerNumber < 1 ∨ controllerNumber > h.nPressureControllers then
        .reject ": invalid pressure controller ID"
      else
        match h.toDouble (list.getD 2 []) with
        | none => .reject ": Pressure value invalid"
        | some pressure =>
          if pressure < 0 then .reject ": Pressure value invalid"
          else if pressure < h.minPressure controllerNumber
              ∨ pressure > h.maxPressure controllerNumber then
            .reject ": Pressure value out of bounds for this controller"
          else .step (.pressure controllerNumber pressure)

/-- The checks of the `wait` branch of `run`, in the order of the source. -/
def classifyWait (h : Host) (list : List QString) : LineAction :=
  if list.length ≠ 2 ∧ list.length ≠ 3 then
    .reject ": line starting with \"wait\" should contain 2 or 3 arguments."
  else
    match h.toDouble (list.getD 1 []) with
    | none => .reject ": could not parse wait time argument"
    | some time =>
      .step (.wait (if list.length = 3 then time * waitMultiplier (list.getD 2 []) else time))

/-- The checks the body of the loop of `run` makes on a line, after the comment is
removed and the white space simplified, in the order of the source. -/
def classify (h : Host) (line : QString) : LineAction :=
  if line = [] then .blank
  else
    let list := split ' ' line
    if list.getD 0 [] = "valve".toList then classifyValve h list
    else if list.getD 0 [] = "pressure".toList then classifyPressure h list
    else if list.getD 0 [] = "wait".toList then classifyWait h list
    else if list.getD 0 [] = "multiplexer".toList then
      if list.length ≠ 2 then
        .reject ": line starting with \"multiplexer\" should contain 2 arguments."
      else .step (.multiplexer (list.getD 1 []))
    else if list.getD 0 [] = "input".toList then
      if list.length ≠ 2 then
        .reject ": line starting with \"input\" should contain 2 arguments."
      else .step (.input (list.getD 1 []))
    else .unknown

/-- What the body of the loop of `run` does once the checks on the line are made:
nothing for an empty line or an unknown first word, `reportError` for a line
refused, and for a step the append to `mValidSteps` in a dry run or
`setCurrentStep` and the signals of the step in a live run. -/
def perform (h : Host) (dummyRun : Bool) (i : Nat) (line : QString) :
    LineAction → RoutineController → LineResult
  | .blank, s => ⟨s, [], true⟩
  | .reject text, s => s.reject (i + 1) text
  | .unknown, s => ⟨s, [], false⟩
  | .step (.valve toggleAll valveNumber isOpen), s =>
    if dummyRun then ⟨{ s with mValidSteps := s.mValidSteps ++ [line] }, [], false⟩
    else
      ⟨(s.setCurrentStep (s.mCurrentStep + 1)).1,
       (s.setCurrentStep (s.mCurrentStep + 1)).2
         ++ (if toggleAll then toggleAllLoop h.nValves isOpen (h.nValves + 1) 1
             else [Signal.setValve valveNumber isOpen]),
       false⟩
  | .step (.pressure controllerNumber pressure), s =>
    if dummyRun then ⟨{ s with mValidSteps := s.mValidSteps ++ [line] }, [], false⟩
    else
      ⟨(s.setCurrentStep (s.mCurrentStep + 1)).1,
       (s.setCurrentStep (s.mCurrentStep + 1)).2
         ++ [Signal.setPressure controllerNumber
              (h.minPressure controllerNumber + pressure / h.maxPressure controllerNumber)],
       false⟩
  | .step (.wait time), s =>
    if dummyRun then
      ⟨{ s with mValidSteps := s.mValidSteps ++ [line],
                mTotalWaitTime := s.mTotalWaitTime + time },
       [Signal.totalRunTimeChanged (s.mTotalWaitTime + time)], false⟩
    else
      ⟨{ (s.setCurrentStep (s.mCurrentStep + 1)).1 with
          mElapsedTime := (s.setCurrentStep (s.mCurrentStep + 1)).1.mElapsedTime + time },
       (s.setCurrentStep (s.mCurrentStep + 1)).2
         ++ [Signal.waitFor (Double.toUInt 64 (time * 1000)),
             Signal.elapsedTimeChanged
               ((s.setCurrentStep (s.mCurrentStep + 1)).1.mElapsedTime + time)],
       false⟩
  | .step (.multiplexer channel), s =>
    if dummyRun then ⟨{ s with mValidSteps := s.mValidSteps ++ [line] }, [], false⟩
    else
      ⟨(s.setCurrentStep (s.mCurrentStep + 1)).1,
       (s.setCurrentStep (s.mCurrentStep + 1)).2 ++ [Signal.setMultiplexer channel], false⟩
  | .step (.input channel), s =>
    if dummyRun then ⟨{ s with mValidSteps := s.mValidSteps ++ [line] }, [], false⟩
    else
      ⟨(s.setCurrentStep (s.mCurrentStep + 1)).1,
       (s.setCurrentStep (s.mCurrentStep + 1)).2 ++ [Signal.setInputMultiplexer channel],
       false⟩

/-- The rule of the grammar for a `valve` line, on the tokens after the first:
exactly two of them, the first `all` or an unsigned integer from 1 to the
number of valves, the second `open` or `close`. -/
def conformsValve (h : Host) (arguments : List QString) : Prop :=
  ∃ a b, arguments = [a, b] ∧
    (a = "all".toList ∨ ∃ v, h.toUInt a = some v ∧ 1 ≤ v ∧ v ≤ h.nValves) ∧
    (b = "open".toList ∨ b = "close".toList)

/-- A call another thread makes on the controller while `run` executes. -/
inductive Call where
  | stop
  | pause
  | resume
  | wake
  deriving DecidableEq, Repr

/-- The member function a `Call` stands for. -/
def Call.apply : Call → RoutineController → RoutineController
  | .stop, s => s.stop
  | .pause, s => s.pause
  | .resume, s => s.resume
  | .wake, s => s.wake

/-- What the other threads do while `run` executes, as far as `run` can tell: the
calls completed before `run` reads the flags at the end of iteration `i`, and
the calls made while `run` waits on the pause condition in iteration `i`. -/
structure Schedule where
  beforeCheck : Nat → List Call
  whilePaused : Nat → List Call

/-- No other thread calls the controller. -/
def Schedule.quiet : Schedule :=
  { beforeCheck := fun _ => [], whilePaused := fun _ => [] }

/-- The wait `mPauseConditionVariable.wait(lock, [this]{return !mPauseRequested;})`:
the calls of the other threads take effect one by one until `mPauseRequested`
is false; `none` when it is still true after the last of them, so that the wait
never ends. -/
def waitWhilePaused : List Call → RoutineController → Option RoutineController
  | [], s => if s.mPauseRequested then none else some s
  | c :: cs, s => if s.mPauseRequested then waitWhilePaused cs (c.apply s) else some s

/-- The object and the signals when `run` returns, or, with `returned` false, when
it waits for ever on the pause condition. -/
structure RunResult where
  state : RoutineController
  signals : List Signal
  returned : Bool

/-- The signals in front of those of a result. -/
def RunResult.after (signals : List Signal) (r : RunResult) : RunResult :=
  { r with signals := signals ++ r.signals }

/-- The loop `for (int i(0); i < mLines.size(); ++i)` of `RoutineController::run`
over the lines from index `i` on. It ends at the end of the lines or at a
`break`, with `returned` true, or in a wait that never ends. -/
def runLoop (h : Host) (dummyRun : Bool) (sched : Schedule) :
    List QString → Nat → RoutineController → RunResult
  | [], _, s => ⟨s, [], true⟩
  | raw :: rest, i, s =>
    let r := processLine h dummyRun i raw s
    if r.continued then
      (runLoop h dummyRun sched rest (i + 1) r.state).after r.signals
    else
      let s := (sched.beforeCheck i).foldl (fun s c => c.apply s) r.state
      if s.mStopRequested then ⟨s, r.signals, true⟩
      else if s.mPauseRequested then
        let s := { s with mRunStatus := RunStatus.Paused }
        match waitWhilePaused (sched.whilePaused i) s with
        | none => ⟨s, r.signals ++ [Signal.paused], false⟩
        | some s =>
          if s.mStopRequested then ⟨s, r.signals ++ [Signal.paused], true⟩
          else
            (runLoop h dummyRun sched rest (i + 1)
              { s with mRunStatus := RunStatus.Running }).after
              (r.signals ++ [Signal.paused, Signal.resumed])
      else
        (runLoop h dummyRun sched rest (i + 1) s).after r.signals

namespace RoutineController

/-- The function `RoutineController::run`. -/
def run (h : Host) (dummyRun : Bool) (sched : Schedule) (s : RoutineController) : RunResult :=
  let s := { s with mErrorCount := 0, mErrors := [], mCurrentStep := -1,
                    mStopRequested := false, mElapsedTime := 0 }
  let started : List Signal := if dummyRun then [] else [Signal.runStatusChanged .Running]
  let s := if dummyRun then s else { s with mRunStatus := .Running }
  let s := if dummyRun then { s with mValidSteps := [], mTotalWaitTime := 0 } else s
  let loop := (runLoop h dummyRun sched s.mLines 0 s).after started
  if loop.returned then
    let s := loop.state
    let changed : List Signal := if s.mValidSteps ≠ [] then [Signal.stepsListChanged] else []
    if dummyRun then
      ⟨{ s with mNumberOfSteps := s.mValidSteps.length }, loop.signals ++ changed, true⟩
    else
      ⟨{ s with mRunStatus := .Finished },
       loop.signals ++ changed ++ [Signal.runStatusChanged .Finished, Signal.finished], true⟩
  else loop

/-- The function `RoutineController::verify`: the returned error count, and the
result of the dry run. -/
def verify (h : Host) (sched : Schedule) (s : RoutineController) : Int × RunResult :=
  let r := run h true sched s
  (r.state.mErrorCount, r)

/-- The function `RoutineController::begin`; the thread it starts executes
`run(false)`. -/
def begin (h : Host) (sched : Schedule) (s : RoutineController) : RunResult :=
  run h false sched s

end RoutineController

/-- The object when a dry run reaches its loop: the members that `run(true)`
resets before the loop have their start values. -/
def dryStart (s : RoutineController) : RoutineController :=
  { s with mErrorCount := 0, mErrors := [], mCurrentStep := -1, mStopRequested := false,
           mElapsedTime := 0, mValidSteps := [], mTotalWaitTime := 0 }

/-- The number of lines that are not empty once the comment is removed and the
white space simplified, which are the lines `run` goes on to split. -/
def nonEmptyLines (lines : List QString) : Nat :=
  (lines.filter (fun raw => decide (simplified (removeComment raw) ≠ []))).length

/-- The value of a string of decimal digits, `none` when a character is no digit. -/
def decimalValue : QString → Nat → Option Nat
  | [], acc => some acc
  | c :: cs, acc =>
    if '0' ≤ c ∧ c ≤ '9' then decimalValue cs (10 * acc + (c.toNat - '0'.toNat)) else none

/-- A stand-in for `QString::toUInt`, which is library code, on what the examples
need: a non-empty string of decimal digits with a value below `2^32`. -/
def sampleToUInt (text : QString) : Option Nat :=
  if text = [] then none
  else
    match decimalValue text 0 with
    | some v => if v < 2 ^ 32 then some v else none
    | none => none

/-- A stand-in for `QString::toDouble`, which is library code, on what the examples
need: `nan` gives a NaN and `inf` an infinity, as the conversion of Qt does, and
decimal digits with an optional fraction after a point give the `double`
nearest to the decimal value. -/
def sampleToDouble (text : QString) : Option Double :=
  if text = "nan".toList then some Double.nan
  else if text = "inf".toList then some (Double.infinite false)
  else
    match split '.' text with
    | [whole] =>
      if whole = [] then none else (decimalValue whole 0).map (fun v => Double.ofRat (v : ℚ))
    | [whole, fraction] =>
      if whole = [] ∨ fraction = [] then none
      else
        match decimalValue whole 0, decimalValue fraction 0 with
        | some v, some f => some (Double.ofRat ((v : ℚ) + (f : ℚ) / (10 : ℚ) ^ fraction.length))
        | _, _ => none
    | _ => none

/-- A host with 32 valves and 3 pressure controllers whose range is 0 to 10, for
evaluating the definitions at concrete inputs. -/
def sampleHost : Host :=
  { nValves := 32, nPressureControllers := 3, minPressure := fun _ => 0,
    maxPressure := fun _ => 10, toUInt := sampleToUInt, toDouble := sampleToDouble }

/-- The controller after `loadFile` has read the given lines into a new object. -/
def loaded (lines : List QString) : RoutineController :=
  (RoutineController.loadFile (some (lines, "routine".toList)) RoutineController.initial).2.2

/-- The factor a unit of a `wait` line stands for as the specification words it:
"unit one of {ms, millisecond(s), msec} → ×0.001, {min, mins, minute(s)} → ×60,
{h, hr, hrs, hour(s)} → ×3600, absent/unrecognized → ×1 (seconds)". The factors
are `double`s, 0.001 the one nearest to 1/1000. -/
def specWaitFactor : Option QString → Double
  | none => 1
  | some u =>
    if u ∈ ["ms".toList, "millisecond".toList, "milliseconds".toList, "msec".toList] then
      Double.ofRat (1 / 1000)
    else if u ∈ ["min".toList, "mins".toList, "minute".toList, "minutes".toList] then 60
    else if u ∈ ["h".toList, "hr".toList, "hrs".toList, "hour".toList, "hours".toList] then
      3600
    else 1

/-- The seconds a `wait` line stands for as the specification words it, from the
tokens after the first: the amount times the factor of the unit, as a product
of `double`s, for `wait <amount> [unit]` with a numeric amount, and `none` for a
line that has fewer than 2 or more than 3 tokens or an amount that is not
numeric. -/
def specWaitSeconds (h : Host) : List QString → Option Double
  | [a] => (h.toDouble a).map (fun amount => amount * specWaitFactor none)
  | [a, u] => (h.toDouble a).map (fun amount => amount * specWaitFactor (some u))
  | _ => none

/-- The seconds of a line of the routine as the specification words it, when
the line is an accepted `wait` line. -/
def specLineWait (h : Host) (raw : QString) : Option Double :=
  match split ' ' (simplified (removeComment raw)) with
  | first :: arguments => if first = "wait".toList then specWaitSeconds h arguments else none
  | [] => none

/-- The seconds of the accepted `wait` lines of the routine, in the order of the
file. -/
def specWaitTimes (h : Host) (lines : List QString) : List Double :=
  lines.filterMap (specLineWait h)

/-- The sum of `double`s, added one after the other from zero, as `run` adds them
to `mTotalWaitTime`. -/
def doubleSum (times : List Double) : Double :=
  times.foldl (fun total time => total + time) 0

/-- The seconds of a `wait` step. -/
def LineAction.waitTime : LineAction → Option Double
  | .step (.wait time) => some time
  | _ => none

/-- The string holds white space only; it may be empty. -/
def isBlank (w : QString) : Bool :=
  w.all isSpace

/-- The string is white space between two words: not empty, white space only. -/
def isGap (w : QString) : Bool :=
  !w.isEmpty && w.all isSpace

/-- The string is a word of a line: not empty, with no white space and no `#`. -/
def isWord (w : QString) : Bool :=
  !w.isEmpty && w.all (fun c => !isSpace c && c != '#')

/-- A line as it may be laid out in a routine file: white space, the first word,
then each further word after a gap of white space, then white space. -/
def spacedLine (lead first : QString) (more : List (QString × QString)) (trail : QString) :
    QString :=
  lead ++ (first ++ ((more.map (fun gw => gw.1 ++ gw.2)).flatten ++ trail))

/-- The words of a line with one space between each two: the normalized line. -/
def normalLine (first : QString) (words : List QString) : QString :=
  first ++ (words.map (fun w => ' ' :: w)).flatten

/-- The checks on the line accept it as a step. -/
def LineAction.isStep : LineAction → Bool
  | .step _ => true
  | _ => false

/-- The value a signal tells was written to `mRunStatus`. In `loadFile` and `run`
each assignment to `mRunStatus` is followed at once by one signal:
`runStatusChanged(x)` after `mRunStatus = x`, `paused()` after
`mRunStatus = Paused` and `resumed()` after `mRunStatus = Running`; and these
signals are emitted nowhere else. -/
def Signal.statusWritten : Signal → Option RunStatus
  | .runStatusChanged status => some status
  | .paused => some RunStatus.Paused
  | .resumed => some RunStatus.Running
  | _ => none

/-- The values written to `mRunStatus` while the given signals were emitted, in
order. -/
def statusWrites (signals : List Signal) : List RunStatus :=
  signals.filterMap Signal.statusWritten

/-- The status after the given writes, from the given status. -/
def statusAfter (start : RunStatus) (writes : List RunStatus) : RunStatus :=
  writes.foldl (fun _ w => w) start

/-- A write of `Running` comes right after a write of `Paused`. -/
def RunningAfterPaused (before after : RunStatus) : Prop :=
  after = RunStatus.Running → before = RunStatus.Paused

/-- The object when a live run reaches its loop: the members that `run(false)`
resets before the loop have their start values and the status is `Running`. -/
def liveStart (s : RoutineController) : RoutineController :=
  { s with mErrorCount := 0, mErrors := [], mCurrentStep := -1, mStopRequested := false,
           mElapsedTime := 0, mRunStatus := RunStatus.Running }

/-- The errors the checks on line `i` of the file report. -/
def LineAction.errors (i : Nat) : LineAction → List RoutineError
  | .reject text => [⟨i + 1, text⟩]
  | _ => []

/-- The step index a `currentStepChanged` signal announces. -/
def Signal.stepNumber : Signal → Option Int
  | .currentStepChanged n => some n
  | _ => none

/-- The error an `error` signal announces. -/
def Signal.errorString : Signal → Option RoutineError
  | .error e => some e
  | _ => none

/-- The step indices the given signals announce, in order. -/
def stepNumbers (signals : List Signal) : List Int :=
  signals.filterMap Signal.stepNumber

/-- The errors the given signals announce, in order. -/
def errorSignals (signals : List Signal) : List RoutineError :=
  signals.filterMap Signal.errorString

/-- The normalized lines of the routine that the checks of `run` accept as
steps, in the order of the file. -/
def stepLines (h : Host) (lines : List QString) : List QString :=
  (lines.map (fun raw => simplified (removeComment raw))).filter
    (fun line => (classify h line).isStep)

/-- The errors the checks of `run` report on the lines of the routine from index
`i` on, in the order of the file. -/
def lineErrors (h : Host) : List QString → Nat → List RoutineError
  | [], _ => []
  | raw :: rest, i =>
    (classify h (simplified (removeComment raw))).errors i ++ lineErrors h rest (i + 1)

/-- What holds of the status when the loop of `run` is left or waits for ever,
for a loop that starts with the status `start`: the status of the object is the
one the writes give; each write of `Running` comes right after a write of
`Paused`; and when the status is `Paused` at the end, either it was so from the
start and nothing was written, or the last signal is `paused()` and, when the
loop was left, a stop was requested. -/
def LoopExit (start : RunStatus) (r : RunResult) : Prop :=
  r.state.mRunStatus = statusAfter start (statusWrites r.signals) ∧
  (∀ prev, List.Chain RunningAfterPaused prev (statusWrites r.signals)) ∧
  (r.state.mRunStatus = RunStatus.Paused →
    (start = RunStatus.Paused ∧ statusWrites r.signals = []) ∨
    ((∃ pre, r.signals = pre ++ [Signal.paused]) ∧
      (r.returned = true → r.state.mStopRequested = true)))

/-- Modelled from the spec: one assignment of the protocol constants, for
evaluating the definitions at concrete inputs. The command tags are the
"closed, contiguous enumeration" of section 6 in the order section 3 lists the
commands (Valve, Pump, Pressure, Status, Uptime, Error, Log), of which the
dispatcher uses all but Status; the three marker bytes and the log levels, which neither the
specification nor the available sources give, are distinct values with the
markers above the command range. -/
def sampleConstants : Constants :=
  { START_BYTE := 249, STOP_BYTE := 250, ESCAPE_BYTE := 251, NUM_COMMANDS := 7,
    VALVE := 0, PUMP := 1, PRESSURE := 2, UPTIME := 4, ERROR := 5, LOG := 6,
    LOG_FATAL := 0, LOG_ERROR := 1, LOG_WARNING := 2, LOG_INFO := 3, LOG_DEBUG := 4,
    LONG_BITS := 64 }

/-! ## The frame codec -/

theorem foldl_frame_eq (k : Constants) (message acc : List Byte) :
    message.foldl
      (fun framedMessage c =>
        (if c = k.STOP_BYTE ∨ c = k.ESCAPE_BYTE then framedMessage ++ [k.ESCAPE_BYTE]
          else framedMessage) ++ [c]) acc
      = acc ++ escapeBytes k message := by
  induction message generalizing acc with
  | nil => simp [escapeBytes]
  | cons c rest ih =>
    rw [List.foldl_cons, ih]
    by_cases h : c = k.STOP_BYTE ∨ c = k.ESCAPE_BYTE
    · simp [escapeBytes, h]
    · simp [escapeBytes, h]

theorem frameMessage_eq_frameSpec (k : Constants) (message : List Byte) :
    frameMessage k message = frameSpec k message := by
  unfold frameMessage frameSpec
  simp only [foldl_frame_eq]
  simp

theorem length_escapeBytes (k : Constants) (message : List Byte) :
    (escapeBytes k message).length
      = message.length + message.countP (fun c => c = k.STOP_BYTE ∨ c = k.ESCAPE_BYTE) := by
  induction message with
  | nil => simp [escapeBytes]
  | cons c rest ih =>
    by_cases h : c = k.STOP_BYTE ∨ c = k.ESCAPE_BYTE
    · simp [escapeBytes, h, ih, List.countP_cons]; omega
    · simp [escapeBytes, h, ih, List.countP_cons]; omega

theorem decodeLoop_junk (k : Constants) (j rest : List Byte) (s : Communicator) (i : Nat)
    (hrec : s.mDecoderRecording = false) (hj : k.START_BYTE ∉ j) :
    decodeLoop k (j ++ rest) s i = decodeLoop k rest s (i + j.length) := by
  induction j generalizing i with
  | nil => simp
  | cons c j ih =>
    have hc : c ≠ k.START_BYTE := fun h => hj (by simp [h])
    have hj2 : k.START_BYTE ∉ j := fun h => hj (by simp [h])
    rw [List.cons_append, decodeLoop]
    simp only [hrec, hc, if_false, Bool.false_eq_true]
    rw [ih _ hj2, List.length_cons, Nat.add_assoc, Nat.add_comm 1]

theorem decodeLoop_escapeBytes (k : Constants) (m rest : List Byte) (s : Communicator) (i : Nat)
    (hrec : s.mDecoderRecording = true) (hesc : s.mDecoderEscaped = false)
    (hfirst : s.mLastByteWasStart = true → ∃ t m2, m = t :: m2 ∧ t < k.NUM_COMMANDS) :
    decodeLoop k (escapeBytes k m ++ rest) s i
      = decodeLoop k rest
          { s with mDecodedBuffer := s.mDecodedBuffer ++ m,
                   mLastByteWasStart := s.mLastByteWasStart && m.isEmpty }
          (i + (escapeBytes k m).length) := by
  induction m generalizing s i with
  | nil =>
    obtain ⟨cs, buf, dec, rc, es, last⟩ := s
    simp [escapeBytes]
  | cons c m ih =>
    obtain ⟨cs, buf, dec, rc, es, last⟩ := s
    simp only at hrec hesc hfirst
    subst hrec hesc
    by_cases h : c = k.STOP_BYTE ∨ c = k.ESCAPE_BYTE
    · have e : escapeBytes k (c :: m) ++ rest
          = k.ESCAPE_BYTE :: c :: (escapeBytes k m ++ rest) := by simp [escapeBytes, h]
      rw [e, decodeLoop]
      simp only [if_true, Bool.false_eq_true, if_false]
      rw [decodeLoop]
      simp only [if_true]
      rw [ih _ _ rfl rfl (by simp)]
      simp [escapeBytes, h, Nat.add_assoc, Nat.add_comm 1, Nat.add_comm 2]
    · have h1 : c ≠ k.STOP_BYTE := fun e => h (Or.inl e)
      have h2 : c ≠ k.ESCAPE_BYTE := fun e => h (Or.inr e)
      have h3 : ¬ (last = true ∧ k.NUM_COMMANDS ≤ c) := by
        rintro ⟨hl, hle⟩
        obtain ⟨t, m2, hm, ht⟩ := hfirst hl
        simp only [List.cons.injEq] at hm
        obtain ⟨rfl, -⟩ := hm
        exact absurd hle (not_le.mpr ht)
      have e : escapeBytes k (c :: m) ++ rest = c :: (escapeBytes k m ++ rest) := by
        simp [escapeBytes, h]
      rw [e, decodeLoop]
      simp only [if_true, Bool.false_eq_true, if_false, h1, h2, h3]
      rw [ih _ _ rfl rfl (by simp)]
      simp [escapeBytes, h, Nat.add_assoc, Nat.add_comm 1]

theorem drop_frame_head (a b d : List Byte) (c : Byte) :
    List.drop (a.length + 1 + b.length) (a ++ c :: (b ++ d)) = d := by
  have e : a ++ c :: (b ++ d) = (a ++ c :: b) ++ d := by simp
  rw [e]
  exact List.drop_left' (by simp; omega)

theorem decodeBuffer_frame (k : Constants) (s : Communicator) (j m rest : List Byte)
    (hse : k.STOP_BYTE ≠ k.ESCAPE_BYTE)
    (hrec : s.mDecoderRecording = false) (hesc : s.mDecoderEscaped = false)
    (hacc : s.mDecodedBuffer = [])
    (hj : k.START_BYTE ∉ j)
    (hm : ∃ t m2, m = t :: m2 ∧ t < k.NUM_COMMANDS)
    (hbuf : s.mBuffer = j ++ frameMessage k m ++ rest) :
    decodeBuffer k s
      = (m, { s with mBuffer := k.STOP_BYTE :: rest, mLastByteWasStart := false }) := by
  obtain ⟨cs, buf, dec, rc, es, last⟩ := s
  simp only at hrec hesc hacc hbuf
  subst hrec hesc hacc hbuf
  obtain ⟨t, m2, rfl, ht⟩ := hm
  unfold decodeBuffer
  simp only [frameMessage_eq_frameSpec, frameSpec, List.append_assoc, List.cons_append]
  rw [decodeLoop_junk k j _ _ _ rfl hj, decodeLoop]
  simp only [Bool.false_eq_true, if_false, if_true]
  rw [decodeLoop_escapeBytes k (t :: m2) _ _ _ rfl rfl (fun _ => ⟨t, m2, rfl, ht⟩), decodeLoop]
  simp [hse, drop_frame_head]

theorem startsWithCommand_iff (k : Constants) (m : List Byte) :
    startsWithCommand k m = true ↔ ∃ t m2, m = t :: m2 ∧ t < k.NUM_COMMANDS := by
  cases m with
  | nil => simp [startsWithCommand]
  | cons t m2 => simp [startsWithCommand]

theorem decodeBuffer_junk (k : Constants) (s : Communicator)
    (hrec : s.mDecoderRecording = false) (hj : k.START_BYTE ∉ s.mBuffer) :
    decodeBuffer k s = ([], { s with mBuffer := [] }) := by
  unfold decodeBuffer
  have h := decodeLoop_junk k s.mBuffer [] s 0 hrec hj
  rw [List.append_nil] at h
  rw [h]
  simp [decodeLoop]

theorem decodeCalls_frames (k : Constants) (hss : k.START_BYTE ≠ k.STOP_BYTE)
    (hse : k.STOP_BYTE ≠ k.ESCAPE_BYTE) (n : Nat) :
    ∀ (ms : List (List Byte)) (s : Communicator) (j : List Byte),
      s.mDecoderRecording = false → s.mDecoderEscaped = false → s.mDecodedBuffer = [] →
      k.START_BYTE ∉ j → (∀ m ∈ ms, ∃ t m2, m = t :: m2 ∧ t < k.NUM_COMMANDS) →
      s.mBuffer = j ++ frameAll k ms → n ≤ ms.length →
      (decodeCalls k n s).1 = ms.take n ∧
      (decodeCalls k n s).2.mBuffer
        = (if n = 0 then j else [k.STOP_BYTE]) ++ frameAll k (ms.drop n) ∧
      (decodeCalls k n s).2.mDecoderRecording = false ∧
      (decodeCalls k n s).2.mDecoderEscaped = false ∧
      (decodeCalls k n s).2.mDecodedBuffer = [] := by
  induction n with
  | zero =>
    intro ms s j hrec hesc hacc _ _ hbuf _
    simp [decodeCalls, hrec, hesc, hacc, hbuf]
  | succ n ih =>
    intro ms s j hrec hesc hacc hj hms hbuf hn
    cases ms with
    | nil => simp at hn
    | cons m ms =>
      have hm := hms m (by simp)
      have hb : s.mBuffer = j ++ frameMessage k m ++ frameAll k ms := by
        rw [hbuf, frameAll, List.append_assoc]
      have hcall := decodeBuffer_frame k s j m (frameAll k ms) hse hrec hesc hacc hj hm hb
      have hjunk : k.START_BYTE ∉ [k.STOP_BYTE] := by simpa using hss
      have hrest := ih ms
        { s with mBuffer := k.STOP_BYTE :: frameAll k ms, mLastByteWasStart := false }
        [k.STOP_BYTE] hrec hesc hacc hjunk (fun x hx => hms x (by simp [hx])) rfl
        (by simpa using hn)
      simp only [decodeCalls, hcall, List.take_succ_cons, List.drop_succ_cons]
      refine ⟨by rw [hrest.1], ?_, hrest.2.2.1, hrest.2.2.2.1, hrest.2.2.2.2⟩
      rw [hrest.2.1]
      by_cases h0 : n = 0 <;> simp [h0]

theorem decodeCalls_frames_then_empty (k : Constants) (hss : k.START_BYTE ≠ k.STOP_BYTE)
    (hse : k.STOP_BYTE ≠ k.ESCAPE_BYTE) :
    ∀ (ms : List (List Byte)) (s : Communicator) (j : List Byte),
      s.mDecoderRecording = false → s.mDecoderEscaped = false → s.mDecodedBuffer = [] →
      k.START_BYTE ∉ j → (∀ m ∈ ms, ∃ t m2, m = t :: m2 ∧ t < k.NUM_COMMANDS) →
      s.mBuffer = j ++ frameAll k ms →
      (decodeCalls k (ms.length + 1) s).1 = ms ++ [[]] := by
  intro ms
  induction ms with
  | nil =>
    intro s j hrec _ _ hj _ hbuf
    have hj2 : k.START_BYTE ∉ s.mBuffer := by simpa [hbuf, frameAll] using hj
    simp [decodeCalls, decodeBuffer_junk k s hrec hj2]
  | cons m ms ih =>
    intro s j hrec hesc hacc hj hms hbuf
    have hm := hms m (by simp)
    have hb : s.mBuffer = j ++ frameMessage k m ++ frameAll k ms := by
      rw [hbuf, frameAll, List.append_assoc]
    have hcall := decodeBuffer_frame k s j m (frameAll k ms) hse hrec hesc hacc hj hm hb
    have hjunk : k.START_BYTE ∉ [k.STOP_BYTE] := by simpa using hss
    have hrest := ih
      { s with mBuffer := k.STOP_BYTE :: frameAll k ms, mLastByteWasStart := false }
      [k.STOP_BYTE] hrec hesc hacc hjunk (fun x hx => hms x (by simp [hx])) rfl
    rw [List.length_cons, decodeCalls]
    simp only [hcall, hrest, List.cons_append]

theorem escapeBytes_append (k : Constants) (a b : List Byte) :
    escapeBytes k (a ++ b) = escapeBytes k a ++ escapeBytes k b := by
  induction a with
  | nil => simp [escapeBytes]
  | cons c a ih =>
    by_cases h : c = k.STOP_BYTE ∨ c = k.ESCAPE_BYTE
    · simp [escapeBytes, h, ih]
    · simp [escapeBytes, h, ih]

theorem escapeBytes_of_clean (k : Constants) (p : List Byte)
    (hs : k.STOP_BYTE ∉ p) (he : k.ESCAPE_BYTE ∉ p) : escapeBytes k p = p := by
  induction p with
  | nil => simp [escapeBytes]
  | cons c p ih =>
    have h1 : c ≠ k.STOP_BYTE := fun e => hs (by simp [e])
    have h2 : c ≠ k.ESCAPE_BYTE := fun e => he (by simp [e])
    have hs2 : k.STOP_BYTE ∉ p := fun e => hs (by simp [e])
    have he2 : k.ESCAPE_BYTE ∉ p := fun e => he (by simp [e])
    simp [escapeBytes, h1, h2, ih hs2 he2]

theorem partial_frame_merges (k : Constants) (p m : List Byte)
    (hss : k.START_BYTE ≠ k.STOP_BYTE) (hsta : k.START_BYTE ≠ k.ESCAPE_BYTE)
    (hs : k.STOP_BYTE ∉ p) (he : k.ESCAPE_BYTE ∉ p) :
    k.START_BYTE :: p ++ frameMessage k m = frameMessage k (p ++ k.START_BYTE :: m) := by
  have e : escapeBytes k (k.START_BYTE :: m) = k.START_BYTE :: escapeBytes k m := by
    simp [escapeBytes, hss, hsta]
  simp only [frameMessage_eq_frameSpec, frameSpec, escapeBytes_append, e,
    escapeBytes_of_clean k p hs he]
  simp

theorem drainWhileData_of_empty (k : Constants) (fuel : Nat) (s : Communicator)
    (h : s.mBuffer = []) : drainWhileData k fuel s = ([], s) := by
  cases fuel <;> simp [drainWhileData, h]

theorem startsWithCommand_append (k : Constants) (p q : List Byte)
    (h : startsWithCommand k p = true) : startsWithCommand k (p ++ q) = true := by
  cases p with
  | nil => simp [startsWithCommand] at h
  | cons t p => simpa [startsWithCommand] using h

theorem decodeBuffer_invalid_tag (k : Constants) (s : Communicator) (b : Byte)
    (rest : List Byte)
    (hrec : s.mDecoderRecording = false) (hesc : s.mDecoderEscaped = false)
    (hb : k.NUM_COMMANDS ≤ b) (hbe : b ≠ k.ESCAPE_BYTE) (hbs : b ≠ k.STOP_BYTE)
    (hbuf : s.mBuffer = k.START_BYTE :: b :: rest) :
    decodeBuffer k s
      = ([], { s with mBuffer := b :: rest, mLastByteWasStart := false }) := by
  obtain ⟨cs, buf, dec, rc, es, last⟩ := s
  simp only at hrec hesc hbuf
  subst hrec hesc hbuf
  unfold decodeBuffer
  rw [decodeLoop]
  simp only [Bool.false_eq_true, if_false, if_true]
  simp [decodeLoop, hbe, hbs, hb]

/-! ## Draining and chunk boundaries -/

theorem scanByte_mBuffer (k : Constants) (s : Communicator) (b : List Byte) (c : Byte) :
    scanByte k { s with mBuffer := b } c
      = ({ (scanByte k s c).1 with mBuffer := b }, (scanByte k s c).2) := by
  unfold scanByte
  simp only
  split_ifs <;> rfl

theorem scan_mBuffer (k : Constants) (bytes : List Byte) :
    ∀ (s : Communicator) (b : List Byte), scan k bytes { s with mBuffer := b } = scan k bytes s := by
  induction bytes with
  | nil => intro s b; simp [scan]
  | cons c rest ih =>
    intro s b
    simp only [scan, scanByte_mBuffer, ih]

theorem scan_mBuffer_nil (k : Constants) (bytes : List Byte) :
    ∀ s : Communicator, (scan k bytes s).2.mBuffer = [] := by
  induction bytes with
  | nil => intro s; simp [scan]
  | cons c rest ih => intro s; simp only [scan, ih]

theorem emit_append (r : Option (List Byte)) (a b : List (List Byte)) :
    emit r (a ++ b) = emit r a ++ b := by
  unfold emit
  split
  · split_ifs <;> simp
  · rfl

theorem scan_append (k : Constants) (a b : List Byte) :
    ∀ s : Communicator,
      scan k (a ++ b) s = ((scan k a s).1 ++ (scan k b (scan k a s).2).1,
                           (scan k b (scan k a s).2).2) := by
  induction a with
  | nil => intro s; simp [scan, scan_mBuffer]
  | cons c a ih =>
    intro s
    rw [List.cons_append, scan, scan]
    simp only [ih, emit_append]

theorem decodeLoop_scan (k : Constants) (bytes : List Byte) :
    ∀ (s : Communicator) (i : Nat) (s2 : Communicator) (found : Bool) (idx : Nat),
      decodeLoop k bytes s i = (s2, found, idx) →
      s2.mBuffer = s.mBuffer ∧
      ∃ n, idx = i + n ∧ n ≤ bytes.length ∧
        scan k bytes s
          = (emit (if found then some s2.mDecodedBuffer else none)
              (scan k (bytes.drop n)
                (if found then { s2 with mDecodedBuffer := [] } else s2)).1,
             (scan k (bytes.drop n)
                (if found then { s2 with mDecodedBuffer := [] } else s2)).2) ∧
        (n = bytes.length ∨
          (s2.mDecoderRecording = false ∧ (n = 0 → s.mDecoderRecording = true))) := by
  induction bytes with
  | nil =>
    intro s i s2 found idx h
    simp only [decodeLoop, Prod.mk.injEq] at h
    obtain ⟨rfl, rfl, rfl⟩ := h
    exact ⟨rfl, 0, rfl, le_refl _, by simp [scan, emit], Or.inl rfl⟩
  | cons c rest ih =>
    intro s i s2 found idx h
    rw [decodeLoop] at h
    by_cases h1 : s.mDecoderRecording = true
    · by_cases h2 : s.mDecoderEscaped = true
      · simp only [if_pos h1, if_pos h2] at h
        obtain ⟨hb, n, hn, hle, hscan, hmu⟩ := ih _ _ _ _ _ h
        refine ⟨hb, n + 1, by omega, by simp; omega, ?_, ?_⟩
        · rw [scan]
          simp only [scanByte, if_pos h1, if_pos h2, List.drop_succ_cons, emit]
          exact hscan
        · rcases hmu with hmu | hmu
          · exact Or.inl (by simp [hmu])
          · exact Or.inr ⟨hmu.1, by omega⟩
      · by_cases h3 : c = k.ESCAPE_BYTE
        · simp only [if_pos h1, if_neg h2, if_pos h3] at h
          obtain ⟨hb, n, hn, hle, hscan, hmu⟩ := ih _ _ _ _ _ h
          refine ⟨hb, n + 1, by omega, by simp; omega, ?_, ?_⟩
          · rw [scan]
            simp only [scanByte, if_pos h1, if_neg h2, if_pos h3, List.drop_succ_cons, emit]
            exact hscan
          · rcases hmu with hmu | hmu
            · exact Or.inl (by simp [hmu])
            · exact Or.inr ⟨hmu.1, by omega⟩
        · by_cases h4 : c = k.STOP_BYTE
          · simp only [if_pos h1, if_neg h2, if_neg h3, if_pos h4, Prod.mk.injEq] at h
            obtain ⟨rfl, rfl, rfl⟩ := h
            refine ⟨rfl, 0, rfl, by simp, ?_, Or.inr ⟨rfl, fun _ => h1⟩⟩
            rw [List.drop_zero, scan, scan]
            simp only [scanByte, if_pos h1, if_neg h2, if_neg h3, if_pos h4, Bool.false_eq_true,
              if_false]
            split_ifs <;> simp [emit]
          · by_cases h5 : s.mLastByteWasStart = true ∧ k.NUM_COMMANDS ≤ c
            · simp only [if_pos h1, if_neg h2, if_neg h3, if_neg h4, if_pos h5, Prod.mk.injEq] at h
              obtain ⟨rfl, rfl, rfl⟩ := h
              refine ⟨rfl, 0, rfl, by simp, ?_, Or.inr ⟨rfl, fun _ => h1⟩⟩
              rw [List.drop_zero, scan, scan]
              simp only [scanByte, if_pos h1, if_neg h2, if_neg h3, if_neg h4, if_pos h5,
                Bool.false_eq_true, if_false]
              split_ifs <;> simp [emit]
            · simp only [if_pos h1, if_neg h2, if_neg h3, if_neg h4, if_neg h5] at h
              obtain ⟨hb, n, hn, hle, hscan, hmu⟩ := ih _ _ _ _ _ h
              refine ⟨hb, n + 1, by omega, by simp; omega, ?_, ?_⟩
              · rw [scan]
                simp only [scanByte, if_pos h1, if_neg h2, if_neg h3, if_neg h4, if_neg h5,
                  List.drop_succ_cons, emit]
                exact hscan
              · rcases hmu with hmu | hmu
                · exact Or.inl (by simp [hmu])
                · exact Or.inr ⟨hmu.1, by omega⟩
    · by_cases h6 : c = k.START_BYTE
      · simp only [if_neg h1, if_pos h6] at h
        obtain ⟨hb, n, hn, hle, hscan, hmu⟩ := ih _ _ _ _ _ h
        refine ⟨hb, n + 1, by omega, by simp; omega, ?_, ?_⟩
        · rw [scan]
          simp only [scanByte, if_neg h1, if_pos h6, List.drop_succ_cons, emit]
          exact hscan
        · rcases hmu with hmu | hmu
          · exact Or.inl (by simp [hmu])
          · exact Or.inr ⟨hmu.1, by omega⟩
      · simp only [if_neg h1, if_neg h6] at h
        obtain ⟨hb, n, hn, hle, hscan, hmu⟩ := ih _ _ _ _ _ h
        refine ⟨hb, n + 1, by omega, by simp; omega, ?_, ?_⟩
        · rw [scan]
          simp only [scanByte, if_neg h1, if_neg h6, List.drop_succ_cons, emit]
          exact hscan
        · rcases hmu with hmu | hmu
          · exact Or.inl (by simp [hmu])
          · exact Or.inr ⟨hmu.1, by omega⟩

theorem eq_with_mBuffer_nil (s : Communicator) (h : s.mBuffer = []) :
    ({ s with mBuffer := [] } : Communicator) = s := by
  obtain ⟨cs, buf, dec, rc, es, last⟩ := s
  simp only at h
  subst h
  rfl

theorem decodeBuffer_scan (k : Constants) (s : Communicator) :
    scan k s.mBuffer s
      = (emit (some (decodeBuffer k s).1)
          (scan k (decodeBuffer k s).2.mBuffer (decodeBuffer k s).2).1,
         (scan k (decodeBuffer k s).2.mBuffer (decodeBuffer k s).2).2) ∧
    (s.mBuffer ≠ [] →
      2 * (decodeBuffer k s).2.mBuffer.length
          + (if (decodeBuffer k s).2.mDecoderRecording then 1 else 0)
        < 2 * s.mBuffer.length + (if s.mDecoderRecording then 1 else 0)) := by
  rcases hr : decodeLoop k s.mBuffer s 0 with ⟨s2, found, idx⟩
  obtain ⟨hb, n, hn, hle, hscan, hmu⟩ := decodeLoop_scan k s.mBuffer s 0 s2 found idx hr
  rw [Nat.zero_add] at hn
  subst hn
  have hlen : (List.drop idx s.mBuffer).length = s.mBuffer.length - idx := by simp
  cases found with
  | true =>
    have hcall : decodeBuffer k s
        = (s2.mDecodedBuffer,
           { s2 with mBuffer := s.mBuffer.drop idx, mDecodedBuffer := [] }) := by
      unfold decodeBuffer; rw [hr]; simp [hb]
    rw [hcall]
    simp only [if_true] at hscan
    constructor
    · rw [hscan]
      have e := scan_mBuffer k (s.mBuffer.drop idx) { s2 with mDecodedBuffer := [] }
        (s.mBuffer.drop idx)
      rw [← e]
    · intro hne
      have hpos : 0 < s.mBuffer.length := List.length_pos.mpr hne
      simp only [hlen]
      rcases hmu with hmu | ⟨hrec, hzero⟩
      · cases s2.mDecoderRecording <;> cases s.mDecoderRecording <;> simp <;> omega
      · rw [hrec]
        by_cases h0 : idx = 0
        · rw [hzero h0]; simp; omega
        · cases s.mDecoderRecording <;> simp <;> omega
  | false =>
    have hcall : decodeBuffer k s = ([], { s2 with mBuffer := s.mBuffer.drop idx }) := by
      unfold decodeBuffer; rw [hr]; simp [hb]
    rw [hcall]
    simp only [Bool.false_eq_true, if_false] at hscan
    constructor
    · rw [hscan]
      have e := scan_mBuffer k (s.mBuffer.drop idx) s2 (s.mBuffer.drop idx)
      rw [← e]
      simp [emit]
    · intro hne
      have hpos : 0 < s.mBuffer.length := List.length_pos.mpr hne
      simp only [hlen]
      rcases hmu with hmu | ⟨hrec, hzero⟩
      · cases s2.mDecoderRecording <;> cases s.mDecoderRecording <;> simp <;> omega
      · rw [hrec]
        by_cases h0 : idx = 0
        · rw [hzero h0]; simp; omega
        · cases s.mDecoderRecording <;> simp <;> omega

theorem drainWhileData_eq_scan (k : Constants) (fuel : Nat) :
    ∀ s : Communicator,
      2 * s.mBuffer.length + (if s.mDecoderRecording then 1 else 0) ≤ fuel →
      drainWhileData k fuel s = scan k s.mBuffer s := by
  induction fuel with
  | zero =>
    intro s h
    have hb : s.mBuffer = [] := List.length_eq_zero.mp (by omega)
    rw [drainWhileData, hb, scan, eq_with_mBuffer_nil s hb]
  | succ fuel ih =>
    intro s h
    by_cases hb : s.mBuffer = []
    · rw [drainWhileData_of_empty k _ s hb, hb, scan, eq_with_mBuffer_nil s hb]
    · obtain ⟨hscan, hmu⟩ := decodeBuffer_scan k s
      have hnext := ih (decodeBuffer k s).2 (by have := hmu hb; omega)
      rw [drainWhileData, if_neg hb, hscan]
      simp only [hnext, emit]

theorem feedWhileData_eq_scan (k : Constants) (chunks : List (List Byte)) :
    ∀ s : Communicator, s.mBuffer = [] → feedWhileData k s chunks = scan k chunks.flatten s := by
  induction chunks with
  | nil =>
    intro s hb
    rw [feedWhileData, List.flatten_nil, scan, eq_with_mBuffer_nil s hb]
  | cons chunk chunks ih =>
    intro s hb
    have hdrain := drainWhileData_eq_scan k
      (2 * ({ s with mBuffer := s.mBuffer ++ chunk } : Communicator).mBuffer.length + 1)
      { s with mBuffer := s.mBuffer ++ chunk }
      (by cases s.mDecoderRecording <;> simp)
    have hchunk : scan k (s.mBuffer ++ chunk) { s with mBuffer := s.mBuffer ++ chunk }
        = scan k chunk s := by
      rw [scan_mBuffer, hb, List.nil_append]
    rw [feedWhileData]
    simp only [hdrain, hchunk]
    rw [ih _ (scan_mBuffer_nil k chunk s), List.flatten_cons, scan_append]

theorem decodeBuffer_of_empty (k : Constants) (s : Communicator) (h : s.mBuffer = []) :
    (decodeBuffer k s).1 = [] := by
  unfold decodeBuffer
  rw [h]
  simp [decodeLoop]

/-- The bound on the number of calls in `feedUntilNoMessage` is never what ends
the drain: one more call allowed changes nothing. -/
theorem drainUntilNoMessage_fuel_stable (k : Constants) (fuel : Nat) :
    ∀ s : Communicator,
      2 * s.mBuffer.length + (if s.mDecoderRecording then 1 else 0) < fuel →
      drainUntilNoMessage k (fuel + 1) s = drainUntilNoMessage k fuel s := by
  induction fuel with
  | zero => intro s h; omega
  | succ fuel ih =>
    intro s h
    have e1 : drainUntilNoMessage k (fuel + 1 + 1) s
        = if (decodeBuffer k s).1 = [] then ([], (decodeBuffer k s).2)
          else ((decodeBuffer k s).1 :: (drainUntilNoMessage k (fuel + 1) (decodeBuffer k s).2).1,
                (drainUntilNoMessage k (fuel + 1) (decodeBuffer k s).2).2) := by
      rw [drainUntilNoMessage]
    have e2 : drainUntilNoMessage k (fuel + 1) s
        = if (decodeBuffer k s).1 = [] then ([], (decodeBuffer k s).2)
          else ((decodeBuffer k s).1 :: (drainUntilNoMessage k fuel (decodeBuffer k s).2).1,
                (drainUntilNoMessage k fuel (decodeBuffer k s).2).2) := by
      rw [drainUntilNoMessage]
    rw [e1, e2]
    by_cases hr : (decodeBuffer k s).1 = []
    · simp only [hr, if_true]
    · have hb : s.mBuffer ≠ [] := fun e => hr (decodeBuffer_of_empty k s e)
      have hmu := (decodeBuffer_scan k s).2 hb
      simp only [hr, if_false]
      rw [ih (decodeBuffer k s).2 (by omega)]

/-! ## The decoder between calls -/

theorem decodeLoop_inv_step (k : Constants) (c : Byte) (rest : List Byte)
    (s s1 s2 : Communicator) (i : Nat) (idx : Nat)
    (hstep : ∀ (bytes : List Byte) (j : Nat),
      decodeLoop k (c :: bytes) s j = decodeLoop k bytes s1 (j + 1))
    (hesc : s1.mDecoderEscaped = true →
      c = k.ESCAPE_BYTE ∧ s.mDecoderRecording = true ∧ s.mDecoderEscaped = false)
    (hrest : s2.mDecoderEscaped = true →
      idx = i + 1 + rest.length ∧
      ((rest = [] ∧ s2 = s1) ∨
        ∃ pre, rest = pre ++ [k.ESCAPE_BYTE] ∧
          (decodeLoop k pre s1 (i + 1)).1.mDecoderRecording = true ∧
          (decodeLoop k pre s1 (i + 1)).1.mDecoderEscaped = false)) :
    s2.mDecoderEscaped = true →
      idx = i + (c :: rest).length ∧
      (((c :: rest) = [] ∧ s2 = s) ∨
        ∃ pre, c :: rest = pre ++ [k.ESCAPE_BYTE] ∧
          (decodeLoop k pre s i).1.mDecoderRecording = true ∧
          (decodeLoop k pre s i).1.mDecoderEscaped = false) := by
  intro he
  obtain ⟨hidx, hcase⟩ := hrest he
  refine ⟨(by rw [hidx, List.length_cons]; omega), Or.inr ?_⟩
  rcases hcase with ⟨rfl, rfl⟩ | ⟨pre, rfl, h1, h2⟩
  · obtain ⟨rfl, hr, hne⟩ := hesc he
    exact ⟨[], rfl, (by rw [decodeLoop]; exact hr), (by rw [decodeLoop]; exact hne)⟩
  · exact ⟨c :: pre, rfl, (by rw [hstep]; exact h1), (by rw [hstep]; exact h2)⟩

theorem decodeLoop_inv (k : Constants) (bytes : List Byte) :
    ∀ (s : Communicator) (i : Nat) (s2 : Communicator) (found : Bool) (idx : Nat),
      decodeLoop k bytes s i = (s2, found, idx) → s.settled →
      (found = true → s2.mDecoderRecording = false ∧ s2.mDecoderEscaped = false) ∧
      (found = false → s2.settled) ∧
      (s2.mDecoderEscaped = true →
        idx = i + bytes.length ∧
        ((bytes = [] ∧ s2 = s) ∨
          ∃ pre, bytes = pre ++ [k.ESCAPE_BYTE] ∧
            (decodeLoop k pre s i).1.mDecoderRecording = true ∧
            (decodeLoop k pre s i).1.mDecoderEscaped = false)) := by
  induction bytes with
  | nil =>
    intro s i s2 found idx hd hs
    rw [decodeLoop] at hd
    simp only [Prod.mk.injEq] at hd
    obtain ⟨rfl, rfl, rfl⟩ := hd
    exact ⟨fun e => (by cases e), fun _ => hs, fun _ => ⟨rfl, Or.inl ⟨rfl, rfl⟩⟩⟩
  | cons c rest ih =>
    intro s i s2 found idx hd hs
    by_cases hrec : s.mDecoderRecording = true
    · by_cases hesc : s.mDecoderEscaped = true
      · have hstep : ∀ (bytes : List Byte) (j : Nat), decodeLoop k (c :: bytes) s j
            = decodeLoop k bytes
                { s with mDecodedBuffer := s.mDecodedBuffer ++ [c], mDecoderEscaped := false,
                         mLastByteWasStart := false } (j + 1) := by
          intro bytes j
          rw [decodeLoop, if_pos hrec, if_pos hesc]
        rw [hstep] at hd
        obtain ⟨h1, h2, h3⟩ := ih _ _ _ _ _ hd
          ⟨fun e => (by rw [hrec] at e; cases e), fun _ e => (by cases e)⟩
        exact ⟨h1, h2, decodeLoop_inv_step k c rest s _ s2 i idx hstep
          (fun e => by cases e) h3⟩
      · by_cases hce : c = k.ESCAPE_BYTE
        · have hstep : ∀ (bytes : List Byte) (j : Nat), decodeLoop k (c :: bytes) s j
              = decodeLoop k bytes
                  { s with mDecoderEscaped := true, mLastByteWasStart := false } (j + 1) := by
            intro bytes j
            rw [decodeLoop, if_pos hrec, if_neg hesc, if_pos hce]
          rw [hstep] at hd
          obtain ⟨h1, h2, h3⟩ := ih _ _ _ _ _ hd
            ⟨fun e => (by rw [hrec] at e; cases e), fun _ e => (by cases e)⟩
          exact ⟨h1, h2, decodeLoop_inv_step k c rest s _ s2 i idx hstep
            (fun _ => ⟨hce, hrec, (by simpa using hesc)⟩) h3⟩
        · by_cases hcs : c = k.STOP_BYTE
          · rw [decodeLoop, if_pos hrec, if_neg hesc, if_neg hce, if_pos hcs] at hd
            simp only [Prod.mk.injEq] at hd
            obtain ⟨rfl, rfl, rfl⟩ := hd
            exact ⟨fun _ => ⟨rfl, (by simpa using hesc)⟩, fun e => (by cases e),
              fun e => absurd e hesc⟩
          · by_cases htag : s.mLastByteWasStart = true ∧ k.NUM_COMMANDS ≤ c
            · rw [decodeLoop, if_pos hrec, if_neg hesc, if_neg hce, if_neg hcs,
                if_pos htag] at hd
              simp only [Prod.mk.injEq] at hd
              obtain ⟨rfl, rfl, rfl⟩ := hd
              exact ⟨fun e => (by cases e),
                fun _ => ⟨fun _ => hs.2 hrec htag.1, fun e => (by cases e)⟩,
                fun e => absurd e hesc⟩
            · have hstep : ∀ (bytes : List Byte) (j : Nat), decodeLoop k (c :: bytes) s j
                  = decodeLoop k bytes
                      { s with mDecodedBuffer := s.mDecodedBuffer ++ [c],
                               mLastByteWasStart := false } (j + 1) := by
                intro bytes j
                rw [decodeLoop, if_pos hrec, if_neg hesc, if_neg hce, if_neg hcs, if_neg htag]
              rw [hstep] at hd
              obtain ⟨h1, h2, h3⟩ := ih _ _ _ _ _ hd
                ⟨fun e => (by rw [hrec] at e; cases e), fun _ e => (by cases e)⟩
              exact ⟨h1, h2, decodeLoop_inv_step k c rest s _ s2 i idx hstep
                (fun e => absurd e hesc) h3⟩
    · have hnot : s.mDecoderRecording = false := by simpa using hrec
      by_cases hstart : c = k.START_BYTE
      · have hstep : ∀ (bytes : List Byte) (j : Nat), decodeLoop k (c :: bytes) s j
            = decodeLoop k bytes
                { s with mDecoderRecording := true, mLastByteWasStart := true } (j + 1) := by
          intro bytes j
          rw [decodeLoop, if_neg hrec, if_pos hstart]
        rw [hstep] at hd
        obtain ⟨h1, h2, h3⟩ := ih _ _ _ _ _ hd
          ⟨fun e => (by cases e), fun _ _ => hs.1 hnot⟩
        exact ⟨h1, h2, decodeLoop_inv_step k c rest s _ s2 i idx hstep
          (fun e => by rw [(hs.1 hnot).1] at e; cases e) h3⟩
      · have hstep : ∀ (bytes : List Byte) (j : Nat), decodeLoop k (c :: bytes) s j
            = decodeLoop k bytes s (j + 1) := by
          intro bytes j
          rw [decodeLoop, if_neg hrec, if_neg hstart]
        rw [hstep] at hd
        obtain ⟨h1, h2, h3⟩ := ih _ _ _ _ _ hd hs
        exact ⟨h1, h2, decodeLoop_inv_step k c rest s _ s2 i idx hstep
          (fun e => by rw [(hs.1 hnot).1] at e; cases e) h3⟩

theorem feedCalls_inv (k : Constants) (chunks : List (List Byte)) :
    ∀ (s : Communicator) (last : Option LastConsumed),
      s.settled →
      (s.mDecoderEscaped = true →
        ∃ l, last = some l ∧ l.byte = k.ESCAPE_BYTE ∧ l.recording = true ∧ l.escaped = false) →
      (feedCalls k s last chunks).1.settled ∧
      ((feedCalls k s last chunks).1.mDecoderEscaped = true →
        ∃ l, (feedCalls k s last chunks).2 = some l ∧ l.byte = k.ESCAPE_BYTE ∧
          l.recording = true ∧ l.escaped = false) := by
  induction chunks with
  | nil => intro s last hs hl; exact ⟨hs, hl⟩
  | cons chunk chunks ih =>
    intro s last hs hl
    rw [feedCalls]
    apply ih
    · rcases hd : decodeLoop k (s.mBuffer ++ chunk) { s with mBuffer := s.mBuffer ++ chunk } 0
        with ⟨s2, found, idx⟩
      obtain ⟨h1, h2, -⟩ := decodeLoop_inv k _ _ _ _ _ _ hd hs
      simp only [decodeBuffer, hd]
      cases found
      · exact h2 rfl
      · obtain ⟨hr, he⟩ := h1 rfl
        exact ⟨fun _ => ⟨he, rfl⟩, fun e => (by rw [hr] at e; cases e)⟩
    · rcases hd : decodeLoop k (s.mBuffer ++ chunk) { s with mBuffer := s.mBuffer ++ chunk } 0
        with ⟨s2, found, idx⟩
      obtain ⟨-, -, h3⟩ := decodeLoop_inv k _ _ _ _ _ _ hd hs
      simp only [decodeBuffer, consumed, hd]
      intro he
      have he2 : s2.mDecoderEscaped = true := by
        cases found
        · exact he
        · exact he
      obtain ⟨hidx, hcase⟩ := h3 he2
      rw [Nat.zero_add] at hidx
      rw [hidx, List.take_length]
      rcases hcase with ⟨hnil, hsame⟩ | ⟨pre, hpre, hr, hne⟩
      · rw [hnil]
        rw [hsame] at he2
        exact hl he2
      · rw [hpre] at hr hne
        rw [hpre, List.getLast?_concat, List.dropLast_concat]
        exact ⟨_, rfl, rfl, hr, hne⟩

/-! ## The command dispatcher -/

theorem getD_length_append_cons (pre rest : List Byte) (b d : Byte) :
    (pre ++ b :: rest).getD pre.length d = b := by
  induction pre with
  | nil => simp
  | cons c pre ih => simpa using ih

theorem parseLoop_encodeParameters (ps : List (List Byte)) :
    ∀ (buffer pre : List Byte) (acc : List (List Byte)) (fuel : Nat),
      (∀ p ∈ ps, p.length ≤ 255) → buffer = pre ++ encodeParameters ps → ps.length ≤ fuel →
      parseLoop buffer fuel pre.length acc = some (some (acc ++ ps)) := by
  induction ps with
  | nil =>
    intro buffer pre acc fuel _ hbuf _
    subst hbuf
    cases fuel <;> simp [parseLoop, encodeParameters]
  | cons p ps ih =>
    intro buffer pre acc fuel hlen hbuf hfuel
    cases fuel with
    | zero => simp at hfuel
    | succ fuel =>
      have hp : p.length ≤ 255 := hlen p (by simp)
      have hval : ((Fin.ofNat p.length : Byte)).val = p.length := by
        simp [Fin.ofNat]; omega
      have hget : buffer.getD pre.length 0 = (Fin.ofNat p.length : Byte) := by
        rw [hbuf, encodeParameters]; exact getD_length_append_cons _ _ _ _
      have hlt : pre.length < buffer.length := by
        rw [hbuf, encodeParameters]; simp
      have hle : pre.length + 1 + p.length ≤ buffer.length := by
        rw [hbuf, encodeParameters]; simp; omega
      have hdata : (buffer.drop (pre.length + 1)).take p.length = p := by
        have e : buffer = (pre ++ [(Fin.ofNat p.length : Byte)]) ++ (p ++ encodeParameters ps) := by
          rw [hbuf, encodeParameters]; simp
        rw [e, List.drop_left' (by simp), List.take_left' rfl]
      have hnext := ih buffer (pre ++ (Fin.ofNat p.length : Byte) :: p) (acc ++ [p]) fuel
        (fun q hq => hlen q (by simp [hq])) (by rw [hbuf, encodeParameters]; simp)
        (by simpa using hfuel)
      rw [parseLoop]
      simp only [hlt, if_true, hget, hval, hle, hdata]
      have e2 : (pre ++ (Fin.ofNat p.length : Byte) :: p).length = pre.length + 1 + p.length := by
        simp; omega
      rw [e2] at hnext
      rw [hnext]
      simp

theorem parseLoop_overrun (ps : List (List Byte)) :
    ∀ (buffer pre : List Byte) (acc : List (List Byte)) (fuel : Nat) (sz : Byte)
      (tail : List Byte),
      (∀ p ∈ ps, p.length ≤ 255) → buffer = pre ++ (encodeParameters ps ++ sz :: tail) →
      tail.length < sz.val → ps.length < fuel →
      parseLoop buffer fuel pre.length acc = none := by
  induction ps with
  | nil =>
    intro buffer pre acc fuel sz tail _ hbuf htail hfuel
    cases fuel with
    | zero => simp at hfuel
    | succ fuel =>
      have hget : buffer.getD pre.length 0 = sz := by
        rw [hbuf, encodeParameters]; exact getD_length_append_cons _ _ _ _
      have hlt : pre.length < buffer.length := by
        rw [hbuf, encodeParameters]; simp
      have hle : ¬ (pre.length + 1 + sz.val ≤ buffer.length) := by
        rw [hbuf, encodeParameters]; simp; omega
      rw [parseLoop]
      simp only [hlt, if_true, hget, hle, if_false]
  | cons p ps ih =>
    intro buffer pre acc fuel sz tail hlen hbuf htail hfuel
    cases fuel with
    | zero => simp at hfuel
    | succ fuel =>
      have hp : p.length ≤ 255 := hlen p (by simp)
      have hval : ((Fin.ofNat p.length : Byte)).val = p.length := by
        simp [Fin.ofNat]; omega
      have hget : buffer.getD pre.length 0 = (Fin.ofNat p.length : Byte) := by
        rw [hbuf, encodeParameters]; exact getD_length_append_cons _ _ _ _
      have hlt : pre.length < buffer.length := by
        rw [hbuf, encodeParameters]; simp
      have hle : pre.length + 1 + p.length ≤ buffer.length := by
        rw [hbuf, encodeParameters]; simp; omega
      have hnext := ih buffer (pre ++ (Fin.ofNat p.length : Byte) :: p)
        (acc ++ [(buffer.drop (pre.length + 1)).take p.length]) fuel sz tail
        (fun q hq => hlen q (by simp [hq])) (by rw [hbuf, encodeParameters]; simp) htail
        (by simpa using hfuel)
      rw [parseLoop]
      simp only [hlt, if_true, hget, hval, hle]
      have e2 : (pre ++ (Fin.ofNat p.length : Byte) :: p).length = pre.length + 1 + p.length := by
        simp; omega
      rw [e2] at hnext
      exact hnext

theorem length_le_length_encodeParameters (ps : List (List Byte)) :
    ps.length ≤ (encodeParameters ps).length := by
  induction ps with
  | nil => simp
  | cons p ps ih => simp [encodeParameters]; omega

theorem handleCommand_valve_shape (k : Constants) (parameters : List (List Byte)) :
    (∃ a b : Byte, parameters = [[a], [b]] ∧
      handleCommand k k.VALVE parameters
        = [Effect.valveStateChanged a.val (decide (b ≠ 0))]) ∨
    (¬ (parameters.length = 2 ∧ ∀ p ∈ parameters, p.length = 1) ∧
      ∃ text, handleCommand k k.VALVE parameters = [Effect.diagnostic Channel.warning text]) := by
  rcases parameters with _ | ⟨p, _ | ⟨q, _ | ⟨r, rest⟩⟩⟩
  · right; simp [handleCommand]
  · right; simp [handleCommand]
  · rcases p with _ | ⟨a, _ | ⟨a2, p⟩⟩ <;> rcases q with _ | ⟨b, _ | ⟨b2, q⟩⟩ <;>
      first
      | exact Or.inl ⟨_, _, rfl, by simp [handleCommand, paramByte]⟩
      | exact Or.inr (by simp [handleCommand, paramByte])
  · right; simp [handleCommand]

theorem handleCommand_pump_shape (k : Constants) (parameters : List (List Byte))
    (hvp : k.PUMP ≠ k.VALVE) :
    (∃ a b : Byte, parameters = [[a], [b]] ∧
      handleCommand k k.PUMP parameters
        = [Effect.pumpStateChanged a.val (decide (b ≠ 0))]) ∨
    (¬ (parameters.length = 2 ∧ ∀ p ∈ parameters, p.length = 1) ∧
      ∃ text, handleCommand k k.PUMP parameters = [Effect.diagnostic Channel.warning text]) := by
  rcases parameters with _ | ⟨p, _ | ⟨q, _ | ⟨r, rest⟩⟩⟩
  · right; simp [handleCommand, hvp]
  · right; simp [handleCommand, hvp]
  · rcases p with _ | ⟨a, _ | ⟨a2, p⟩⟩ <;> rcases q with _ | ⟨b, _ | ⟨b2, q⟩⟩ <;>
      first
      | exact Or.inl ⟨_, _, rfl, by simp [handleCommand, paramByte, hvp]⟩
      | exact Or.inr (by simp [handleCommand, paramByte, hvp])
  · right; simp [handleCommand, hvp]

theorem handleCommand_pressure_shape (k : Constants) (parameters : List (List Byte))
    (hpv : k.PRESSURE ≠ k.VALVE) (hpp : k.PRESSURE ≠ k.PUMP) :
    (∃ n sp pv : Byte, parameters = [[n], [sp], [pv]] ∧
      handleCommand k k.PRESSURE parameters
        = [Effect.pressureSetpointChanged n.val ((sp.val : ℚ) / 255),
           Effect.pressureChanged n.val ((pv.val : ℚ) / 255)]) ∨
    (¬ (parameters.length = 3 ∧ ∀ p ∈ parameters, p.length = 1) ∧
      ∃ text, handleCommand k k.PRESSURE parameters
        = [Effect.diagnostic Channel.warning text]) := by
  rcases parameters with _ | ⟨p, _ | ⟨q, _ | ⟨r, _ | ⟨t, rest⟩⟩⟩⟩
  · right; simp [handleCommand, hpv, hpp]
  · right; simp [handleCommand, hpv, hpp]
  · right; simp [handleCommand, hpv, hpp]
  · rcases p with _ | ⟨a, _ | ⟨a2, p⟩⟩ <;> rcases q with _ | ⟨b, _ | ⟨b2, q⟩⟩ <;>
      rcases r with _ | ⟨c, _ | ⟨c2, r⟩⟩ <;>
      first
      | exact Or.inl ⟨_, _, _, rfl, by simp [handleCommand, paramByte, hpv, hpp, PR_MAX_VALUE]⟩
      | exact Or.inr (by simp [handleCommand, paramByte, hpv, hpp])
  · right; simp [handleCommand, hpv, hpp]

theorem byte_ratio_bounds (b : Byte) : (0 : ℚ) ≤ (b.val : ℚ) / 255 ∧ (b.val : ℚ) / 255 ≤ 1 := by
  have h : (b.val : ℚ) ≤ 255 := by
    have := b.isLt
    exact_mod_cast Nat.le_of_lt_succ this
  constructor
  · positivity
  · rw [div_le_one (by norm_num)]; exact h

/-! ## The arithmetic of `double` -/

theorem pow2_eq_zpow (k : ℤ) : pow2 k = (2 : ℚ) ^ k := by
  unfold pow2
  by_cases hk : 0 ≤ k
  · rw [if_pos hk]
    obtain ⟨n, rfl⟩ := Int.eq_ofNat_of_zero_le hk
    simp
  · rw [if_neg hk]
    obtain ⟨n, hn⟩ := Int.eq_ofNat_of_zero_le (show 0 ≤ -k by omega)
    have hk2 : k = -(n : ℤ) := by omega
    subst hk2
    simp

theorem pow2_pos (k : ℤ) : 0 < pow2 k := by
  rw [pow2_eq_zpow]
  positivity

theorem pow2_add (a b : ℤ) : pow2 (a + b) = pow2 a * pow2 b := by
  simp only [pow2_eq_zpow]
  exact zpow_add₀ (by norm_num) a b

theorem pow2_le_pow2 {a b : ℤ} (h : a ≤ b) : pow2 a ≤ pow2 b := by
  simp only [pow2_eq_zpow]
  exact zpow_le_zpow_right₀ (by norm_num) h

theorem pow2_lt_pow2_iff {a b : ℤ} : pow2 a < pow2 b ↔ a < b := by
  simp only [pow2_eq_zpow]
  exact zpow_lt_zpow_iff_right₀ (by norm_num)

theorem log2Loop_spec (fuel : Nat) :
    ∀ n, 1 ≤ n → n ≤ fuel →
      2 ^ log2Loop fuel n ≤ n ∧ n < 2 ^ (log2Loop fuel n + 1) := by
  induction fuel with
  | zero => intro n h1 h2; omega
  | succ fuel ih =>
    intro n h1 h2
    rw [log2Loop]
    by_cases hn : n < 2
    · rw [if_pos hn]
      have : n = 1 := by omega
      subst this
      norm_num
    · rw [if_neg hn]
      obtain ⟨l1, l2⟩ := ih (n / 2) (by omega) (by omega)
      constructor
      · calc 2 ^ (log2Loop fuel (n / 2) + 1) = 2 ^ log2Loop fuel (n / 2) * 2 := pow_succ _ _
          _ ≤ (n / 2) * 2 := Nat.mul_le_mul_right _ l1
          _ ≤ n := Nat.div_mul_le_self n 2
      · have h3 : n / 2 + 1 ≤ 2 ^ (log2Loop fuel (n / 2) + 1) := l2
        calc n < (n / 2 + 1) * 2 := by omega
          _ ≤ 2 ^ (log2Loop fuel (n / 2) + 1) * 2 := Nat.mul_le_mul_right _ h3
          _ = 2 ^ (log2Loop fuel (n / 2) + 1 + 1) := (pow_succ _ _).symm

theorem ilog2_spec (a : ℚ) (ha : 0 < a) : pow2 (ilog2 a) ≤ a ∧ a < pow2 (ilog2 a + 1) := by
  have hnum : 0 < a.num := Rat.num_pos.mpr ha
  obtain ⟨n, hn⟩ := Int.eq_ofNat_of_zero_le hnum.le
  have hn1 : 1 ≤ n := by omega
  have hd1 : 1 ≤ a.den := a.den_pos
  obtain ⟨n1, n2⟩ := log2Loop_spec n n hn1 le_rfl
  obtain ⟨d1, d2⟩ := log2Loop_spec a.den a.den hd1 le_rfl
  have hval : a = (n : ℚ) / (a.den : ℚ) := by
    conv_lhs => rw [← Rat.num_div_den a, hn]
    simp
  have hdpos : (0 : ℚ) < a.den := by exact_mod_cast hd1
  have n1q : (2 : ℚ) ^ log2Loop n n ≤ n := by exact_mod_cast n1
  have n2q : (n : ℚ) < 2 ^ (log2Loop n n + 1) := by exact_mod_cast n2
  have d1q : (2 : ℚ) ^ log2Loop a.den a.den ≤ a.den := by exact_mod_cast d1
  have d2q : (a.den : ℚ) < 2 ^ (log2Loop a.den a.den + 1) := by exact_mod_cast d2
  have hupper : a < pow2 ((log2Loop n n : ℤ) - (log2Loop a.den a.den : ℤ) + 1) := by
    refine hval.trans_lt ?_
    rw [pow2_eq_zpow, div_lt_iff₀ hdpos]
    have e : (2 : ℚ) ^ ((log2Loop n n : ℤ) - (log2Loop a.den a.den : ℤ) + 1)
        = 2 ^ (log2Loop n n + 1) / 2 ^ log2Loop a.den a.den := by
      rw [show (log2Loop n n : ℤ) - (log2Loop a.den a.den : ℤ) + 1
        = ((log2Loop n n + 1 : ℕ) : ℤ) - ((log2Loop a.den a.den : ℕ) : ℤ) by push_cast; ring,
        zpow_sub₀ (by norm_num), zpow_natCast, zpow_natCast]
    rw [e, div_mul_eq_mul_div, lt_div_iff₀ (by positivity)]
    calc (n : ℚ) * 2 ^ log2Loop a.den a.den ≤ n * a.den :=
          mul_le_mul_of_nonneg_left d1q (by positivity)
      _ < 2 ^ (log2Loop n n + 1) * a.den := mul_lt_mul_of_pos_right n2q hdpos
  have hlower : pow2 ((log2Loop n n : ℤ) - (log2Loop a.den a.den : ℤ) - 1) ≤ a := by
    refine le_of_le_of_eq ?_ hval.symm
    rw [pow2_eq_zpow, le_div_iff₀ hdpos]
    have e : (2 : ℚ) ^ ((log2Loop n n : ℤ) - (log2Loop a.den a.den : ℤ) - 1)
        = 2 ^ log2Loop n n / 2 ^ (log2Loop a.den a.den + 1) := by
      rw [show (log2Loop n n : ℤ) - (log2Loop a.den a.den : ℤ) - 1
        = ((log2Loop n n : ℕ) : ℤ) - ((log2Loop a.den a.den + 1 : ℕ) : ℤ) by push_cast; ring,
        zpow_sub₀ (by norm_num), zpow_natCast, zpow_natCast]
    rw [e, div_mul_eq_mul_div, div_le_iff₀ (by positivity)]
    calc (2 : ℚ) ^ log2Loop n n * a.den ≤ n * a.den :=
          mul_le_mul_of_nonneg_right n1q hdpos.le
      _ ≤ n * 2 ^ (log2Loop a.den a.den + 1) :=
          mul_le_mul_of_nonneg_left d2q.le (by positivity)
  unfold ilog2
  have htoNat : a.num.toNat = n := by rw [hn]; rfl
  simp only [htoNat]
  by_cases hle : pow2 ((log2Loop n n : ℤ) - (log2Loop a.den a.den : ℤ)) ≤ a
  · rw [if_pos hle]
    exact ⟨hle, hupper⟩
  · rw [if_neg hle]
    refine ⟨hlower, ?_⟩
    rw [sub_add_cancel]
    exact not_le.mp hle

theorem ilog2_unique (a : ℚ) (e : ℤ) (h1 : pow2 e ≤ a) (h2 : a < pow2 (e + 1)) :
    ilog2 a = e := by
  have ha : 0 < a := lt_of_lt_of_le (pow2_pos e) h1
  obtain ⟨s1, s2⟩ := ilog2_spec a ha
  have l1 : ilog2 a < e + 1 := pow2_lt_pow2_iff.mp (lt_of_le_of_lt s1 h2)
  have l2 : e < ilog2 a + 1 := pow2_lt_pow2_iff.mp (lt_of_le_of_lt h1 s2)
  omega

theorem ilog2_mono (a b : ℚ) (ha : 0 < a) (hab : a ≤ b) : ilog2 a ≤ ilog2 b := by
  obtain ⟨s1, -⟩ := ilog2_spec a ha
  obtain ⟨-, t2⟩ := ilog2_spec b (lt_of_lt_of_le ha hab)
  have : ilog2 a < ilog2 b + 1 := pow2_lt_pow2_iff.mp (lt_of_le_of_lt (s1.trans hab) t2)
  omega

theorem roundEven_bounds (n : ℚ) :
    Int.floor n ≤ roundEven n ∧ roundEven n ≤ Int.floor n + 1 := by
  unfold roundEven
  split_ifs <;> constructor <;> omega

theorem roundEven_intCast (z : ℤ) : roundEven (z : ℚ) = z := by
  unfold roundEven
  simp

theorem roundEven_mono (n m : ℚ) (h : n ≤ m) : roundEven n ≤ roundEven m := by
  have hf : Int.floor n ≤ Int.floor m := Int.floor_mono h
  rcases lt_or_eq_of_le hf with hlt | heq
  · have := (roundEven_bounds n).2
    have := (roundEven_bounds m).1
    omega
  · unfold roundEven
    rw [heq]
    have hd : n - (Int.floor m : ℚ) ≤ m - (Int.floor m : ℚ) := by linarith
    split_ifs <;> first | omega | (exfalso; linarith)

theorem pow2_53 : pow2 53 = ((2 ^ 53 : ℤ) : ℚ) := by
  norm_num [pow2_eq_zpow]

theorem pow2_52 : pow2 52 = ((2 ^ 52 : ℤ) : ℚ) := by
  norm_num [pow2_eq_zpow]

theorem roundMagnitude_nonneg (a : ℚ) : 0 ≤ roundMagnitude a := by
  unfold roundMagnitude
  by_cases ha : a ≤ 0
  · rw [if_pos ha]
  · rw [if_neg ha]
    have hpos : 0 < pow2 (max (ilog2 a) (-1022) - 52) := pow2_pos _
    have hq : 0 ≤ a / pow2 (max (ilog2 a) (-1022) - 52) :=
      div_nonneg (not_le.mp ha).le hpos.le
    have h0 : (0 : ℤ) ≤ roundEven (a / pow2 (max (ilog2 a) (-1022) - 52)) := by
      have := roundEven_mono 0 _ hq
      rwa [show (0 : ℚ) = ((0 : ℤ) : ℚ) by norm_num, roundEven_intCast] at this
    exact mul_nonneg (by exact_mod_cast h0) hpos.le

theorem scaled_lt (a : ℚ) (ha : 0 < a) :
    a / pow2 (max (ilog2 a) (-1022) - 52) < ((2 ^ 53 : ℤ) : ℚ) := by
  have hpos : 0 < pow2 (max (ilog2 a) (-1022) - 52) := pow2_pos _
  rw [div_lt_iff₀ hpos]
  have e : ((2 ^ 53 : ℤ) : ℚ) * pow2 (max (ilog2 a) (-1022) - 52)
      = pow2 (max (ilog2 a) (-1022) + 1) := by
    rw [show max (ilog2 a) (-1022) + 1 = 53 + (max (ilog2 a) (-1022) - 52) by ring, pow2_add,
      pow2_53]
  rw [e]
  exact lt_of_lt_of_le (ilog2_spec a ha).2 (pow2_le_pow2 (by omega))

theorem scaled_ge (a : ℚ) (ha : 0 < a) (he : -1022 ≤ ilog2 a) :
    ((2 ^ 52 : ℤ) : ℚ) ≤ a / pow2 (max (ilog2 a) (-1022) - 52) := by
  have hpos : 0 < pow2 (max (ilog2 a) (-1022) - 52) := pow2_pos _
  rw [le_div_iff₀ hpos, max_eq_left he]
  have e : ((2 ^ 52 : ℤ) : ℚ) * pow2 (ilog2 a - 52) = pow2 (ilog2 a) := by
    conv_rhs => rw [show ilog2 a = 52 + (ilog2 a - 52) by ring, pow2_add, pow2_52]
  rw [e]
  exact (ilog2_spec a ha).1

theorem roundMagnitude_le_pow2 (a : ℚ) (ha : 0 < a) :
    roundMagnitude a ≤ pow2 (max (ilog2 a) (-1022) + 1) := by
  unfold roundMagnitude
  rw [if_neg (not_le.mpr ha)]
  have hpos : 0 < pow2 (max (ilog2 a) (-1022) - 52) := pow2_pos _
  have hr : roundEven (a / pow2 (max (ilog2 a) (-1022) - 52)) ≤ 2 ^ 53 := by
    have := roundEven_mono _ _ (scaled_lt a ha).le
    rwa [roundEven_intCast] at this
  have e : pow2 (max (ilog2 a) (-1022) + 1)
      = ((2 ^ 53 : ℤ) : ℚ) * pow2 (max (ilog2 a) (-1022) - 52) := by
    rw [show max (ilog2 a) (-1022) + 1 = 53 + (max (ilog2 a) (-1022) - 52) by ring, pow2_add,
      pow2_53]
  rw [e]
  exact mul_le_mul_of_nonneg_right (by exact_mod_cast hr) hpos.le

theorem pow2_le_roundMagnitude (a : ℚ) (ha : 0 < a) (he : -1022 ≤ ilog2 a) :
    pow2 (ilog2 a) ≤ roundMagnitude a := by
  unfold roundMagnitude
  rw [if_neg (not_le.mpr ha)]
  have hpos : 0 < pow2 (max (ilog2 a) (-1022) - 52) := pow2_pos _
  have hr : 2 ^ 52 ≤ roundEven (a / pow2 (max (ilog2 a) (-1022) - 52)) := by
    have := roundEven_mono _ _ (scaled_ge a ha he)
    rwa [roundEven_intCast] at this
  have e : pow2 (ilog2 a) = ((2 ^ 52 : ℤ) : ℚ) * pow2 (max (ilog2 a) (-1022) - 52) := by
    rw [max_eq_left he]
    conv_lhs => rw [show ilog2 a = 52 + (ilog2 a - 52) by ring, pow2_add, pow2_52]
  rw [e]
  exact mul_le_mul_of_nonneg_right (by exact_mod_cast hr) hpos.le

theorem roundMagnitude_mono (a b : ℚ) (hab : a ≤ b) : roundMagnitude a ≤ roundMagnitude b := by
  by_cases ha : a ≤ 0
  · have : roundMagnitude a = 0 := by unfold roundMagnitude; rw [if_pos ha]
    rw [this]
    exact roundMagnitude_nonneg b
  · have hapos : 0 < a := not_le.mp ha
    have hbpos : 0 < b := lt_of_lt_of_le hapos hab
    have hlog := ilog2_mono a b hapos hab
    rcases lt_or_eq_of_le (max_le_max hlog (le_refl (-1022 : ℤ))) with hlt | heq
    · have hb : -1022 ≤ ilog2 b := by
        by_contra hcon
        rw [max_eq_right (by omega : ilog2 b ≤ -1022)] at hlt
        have := le_max_right (ilog2 a) (-1022)
        omega
      rw [max_eq_left hb] at hlt
      calc roundMagnitude a ≤ pow2 (max (ilog2 a) (-1022) + 1) := roundMagnitude_le_pow2 a hapos
        _ ≤ pow2 (ilog2 b) := pow2_le_pow2 (by omega)
        _ ≤ roundMagnitude b := pow2_le_roundMagnitude b hbpos hb
    · unfold roundMagnitude
      rw [if_neg ha, if_neg (not_le.mpr hbpos), heq]
      have hpos : 0 < pow2 (max (ilog2 b) (-1022) - 52) := pow2_pos _
      have hr := roundEven_mono _ _ (div_le_div_of_nonneg_right hab hpos.le)
      exact mul_le_mul_of_nonneg_right (by exact_mod_cast hr) hpos.le

theorem roundMagnitude_of_multiple (a : ℚ) (m : ℕ) (k : ℤ) (ha : 0 < a)
    (hm : m < 2 ^ 53) (hk : -1074 ≤ k) (hval : a = (m : ℚ) * pow2 k) :
    roundMagnitude a = a := by
  have hle : max (ilog2 a) (-1022) - 52 ≤ k := by
    rcases le_total (ilog2 a) (-1022) with h | h
    · rw [max_eq_right h]; omega
    · rw [max_eq_left h]
      have h1 := (ilog2_spec a ha).1
      have h2 : a < pow2 (k + 53) := by
        refine hval.trans_lt ?_
        rw [show k + 53 = 53 + k by ring, pow2_add, pow2_53]
        exact mul_lt_mul_of_pos_right (by exact_mod_cast hm) (pow2_pos k)
      have := pow2_lt_pow2_iff.mp (lt_of_le_of_lt h1 h2)
      omega
  obtain ⟨j, hj⟩ := Int.eq_ofNat_of_zero_le (show 0 ≤ k - (max (ilog2 a) (-1022) - 52) by omega)
  have hpos : 0 < pow2 (max (ilog2 a) (-1022) - 52) := pow2_pos _
  have hsplit : pow2 k = pow2 (j : ℤ) * pow2 (max (ilog2 a) (-1022) - 52) := by
    rw [← pow2_add, ← hj]; ring_nf
  have hscaled : a / pow2 (max (ilog2 a) (-1022) - 52) = (((m * 2 ^ j : ℕ) : ℤ) : ℚ) := by
    rw [div_eq_iff hpos.ne']
    refine hval.trans ?_
    rw [hsplit, pow2_eq_zpow (j : ℤ), zpow_natCast]
    push_cast
    ring
  unfold roundMagnitude
  rw [if_neg (not_le.mpr ha), hscaled, roundEven_intCast, ← hscaled,
    div_mul_cancel₀ _ hpos.ne']

theorem roundMagnitude_natCast (n : ℕ) (hn : n < 2 ^ 53) : roundMagnitude (n : ℚ) = n := by
  rcases Nat.eq_zero_or_pos n with rfl | hpos
  · simp [roundMagnitude]
  · exact roundMagnitude_of_multiple n n 0 (by exact_mod_cast hpos) hn (by norm_num)
      (by simp [pow2])

theorem roundMagnitude_idem (a : ℚ) : roundMagnitude (roundMagnitude a) = roundMagnitude a := by
  by_cases ha : a ≤ 0
  · have : roundMagnitude a = 0 := by unfold roundMagnitude; rw [if_pos ha]
    rw [this]
    unfold roundMagnitude
    rw [if_pos le_rfl]
  · have hapos : 0 < a := not_le.mp ha
    have hnonneg := roundMagnitude_nonneg a
    rcases eq_or_lt_of_le hnonneg with h0 | hpos
    · rw [← h0]
      unfold roundMagnitude
      rw [if_pos le_rfl]
    · have hu : 0 < pow2 (max (ilog2 a) (-1022) - 52) := pow2_pos _
      have hr : roundEven (a / pow2 (max (ilog2 a) (-1022) - 52)) ≤ 2 ^ 53 := by
        have := roundEven_mono _ _ (scaled_lt a hapos).le
        rwa [roundEven_intCast] at this
      have hdef : roundMagnitude a
          = (roundEven (a / pow2 (max (ilog2 a) (-1022) - 52)) : ℚ)
              * pow2 (max (ilog2 a) (-1022) - 52) := by
        unfold roundMagnitude
        rw [if_neg ha]
      have hrpos : 0 < roundEven (a / pow2 (max (ilog2 a) (-1022) - 52)) := by
        by_contra hcon
        have : (roundEven (a / pow2 (max (ilog2 a) (-1022) - 52)) : ℚ) ≤ 0 := by
          exact_mod_cast not_lt.mp hcon
        have := mul_nonpos_of_nonpos_of_nonneg this hu.le
        rw [← hdef] at this
        exact absurd hpos (not_lt.mpr this)
      obtain ⟨r, hrn⟩ := Int.eq_ofNat_of_zero_le hrpos.le
      have hmax : -1022 ≤ max (ilog2 a) (-1022) := le_max_right _ _
      rcases lt_or_eq_of_le hr with hlt | heq
      · apply roundMagnitude_of_multiple _ r (max (ilog2 a) (-1022) - 52) hpos
        · rw [hrn] at hlt
          exact_mod_cast hlt
        · omega
        · rw [hdef, hrn]; simp
      · apply roundMagnitude_of_multiple _ (2 ^ 52) (max (ilog2 a) (-1022) - 51) hpos
        · norm_num
        · omega
        · rw [hdef, heq, show max (ilog2 a) (-1022) - 51 = 1 + (max (ilog2 a) (-1022) - 52) by ring,
            pow2_add, pow2_eq_zpow 1]
          push_cast
          ring

theorem pow2_1024_gt (n : ℕ) (hn : n < 2 ^ 53) : (n : ℚ) < pow2 1024 := by
  rw [pow2_eq_zpow]
  have h1 : (n : ℚ) < 2 ^ 53 := by exact_mod_cast hn
  have h2 : (2 : ℚ) ^ (53 : ℤ) ≤ 2 ^ (1024 : ℤ) := zpow_le_zpow_right₀ (by norm_num) (by norm_num)
  have h3 : (2 : ℚ) ^ (53 : ℤ) = 2 ^ 53 := by norm_num
  linarith

theorem Double.ofRat_natCast (n : ℕ) (hn : n < 2 ^ 53) :
    Double.ofRat (n : ℚ) = Double.finite n := by
  have habs : |(n : ℚ)| = n := abs_of_nonneg (by positivity)
  have hneg : ¬ ((n : ℚ) < 0) := not_lt.mpr (by positivity)
  unfold Double.ofRat
  rw [habs, roundMagnitude_natCast n hn, if_neg (not_le.mpr (pow2_1024_gt n hn)), if_neg hneg]

theorem Double.ofRat_isValue (q : ℚ) : (Double.ofRat q).IsValue := by
  unfold Double.ofRat
  by_cases hover : pow2 1024 ≤ roundMagnitude |q|
  · rw [if_pos hover]; trivial
  · rw [if_neg hover]
    unfold Double.IsValue
    by_cases hq : q < 0
    · simp only [if_pos hq]
      rcases eq_or_lt_of_le (roundMagnitude_nonneg |q|) with h0 | hpos
      · rw [← h0, neg_zero]
        exact Double.ofRat_natCast 0 (by norm_num)
      · have hneg : -roundMagnitude |q| < 0 := by linarith
        unfold Double.ofRat
        rw [abs_neg, abs_of_pos hpos, roundMagnitude_idem, if_neg hover, if_pos hneg]
    · simp only [if_neg hq]
      have hnneg : ¬ (roundMagnitude |q| < 0) := not_lt.mpr (roundMagnitude_nonneg _)
      unfold Double.ofRat
      rw [abs_of_nonneg (roundMagnitude_nonneg _), roundMagnitude_idem, if_neg hover,
        if_neg hnneg]

theorem Double.ofRat_of_bounds (q : ℚ) (n : ℕ) (hn : n + 1 < 2 ^ 53) (h0 : 0 ≤ q)
    (h1 : q ≤ n) :
    Double.ofRat q = Double.finite (roundMagnitude q) ∧ 0 ≤ roundMagnitude q ∧
      roundMagnitude q ≤ n ∧ (Int.floor q : ℚ) ≤ roundMagnitude q ∧
      roundMagnitude q ≤ (Int.floor q : ℚ) + 1 := by
  have hle : roundMagnitude q ≤ n := by
    have := roundMagnitude_mono q n h1
    rwa [roundMagnitude_natCast n (by omega)] at this
  have hfloor0 : 0 ≤ Int.floor q := Int.floor_nonneg.mpr h0
  obtain ⟨f, hf⟩ := Int.eq_ofNat_of_zero_le hfloor0
  have hfq : (f : ℚ) ≤ q := by
    have := Int.floor_le q
    rw [hf] at this
    exact_mod_cast this
  have hfn : f ≤ n := by exact_mod_cast hfq.trans h1
  have hq1 : q ≤ ((f + 1 : ℕ) : ℚ) := by
    have := (Int.lt_floor_add_one q).le
    rw [hf] at this
    exact_mod_cast this
  have hlow : (f : ℚ) ≤ roundMagnitude q := by
    have := roundMagnitude_mono f q hfq
    rwa [roundMagnitude_natCast f (by omega)] at this
  have hhigh : roundMagnitude q ≤ ((f + 1 : ℕ) : ℚ) := by
    have := roundMagnitude_mono q ((f + 1 : ℕ) : ℚ) hq1
    rwa [roundMagnitude_natCast (f + 1) (by omega)] at this
  refine ⟨?_, roundMagnitude_nonneg q, hle, ?_, ?_⟩
  · unfold Double.ofRat
    rw [abs_of_nonneg h0,
      if_neg (not_le.mpr (lt_of_le_of_lt hle (pow2_1024_gt n (by omega)))),
      if_neg (not_lt.mpr h0)]
  · rw [hf]; exact_mod_cast hlow
  · rw [hf]
    push_cast at hhigh ⊢
    exact hhigh

theorem Double.ofNat_eq (n : ℕ) (hn : n < 2 ^ 53) : (OfNat.ofNat n : Double) = Double.finite n :=
  Double.ofRat_natCast n hn

theorem Double.zero_eq : (0 : Double) = Double.finite 0 := by
  rw [Double.ofNat_eq 0 (by norm_num), Nat.cast_zero]

theorem Double.one_eq : (1 : Double) = Double.finite 1 := by
  rw [Double.ofNat_eq 1 (by norm_num), Nat.cast_one]

theorem Double.finite_lt_zero (v : ℚ) : Double.finite v < 0 ↔ v < 0 := by
  rw [Double.zero_eq]
  show Double.lt (Double.finite v) (Double.finite 0) = true ↔ v < 0
  simp [Double.lt]

theorem Double.one_lt_finite (v : ℚ) : Double.finite v > 1 ↔ 1 < v := by
  rw [Double.one_eq]
  show Double.lt (Double.finite 1) (Double.finite v) = true ↔ 1 < v
  simp [Double.lt]

theorem Double.finite_mul_255 (v : ℚ) (h0 : 0 ≤ v) (h1 : v ≤ 1) :
    Double.finite v * Double.ofRat (PR_MAX_VALUE : ℚ) = Double.finite (roundMagnitude (v * 255)) ∧
    0 ≤ roundMagnitude (v * 255) ∧ roundMagnitude (v * 255) ≤ 255 ∧
    (Int.floor (v * 255) : ℚ) ≤ roundMagnitude (v * 255) ∧
    roundMagnitude (v * 255) ≤ (Int.floor (v * 255) : ℚ) + 1 := by
  have h255 : Double.ofRat (PR_MAX_VALUE : ℚ) = Double.finite 255 := by
    have h := Double.ofRat_natCast 255 (by norm_num)
    rw [show ((255 : ℕ) : ℚ) = 255 by norm_num] at h
    rw [show ((PR_MAX_VALUE : ℕ) : ℚ) = 255 by norm_num [PR_MAX_VALUE]]
    exact h
  obtain ⟨e, b0, b1, b2, b3⟩ := Double.ofRat_of_bounds (v * 255) 255 (by norm_num)
    (by positivity) (by push_cast; linarith)
  rw [h255]
  rw [show ((255 : ℕ) : ℚ) = 255 by norm_num] at b1
  refine ⟨?_, b0, b1, b2, b3⟩
  show Double.mul (Double.finite v) (Double.finite 255) = _
  rw [Double.mul, e]

theorem Double.toUInt_finite (bits : Nat) (w : ℚ) (h0 : 0 ≤ w) (h1 : w < ((2 ^ bits : ℕ) : ℚ)) :
    Double.toUInt bits (Double.finite w) = some (Int.floor w).toNat := by
  have hg : -1 < w ∧ w < ((2 ^ bits : ℕ) : ℚ) := ⟨by linarith, h1⟩
  rw [Double.toUInt, if_pos hg]

theorem Double.nan_mul (x : Double) : Double.nan * x = Double.nan := by
  cases x <;> rfl

theorem Double.not_nan_lt (x : Double) : ¬ (Double.nan < x) := by
  cases x <;> exact Bool.false_ne_true

theorem Double.not_lt_nan (x : Double) : ¬ (x < Double.nan) := by
  cases x <;> exact Bool.false_ne_true

/-! ## Outgoing commands and the connection status -/

theorem setConnectionStatuses_chain (statuses : List ConnectionStatus) :
    ∀ s : Communicator,
      List.Chain (fun a b => a ≠ b) (Effect.connectionStatusChanged s.mConnectionStatus)
        (setConnectionStatuses statuses s).1 ∧
      ∀ e ∈ (setConnectionStatuses statuses s).1, ∃ st, e = Effect.connectionStatusChanged st := by
  induction statuses with
  | nil => intro s; simp [setConnectionStatuses]
  | cons status rest ih =>
    intro s
    by_cases h : status = s.mConnectionStatus
    · have e : setConnectionStatus status s = ([], s) := by simp [setConnectionStatus, h]
      simp only [setConnectionStatuses, e, List.nil_append]
      exact ih s
    · have e : setConnectionStatus status s
          = ([Effect.connectionStatusChanged status], { s with mConnectionStatus := status }) := by
        simp [setConnectionStatus, h]
      simp only [setConnectionStatuses, e, List.singleton_append, List.chain_cons,
        List.mem_cons]
      have hrest := ih { s with mConnectionStatus := status }
      refine ⟨⟨?_, hrest.1⟩, ?_⟩
      · intro heq
        exact h (Effect.connectionStatusChanged.inj heq).symm
      · rintro e (rfl | he)
        · exact ⟨status, rfl⟩
        · exact hrest.2 e he

/-! ## The routine interpreter -/

theorem valveStep_eq_perform (h : Host) (dummyRun : Bool) (i : Nat) (line : QString)
    (list : List QString) (toggleAll : Bool) (valveNumber : Nat) (s : RoutineController) :
    valveStep h dummyRun i line list toggleAll valveNumber s
      = perform h dummyRun i line
          (if list.getD 2 [] ≠ "open".toList ∧ list.getD 2 [] ≠ "close".toList then
            LineAction.reject ": valve status not recognized"
           else LineAction.step
            (Step.valve toggleAll valveNumber (decide (list.getD 2 [] = "open".toList)))) s := by
  unfold valveStep
  by_cases hs : list.getD 2 [] ≠ "open".toList ∧ list.getD 2 [] ≠ "close".toList
  · simp only [if_pos hs]; rfl
  · simp only [if_neg hs]
    cases dummyRun <;> rfl

theorem valveLine_eq_perform (h : Host) (dummyRun : Bool) (i : Nat) (line : QString)
    (list : List QString) (s : RoutineController) :
    valveLine h dummyRun i line list s = perform h dummyRun i line (classifyValve h list) s := by
  unfold valveLine classifyValve
  by_cases hl : list.length ≠ 3
  · simp only [if_pos hl]; rfl
  · simp only [if_neg hl]
    by_cases ha : list.getD 1 [] = "all".toList
    · simp only [if_pos ha, valveStep_eq_perform]
    · simp only [if_neg ha]
      cases h.toUInt (list.getD 1 []) with
      | none => rfl
      | some v =>
        simp only
        by_cases hv : v < 1 ∨ v > h.nValves
        · simp only [if_pos hv]; rfl
        · simp only [if_neg hv, valveStep_eq_perform]

theorem pressureLine_eq_perform (h : Host) (dummyRun : Bool) (i : Nat) (line : QString)
    (list : List QString) (s : RoutineController) :
    pressureLine h dummyRun i line list s
      = perform h dummyRun i line (classifyPressure h list) s := by
  unfold pressureLine classifyPressure
  by_cases hl : list.length ≠ 3
  · simp only [if_pos hl]; rfl
  · simp only [if_neg hl]
    cases h.toUInt (list.getD 1 []) with
    | none => rfl
    | some c =>
      simp only
      by_cases hc : c < 1 ∨ c > h.nPressureControllers
      · simp only [if_pos hc]; rfl
      · simp only [if_neg hc]
        cases h.toDouble (list.getD 2 []) with
        | none => rfl
        | some x =>
          simp only
          by_cases h0 : x < 0
          · simp only [if_pos h0]; rfl
          · simp only [if_neg h0]
            by_cases hb : x < h.minPressure c ∨ x > h.maxPressure c
            · simp only [if_pos hb]; rfl
            · simp only [if_neg hb]
              cases dummyRun <;> rfl

theorem waitLine_eq_perform (h : Host) (dummyRun : Bool) (i : Nat) (line : QString)
    (list : List QString) (s : RoutineController) :
    waitLine h dummyRun i line list s = perform h dummyRun i line (classifyWait h list) s := by
  unfold waitLine classifyWait
  by_cases hl : list.length ≠ 2 ∧ list.length ≠ 3
  · simp only [if_pos hl]; rfl
  · simp only [if_neg hl]
    cases h.toDouble (list.getD 1 []) with
    | none => rfl
    | some t => cases dummyRun <;> rfl

theorem processLine_eq_perform (h : Host) (dummyRun : Bool) (i : Nat) (raw : QString)
    (s : RoutineController) :
    processLine h dummyRun i raw s
      = perform h dummyRun i (simplified (removeComment raw))
          (classify h (simplified (removeComment raw))) s := by
  unfold processLine classify
  generalize simplified (removeComment raw) = line
  by_cases h0 : line = []
  · simp only [if_pos h0]; rfl
  · simp only [if_neg h0]
    by_cases h1 : (split ' ' line).getD 0 [] = "valve".toList
    · simp only [if_pos h1, valveLine_eq_perform]
    · simp only [if_neg h1]
      by_cases h2 : (split ' ' line).getD 0 [] = "pressure".toList
      · simp only [if_pos h2, pressureLine_eq_perform]
      · simp only [if_neg h2]
        by_cases h3 : (split ' ' line).getD 0 [] = "wait".toList
        · simp only [if_pos h3, waitLine_eq_perform]
        · simp only [if_neg h3]
          by_cases h4 : (split ' ' line).getD 0 [] = "multiplexer".toList
          · simp only [if_pos h4]
            unfold multiplexerLine
            by_cases hl : (split ' ' line).length ≠ 2
            · simp only [if_pos hl]; rfl
            · simp only [if_neg hl]; cases dummyRun <;> rfl
          · simp only [if_neg h4]
            by_cases h5 : (split ' ' line).getD 0 [] = "input".toList
            · simp only [if_pos h5]
              unfold inputLine
              by_cases hl : (split ' ' line).length ≠ 2
              · simp only [if_pos hl]; rfl
              · simp only [if_neg hl]; cases dummyRun <;> rfl
            · simp only [if_neg h5]; rfl

theorem toggleAllLoop_eq (n : Nat) (isOpen : Bool) (hn : n < 2 ^ 32 - 1) (fuel : Nat) :
    ∀ v, v + fuel = n + 2 →
      toggleAllLoop n isOpen fuel v
        = (List.range' v (n + 1 - v)).map (fun k => Signal.setValve k isOpen) := by
  induction fuel with
  | zero =>
    intro v hv
    have e : n + 1 - v = 0 := by omega
    simp [toggleAllLoop, e]
  | succ fuel ih =>
    intro v hv
    by_cases hle : v ≤ n
    · have hwrap : (v + 1) % 2 ^ 32 = v + 1 := Nat.mod_eq_of_lt (by omega)
      have e : n + 1 - v = (n + 1 - (v + 1)) + 1 := by omega
      rw [toggleAllLoop, if_pos hle, hwrap, ih (v + 1) (by omega), e, List.range'_succ]
      simp
    · have e : n + 1 - v = 0 := by omega
      rw [toggleAllLoop, if_neg hle, e]
      simp

theorem toggleAllLoop_all (n : Nat) (isOpen : Bool) (hn : n < 2 ^ 32 - 1) :
    toggleAllLoop n isOpen (n + 1) 1
      = (List.range' 1 n).map (fun k => Signal.setValve k isOpen) := by
  have h := toggleAllLoop_eq n isOpen hn (n + 1) 1 (by omega)
  simpa using h

theorem line_ne_nil_of_tokens (line word : QString) (rest : List QString)
    (hw : word ≠ []) (htok : split ' ' line = word :: rest) : line ≠ [] := by
  rintro rfl
  simp only [split, List.cons.injEq] at htok
  exact hw htok.1.symm

theorem classify_valve (h : Host) (line : QString) (rest : List QString)
    (htok : split ' ' line = "valve".toList :: rest) :
    classify h line = classifyValve h ("valve".toList :: rest) := by
  have hne := line_ne_nil_of_tokens line _ rest (by decide) htok
  unfold classify
  simp only [if_neg hne, htok, List.getD_cons_zero, if_true]

theorem classify_pressure (h : Host) (line : QString) (rest : List QString)
    (htok : split ' ' line = "pressure".toList :: rest) :
    classify h line = classifyPressure h ("pressure".toList :: rest) := by
  have hne := line_ne_nil_of_tokens line _ rest (by decide) htok
  have hv : ¬ ("pressure".toList = "valve".toList) := by decide
  unfold classify
  simp only [if_neg hne, htok, List.getD_cons_zero, if_neg hv, if_true]

theorem classifyValve_of_conforms (h : Host) (a b : QString)
    (ha : a = "all".toList ∨ ∃ v, h.toUInt a = some v ∧ 1 ≤ v ∧ v ≤ h.nValves)
    (hb : b = "open".toList ∨ b = "close".toList) :
    (a = "all".toList ∧ classifyValve h ["valve".toList, a, b]
        = LineAction.step (Step.valve true 0 (decide (b = "open".toList)))) ∨
    (a ≠ "all".toList ∧ ∃ v, h.toUInt a = some v ∧ 1 ≤ v ∧ v ≤ h.nValves ∧
      classifyValve h ["valve".toList, a, b]
        = LineAction.step (Step.valve false v (decide (b = "open".toList)))) := by
  have hstate : ¬ (b ≠ "open".toList ∧ b ≠ "close".toList) := by
    rintro ⟨h1, h2⟩
    rcases hb with hb | hb
    · exact h1 hb
    · exact h2 hb
  have hl : ¬ (["valve".toList, a, b].length ≠ 3) := by simp
  by_cases hall : a = "all".toList
  · left
    refine ⟨hall, ?_⟩
    unfold classifyValve
    simp only [if_neg hl, List.getD_cons_succ, List.getD_cons_zero, if_pos hall, if_neg hstate]
  · right
    rcases ha with ha | ⟨v, hv, h1, h2⟩
    · exact absurd ha hall
    · refine ⟨hall, v, hv, h1, h2, ?_⟩
      have hrange : ¬ (v < 1 ∨ v > h.nValves) := by omega
      unfold classifyValve
      simp only [if_neg hl, List.getD_cons_succ, List.getD_cons_zero, if_neg hall, hv,
        if_neg hrange, if_neg hstate]

theorem classifyValve_of_not_conforms (h : Host) (rest : List QString)
    (hnot : ¬ conformsValve h rest) :
    ∃ text, classifyValve h ("valve".toList :: rest) = LineAction.reject text := by
  unfold classifyValve
  by_cases hl : ("valve".toList :: rest).length ≠ 3
  · exact ⟨_, if_pos hl⟩
  · rw [if_neg hl]
    have hlen : rest.length = 2 := by
      simp only [List.length_cons, ne_eq, not_not] at hl; omega
    obtain ⟨a, b, rfl⟩ : ∃ a b, rest = [a, b] := by
      match rest, hlen with
      | [a, b], _ => exact ⟨a, b, rfl⟩
    simp only [List.getD_cons_succ, List.getD_cons_zero]
    by_cases hstate : b ≠ "open".toList ∧ b ≠ "close".toList
    · by_cases hall : a = "all".toList
      · exact ⟨_, by rw [if_pos hall, if_pos hstate]⟩
      · rw [if_neg hall]
        cases h.toUInt a with
        | none => exact ⟨_, rfl⟩
        | some v =>
          dsimp only
          by_cases hv : v < 1 ∨ v > h.nValves
          · exact ⟨_, by rw [if_pos hv]⟩
          · exact ⟨_, by rw [if_neg hv, if_pos hstate]⟩
    · have hb : b = "open".toList ∨ b = "close".toList := by
        by_cases h1 : b = "open".toList
        · exact Or.inl h1
        · right
          by_contra h2
          exact hstate ⟨h1, h2⟩
      by_cases hall : a = "all".toList
      · exact absurd ⟨a, b, rfl, Or.inl hall, hb⟩ hnot
      · rw [if_neg hall]
        cases hu : h.toUInt a with
        | none => exact ⟨_, rfl⟩
        | some v =>
          dsimp only
          by_cases hv : v < 1 ∨ v > h.nValves
          · exact ⟨_, by rw [if_pos hv]⟩
          · exact absurd ⟨a, b, rfl, Or.inr ⟨v, hu, by omega, by omega⟩, hb⟩ hnot

theorem perform_frame (h : Host) (dummyRun : Bool) (i : Nat) (line : QString)
    (a : LineAction) (s : RoutineController) :
    (perform h dummyRun i line a s).state.mRunStatus = s.mRunStatus ∧
    (perform h dummyRun i line a s).state.mPauseRequested = s.mPauseRequested ∧
    (perform h dummyRun i line a s).state.mStopRequested = s.mStopRequested ∧
    (perform h dummyRun i line a s).state.mLines = s.mLines ∧
    (perform h dummyRun i line a s).state.mRoutineName = s.mRoutineName ∧
    (perform h dummyRun i line a s).state.mNumberOfSteps = s.mNumberOfSteps := by
  cases a with
  | blank => exact ⟨rfl, rfl, rfl, rfl, rfl, rfl⟩
  | reject text => exact ⟨rfl, rfl, rfl, rfl, rfl, rfl⟩
  | unknown => exact ⟨rfl, rfl, rfl, rfl, rfl, rfl⟩
  | step st =>
    cases st <;> cases dummyRun <;> exact ⟨rfl, rfl, rfl, rfl, rfl, rfl⟩

theorem perform_dry_frame (h : Host) (i : Nat) (line : QString) (a : LineAction)
    (s : RoutineController) :
    (perform h true i line a s).state.mCurrentStep = s.mCurrentStep ∧
    (perform h true i line a s).state.mElapsedTime = s.mElapsedTime := by
  cases a with
  | blank => exact ⟨rfl, rfl⟩
  | reject text => exact ⟨rfl, rfl⟩
  | unknown => exact ⟨rfl, rfl⟩
  | step st => cases st <;> exact ⟨rfl, rfl⟩

theorem perform_numberOfSteps (h : Host) (dummyRun : Bool) (i : Nat) (line : QString)
    (a : LineAction) (s : RoutineController) (n : Int) :
    perform h dummyRun i line a { s with mNumberOfSteps := n }
      = ⟨{ (perform h dummyRun i line a s).state with mNumberOfSteps := n },
         (perform h dummyRun i line a s).signals, (perform h dummyRun i line a s).continued⟩ := by
  cases a with
  | blank => rfl
  | reject text => rfl
  | unknown => rfl
  | step st => cases st <;> cases dummyRun <;> rfl

theorem runLoop_quiet_cons (h : Host) (dummyRun : Bool) (raw : QString) (rest : List QString)
    (i : Nat) (s : RoutineController)
    (hp : s.mPauseRequested = false) (hs : s.mStopRequested = false) :
    runLoop h dummyRun Schedule.quiet (raw :: rest) i s
      = (runLoop h dummyRun Schedule.quiet rest (i + 1)
          (processLine h dummyRun i raw s).state).after (processLine h dummyRun i raw s).signals := by
  have hf := perform_frame h dummyRun i (simplified (removeComment raw))
    (classify h (simplified (removeComment raw))) s
  rw [← processLine_eq_perform] at hf
  have hp2 : (processLine h dummyRun i raw s).state.mPauseRequested = false := by
    rw [hf.2.1, hp]
  have hs2 : (processLine h dummyRun i raw s).state.mStopRequested = false := by
    rw [hf.2.2.1, hs]
  rw [runLoop]
  by_cases hc : (processLine h dummyRun i raw s).continued = true
  · simp only [if_pos hc]
  · simp only [if_neg hc, Schedule.quiet, List.foldl_nil, hs2, hp2, Bool.false_eq_true,
      if_false]

theorem runLoop_dry_quiet_frame (h : Host) (lines : List QString) :
    ∀ (i : Nat) (s : RoutineController),
      s.mPauseRequested = false → s.mStopRequested = false →
      (runLoop h true Schedule.quiet lines i s).returned = true ∧
      (runLoop h true Schedule.quiet lines i s).state.mRunStatus = s.mRunStatus ∧
      (runLoop h true Schedule.quiet lines i s).state.mPauseRequested = false ∧
      (runLoop h true Schedule.quiet lines i s).state.mStopRequested = false ∧
      (runLoop h true Schedule.quiet lines i s).state.mLines = s.mLines ∧
      (runLoop h true Schedule.quiet lines i s).state.mRoutineName = s.mRoutineName ∧
      (runLoop h true Schedule.quiet lines i s).state.mCurrentStep = s.mCurrentStep ∧
      (runLoop h true Schedule.quiet lines i s).state.mElapsedTime = s.mElapsedTime := by
  induction lines with
  | nil =>
    intro i s hp hs
    exact ⟨rfl, rfl, hp, hs, rfl, rfl, rfl, rfl⟩
  | cons raw rest ih =>
    intro i s hp hs
    have hf := perform_frame h true i (simplified (removeComment raw))
      (classify h (simplified (removeComment raw))) s
    have hd := perform_dry_frame h i (simplified (removeComment raw))
      (classify h (simplified (removeComment raw))) s
    rw [← processLine_eq_perform] at hf hd
    have hnext := ih (i + 1) (processLine h true i raw s).state (by rw [hf.2.1, hp])
      (by rw [hf.2.2.1, hs])
    rw [runLoop_quiet_cons h true raw rest i s hp hs]
    simp only [RunResult.after]
    refine ⟨hnext.1, ?_, hnext.2.2.1, hnext.2.2.2.1, ?_, ?_, ?_, ?_⟩
    · rw [hnext.2.1, hf.1]
    · rw [hnext.2.2.2.2.1, hf.2.2.2.1]
    · rw [hnext.2.2.2.2.2.1, hf.2.2.2.2.1]
    · rw [hnext.2.2.2.2.2.2.1, hd.1]
    · rw [hnext.2.2.2.2.2.2.2, hd.2]

theorem runLoop_quiet_numberOfSteps (h : Host) (dummyRun : Bool) (lines : List QString) :
    ∀ (i : Nat) (s : RoutineController) (n : Int),
      s.mPauseRequested = false → s.mStopRequested = false →
      runLoop h dummyRun Schedule.quiet lines i { s with mNumberOfSteps := n }
        = ⟨{ (runLoop h dummyRun Schedule.quiet lines i s).state with mNumberOfSteps := n },
           (runLoop h dummyRun Schedule.quiet lines i s).signals,
           (runLoop h dummyRun Schedule.quiet lines i s).returned⟩ := by
  induction lines with
  | nil => intro i s n _ _; rfl
  | cons raw rest ih =>
    intro i s n hp hs
    have hf := perform_frame h dummyRun i (simplified (removeComment raw))
      (classify h (simplified (removeComment raw))) s
    rw [← processLine_eq_perform] at hf
    have hstep : processLine h dummyRun i raw { s with mNumberOfSteps := n }
        = ⟨{ (processLine h dummyRun i raw s).state with mNumberOfSteps := n },
           (processLine h dummyRun i raw s).signals,
           (processLine h dummyRun i raw s).continued⟩ := by
      rw [processLine_eq_perform, perform_numberOfSteps, ← processLine_eq_perform]
    rw [runLoop_quiet_cons h dummyRun raw rest i { s with mNumberOfSteps := n } hp hs,
      runLoop_quiet_cons h dummyRun raw rest i s hp hs, hstep]
    simp only [RunResult.after]
    rw [ih (i + 1) (processLine h dummyRun i raw s).state n (by rw [hf.2.1, hp])
      (by rw [hf.2.2.1, hs])]

theorem run_dry_quiet (h : Host) (s : RoutineController) (hp : s.mPauseRequested = false) :
    RoutineController.run h true Schedule.quiet s
      = ⟨{ (runLoop h true Schedule.quiet s.mLines 0 (dryStart s)).state with
            mNumberOfSteps :=
              (runLoop h true Schedule.quiet s.mLines 0 (dryStart s)).state.mValidSteps.length },
         (runLoop h true Schedule.quiet s.mLines 0 (dryStart s)).signals
           ++ (if (runLoop h true Schedule.quiet s.mLines 0 (dryStart s)).state.mValidSteps ≠ []
               then [Signal.stepsListChanged] else []),
         true⟩ := by
  have hret := (runLoop_dry_quiet_frame h s.mLines 0 (dryStart s) hp rfl).1
  unfold RoutineController.run
  simp only [if_true, RunResult.after, List.nil_append]
  have e : (runLoop h true Schedule.quiet s.mLines 0
      { s with mErrorCount := 0, mErrors := [], mCurrentStep := -1, mStopRequested := false,
               mElapsedTime := 0, mValidSteps := [], mTotalWaitTime := 0 })
      = runLoop h true Schedule.quiet s.mLines 0 (dryStart s) := rfl
  simp only [e, hret, if_true]

theorem dryStart_after_dry_run (h : Host) (s : RoutineController)
    (hp : s.mPauseRequested = false) (n : Int) :
    dryStart { (runLoop h true Schedule.quiet s.mLines 0 (dryStart s)).state with
                mNumberOfSteps := n }
      = { dryStart s with mNumberOfSteps := n } := by
  obtain ⟨-, h1, h2, -, h3, h4, -, -⟩ := runLoop_dry_quiet_frame h s.mLines 0 (dryStart s) hp rfl
  simp only [dryStart, RoutineController.mk.injEq, and_true, true_and] at h1 h2 h3 h4 ⊢
  exact ⟨h1, by rw [h2, hp], h3, h4⟩

theorem run_dry_quiet_twice (h : Host) (s : RoutineController)
    (hp : s.mPauseRequested = false) :
    RoutineController.run h true Schedule.quiet
        (RoutineController.run h true Schedule.quiet s).state
      = RoutineController.run h true Schedule.quiet s := by
  have hf := runLoop_dry_quiet_frame h s.mLines 0 (dryStart s) hp rfl
  have hnum := runLoop_quiet_numberOfSteps h true s.mLines 0 (dryStart s)
    (runLoop h true Schedule.quiet s.mLines 0 (dryStart s)).state.mValidSteps.length hp rfl
  have e1 := run_dry_quiet h s hp
  obtain ⟨s1, hs1⟩ : ∃ s1 : RoutineController,
      s1 = { (runLoop h true Schedule.quiet s.mLines 0 (dryStart s)).state with
              mNumberOfSteps :=
                (runLoop h true Schedule.quiet s.mLines 0 (dryStart s)).state.mValidSteps.length } :=
    ⟨_, rfl⟩
  have hst : (RoutineController.run h true Schedule.quiet s).state = s1 := by rw [e1, hs1]
  have hlines : s1.mLines = s.mLines := by rw [hs1]; exact hf.2.2.2.2.1
  have hpause : s1.mPauseRequested = false := by rw [hs1]; exact hf.2.2.1
  have hstart : dryStart s1
      = { dryStart s with
          mNumberOfSteps :=
            (runLoop h true Schedule.quiet s.mLines 0 (dryStart s)).state.mValidSteps.length } := by
    rw [hs1]; exact dryStart_after_dry_run h s hp _
  rw [hst, run_dry_quiet h s1 hpause, hlines, hstart, hnum, e1]

theorem toggleAllLoop_mem (n : Nat) (isOpen : Bool) (fuel : Nat) :
    ∀ v sig, sig ∈ toggleAllLoop n isOpen fuel v → ∃ w, sig = Signal.setValve w isOpen := by
  induction fuel with
  | zero => intro v sig hm; simp [toggleAllLoop] at hm
  | succ fuel ih =>
    intro v sig hm
    rw [toggleAllLoop] at hm
    split_ifs at hm
    · rcases List.mem_cons.mp hm with e | hm
      · exact ⟨v, e⟩
      · exact ih _ sig hm
    · simp at hm

theorem split_eq_cons (sep : Char) (line : QString) :
    ∃ first rest, split sep line = first :: rest := by
  cases line with
  | nil => exact ⟨[], [], rfl⟩
  | cons c cs =>
    rw [split]
    by_cases hc : c = sep
    · exact ⟨_, _, if_pos hc⟩
    · rw [if_neg hc]
      cases split sep cs with
      | nil => exact ⟨_, _, rfl⟩
      | cons w ws => exact ⟨_, _, rfl⟩

theorem removeComment_append_comment (line text : QString) :
    removeComment (line ++ '#' :: text) = removeComment line := by
  unfold removeComment
  induction line with
  | nil => simp
  | cons c cs ih =>
    rw [List.cons_append]
    by_cases hc : c = '#'
    · subst hc; simp
    · have hd : decide (c ≠ '#') = true := by simpa using hc
      rw [List.takeWhile_cons_of_pos (by simpa using hc),
        List.takeWhile_cons_of_pos (by simpa using hc), ih]

theorem removeComment_of_no_hash (line : QString) (hl : ∀ c ∈ line, c ≠ '#') :
    removeComment line = line := by
  unfold removeComment
  rw [List.takeWhile_eq_self_iff]
  intro c hc
  simpa using hl c hc

theorem simplifiedFrom_blank (blank : QString) (hb : isBlank blank = true) :
    ∀ started gap, simplifiedFrom started gap blank = [] := by
  induction blank with
  | nil => intro started gap; rfl
  | cons c cs ih =>
    intro started gap
    simp only [isBlank, List.all_cons, Bool.and_eq_true] at hb
    rw [simplifiedFrom, if_pos hb.1]
    exact ih (by simpa [isBlank] using hb.2) _ _

theorem simplifiedFrom_lead (lead rest : QString) (hb : isBlank lead = true) :
    simplifiedFrom false false (lead ++ rest) = simplifiedFrom false false rest := by
  induction lead with
  | nil => rfl
  | cons c cs ih =>
    simp only [isBlank, List.all_cons, Bool.and_eq_true] at hb
    rw [List.cons_append, simplifiedFrom, if_pos hb.1]
    exact ih (by simpa [isBlank] using hb.2)

theorem simplifiedFrom_gap (gap rest : QString) (hg : isGap gap = true) (pending : Bool) :
    simplifiedFrom true pending (gap ++ rest) = simplifiedFrom true true rest := by
  cases gap with
  | nil => simp [isGap] at hg
  | cons c cs =>
    simp only [isGap, List.isEmpty_cons, Bool.not_false, Bool.true_and, List.all_cons,
      Bool.and_eq_true] at hg
    rw [List.cons_append, simplifiedFrom, if_pos hg.1]
    clear pending
    induction cs with
    | nil => rfl
    | cons d ds ih =>
      simp only [List.all_cons, Bool.and_eq_true] at hg
      rw [List.cons_append, simplifiedFrom, if_pos hg.2.1]
      exact ih ⟨hg.1, hg.2.2⟩

theorem simplifiedFrom_letters (w rest : QString) (hw : ∀ c ∈ w, isSpace c = false) :
    simplifiedFrom true false (w ++ rest) = w ++ simplifiedFrom true false rest := by
  induction w with
  | nil => rfl
  | cons c cs ih =>
    have hc : ¬ (isSpace c = true) := by simp [hw c (List.mem_cons_self _ _)]
    rw [List.cons_append, simplifiedFrom, if_neg hc, if_neg (by decide),
      ih (fun d hd => hw d (List.mem_cons_of_mem _ hd)), List.cons_append]

theorem isWord_iff (w : QString) :
    isWord w = true ↔ w ≠ [] ∧ ∀ c ∈ w, isSpace c = false ∧ c ≠ '#' := by
  cases w with
  | nil => simp [isWord]
  | cons c cs => simp [isWord, List.all_eq_true]

theorem simplifiedFrom_word (w rest : QString) (hw : isWord w = true) (started pending : Bool) :
    simplifiedFrom started pending (w ++ rest)
      = (if pending then ' ' :: w else w) ++ simplifiedFrom true false rest := by
  obtain ⟨hne, hall⟩ := (isWord_iff w).mp hw
  cases w with
  | nil => exact absurd rfl hne
  | cons c cs =>
    have hc : ¬ (isSpace c = true) := by simp [(hall c (List.mem_cons_self _ _)).1]
    rw [List.cons_append, simplifiedFrom, if_neg hc,
      simplifiedFrom_letters cs rest (fun d hd => (hall d (List.mem_cons_of_mem _ hd)).1)]
    cases pending <;> simp

theorem simplifiedFrom_more (more : List (QString × QString)) (trail : QString)
    (hmore : ∀ gw ∈ more, isGap gw.1 = true ∧ isWord gw.2 = true)
    (htrail : isBlank trail = true) :
    simplifiedFrom true false ((more.map (fun gw => gw.1 ++ gw.2)).flatten ++ trail)
      = ((more.map Prod.snd).map (fun w => ' ' :: w)).flatten := by
  induction more with
  | nil => simpa using simplifiedFrom_blank trail htrail true false
  | cons gw rest ih =>
    obtain ⟨hg, hw⟩ := hmore gw (List.mem_cons_self _ _)
    rw [List.map_cons, List.flatten_cons, List.append_assoc, List.append_assoc,
      simplifiedFrom_gap _ _ hg, simplifiedFrom_word _ _ hw,
      ih (fun x hx => hmore x (List.mem_cons_of_mem _ hx))]
    simp

theorem simplified_spacedLine (lead first : QString) (more : List (QString × QString))
    (trail : QString) (hlead : isBlank lead = true) (hfirst : isWord first = true)
    (hmore : ∀ gw ∈ more, isGap gw.1 = true ∧ isWord gw.2 = true)
    (htrail : isBlank trail = true) :
    simplified (spacedLine lead first more trail) = normalLine first (more.map Prod.snd) := by
  unfold simplified spacedLine normalLine
  rw [simplifiedFrom_lead _ _ hlead, simplifiedFrom_word _ _ hfirst,
    simplifiedFrom_more more trail hmore htrail]
  simp

theorem isSpace_hash : isSpace '#' = false := by decide

theorem spacedLine_no_hash (lead first : QString) (more : List (QString × QString))
    (trail : QString) (hlead : isBlank lead = true) (hfirst : isWord first = true)
    (hmore : ∀ gw ∈ more, isGap gw.1 = true ∧ isWord gw.2 = true)
    (htrail : isBlank trail = true) :
    ∀ c ∈ spacedLine lead first more trail, c ≠ '#' := by
  have hblank : ∀ w : QString, w.all isSpace = true → ∀ c ∈ w, c ≠ '#' := by
    intro w hw c hc e
    subst e
    have := List.all_eq_true.mp hw _ hc
    rw [isSpace_hash] at this
    cases this
  intro c hc
  simp only [spacedLine, List.mem_append, List.mem_flatten, List.mem_map] at hc
  rcases hc with hc | hc | ⟨l, ⟨gw, hgw, rfl⟩, hc⟩ | hc
  · exact hblank lead hlead c hc
  · exact (((isWord_iff first).mp hfirst).2 c hc).2
  · obtain ⟨hg, hw⟩ := hmore gw hgw
    rcases List.mem_append.mp hc with hc | hc
    · simp only [isGap, Bool.and_eq_true] at hg
      exact hblank gw.1 hg.2 c hc
    · exact (((isWord_iff gw.2).mp hw).2 c hc).2
  · exact hblank trail htrail c hc

theorem normalized_spacedLine (lead first : QString) (more : List (QString × QString))
    (trail text : QString) (hlead : isBlank lead = true) (hfirst : isWord first = true)
    (hmore : ∀ gw ∈ more, isGap gw.1 = true ∧ isWord gw.2 = true)
    (htrail : isBlank trail = true) :
    simplified (removeComment (spacedLine lead first more trail))
        = normalLine first (more.map Prod.snd) ∧
    simplified (removeComment (spacedLine lead first more trail ++ '#' :: text))
        = normalLine first (more.map Prod.snd) := by
  rw [removeComment_append_comment,
    removeComment_of_no_hash _ (spacedLine_no_hash lead first more trail hlead hfirst hmore htrail),
    simplified_spacedLine lead first more trail hlead hfirst hmore htrail]
  exact ⟨rfl, rfl⟩

theorem normalized_blank (blank text : QString) (hb : isBlank blank = true) :
    simplified (removeComment blank) = [] ∧
    simplified (removeComment (blank ++ '#' :: text)) = [] := by
  have hno : ∀ c ∈ blank, c ≠ '#' := by
    intro c hc e
    subst e
    have := List.all_eq_true.mp hb _ hc
    rw [isSpace_hash] at this
    cases this
  rw [removeComment_append_comment, removeComment_of_no_hash _ hno]
  exact ⟨simplifiedFrom_blank blank hb _ _, simplifiedFrom_blank blank hb _ _⟩

theorem perform_dry_validSteps (h : Host) (i : Nat) (line : QString) (a : LineAction)
    (s : RoutineController) :
    (perform h true i line a s).state.mValidSteps
      = s.mValidSteps ++ (if a.isStep then [line] else []) := by
  cases a with
  | blank => exact (List.append_nil _).symm
  | reject text => exact (List.append_nil _).symm
  | unknown => exact (List.append_nil _).symm
  | step st => cases st <;> rfl

theorem toggleAllLoop_filterMap (n : Nat) (isOpen : Bool) (fuel v : Nat) {α : Type}
    (f : Signal → Option α) (hf : ∀ w b, f (Signal.setValve w b) = none) :
    (toggleAllLoop n isOpen fuel v).filterMap f = [] := by
  rw [List.filterMap_eq_nil_iff]
  intro sig hm
  obtain ⟨w, rfl⟩ := toggleAllLoop_mem n isOpen fuel v sig hm
  exact hf w isOpen

theorem perform_statusWrites (h : Host) (dummyRun : Bool) (i : Nat) (line : QString)
    (a : LineAction) (s : RoutineController) :
    statusWrites (perform h dummyRun i line a s).signals = [] := by
  unfold statusWrites
  cases a with
  | blank => rfl
  | reject text => rfl
  | unknown => rfl
  | step st =>
    cases st with
    | valve toggleAll v isOpen =>
      cases dummyRun
      · cases toggleAll
        · rfl
        · simp only [perform, Bool.false_eq_true, if_false, if_true,
            RoutineController.setCurrentStep, List.filterMap_append,
            toggleAllLoop_filterMap _ _ _ _ Signal.statusWritten (fun _ _ => rfl)]
          rfl
      · rfl
    | pressure c x => cases dummyRun <;> rfl
    | wait t => cases dummyRun <;> rfl
    | multiplexer ch => cases dummyRun <;> rfl
    | input ch => cases dummyRun <;> rfl

theorem perform_stepNumbers (h : Host) (dummyRun : Bool) (i : Nat) (line : QString)
    (a : LineAction) (s : RoutineController) :
    stepNumbers (perform h dummyRun i line a s).signals
      = (if a.isStep ∧ dummyRun = false then [s.mCurrentStep + 1] else []) ∧
    (perform h dummyRun i line a s).state.mCurrentStep
      = s.mCurrentStep + (if a.isStep ∧ dummyRun = false then 1 else 0) := by
  unfold stepNumbers
  cases a with
  | blank => exact ⟨rfl, (add_zero _).symm⟩
  | reject text => exact ⟨rfl, (add_zero _).symm⟩
  | unknown => exact ⟨rfl, (add_zero _).symm⟩
  | step st =>
    cases st with
    | valve toggleAll v isOpen =>
      cases dummyRun
      · cases toggleAll
        · exact ⟨rfl, rfl⟩
        · refine ⟨?_, rfl⟩
          simp only [perform, Bool.false_eq_true, if_false, if_true,
            RoutineController.setCurrentStep, List.filterMap_append,
            toggleAllLoop_filterMap _ _ _ _ Signal.stepNumber (fun _ _ => rfl)]
          rfl
      · exact ⟨rfl, (add_zero _).symm⟩
    | pressure c x => cases dummyRun <;> first | exact ⟨rfl, rfl⟩ | exact ⟨rfl, (add_zero _).symm⟩
    | wait t => cases dummyRun <;> first | exact ⟨rfl, rfl⟩ | exact ⟨rfl, (add_zero _).symm⟩
    | multiplexer ch =>
      cases dummyRun <;> first | exact ⟨rfl, rfl⟩ | exact ⟨rfl, (add_zero _).symm⟩
    | input ch => cases dummyRun <;> first | exact ⟨rfl, rfl⟩ | exact ⟨rfl, (add_zero _).symm⟩

theorem perform_errors (h : Host) (dummyRun : Bool) (i : Nat) (line : QString)
    (a : LineAction) (s : RoutineController) :
    (perform h dummyRun i line a s).state.mErrors = s.mErrors ++ a.errors i ∧
    (perform h dummyRun i line a s).state.mErrorCount = s.mErrorCount + (a.errors i).length ∧
    errorSignals (perform h dummyRun i line a s).signals = a.errors i := by
  unfold errorSignals
  cases a with
  | blank => exact ⟨(List.append_nil _).symm, (add_zero _).symm, rfl⟩
  | reject text => exact ⟨rfl, rfl, rfl⟩
  | unknown => exact ⟨(List.append_nil _).symm, (add_zero _).symm, rfl⟩
  | step st =>
    cases st with
    | valve toggleAll v isOpen =>
      cases dummyRun
      · cases toggleAll
        · exact ⟨(List.append_nil _).symm, (add_zero _).symm, rfl⟩
        · refine ⟨(List.append_nil _).symm, (add_zero _).symm, ?_⟩
          simp only [perform, Bool.false_eq_true, if_false, if_true,
            RoutineController.setCurrentStep, List.filterMap_append,
            toggleAllLoop_filterMap _ _ _ _ Signal.errorString (fun _ _ => rfl)]
          rfl
      · exact ⟨(List.append_nil _).symm, (add_zero _).symm, rfl⟩
    | pressure c x =>
      cases dummyRun <;> exact ⟨(List.append_nil _).symm, (add_zero _).symm, rfl⟩
    | wait t => cases dummyRun <;> exact ⟨(List.append_nil _).symm, (add_zero _).symm, rfl⟩
    | multiplexer ch =>
      cases dummyRun <;> exact ⟨(List.append_nil _).symm, (add_zero _).symm, rfl⟩
    | input ch =>
      cases dummyRun <;> exact ⟨(List.append_nil _).symm, (add_zero _).symm, rfl⟩

theorem calls_mRunStatus (calls : List Call) :
    ∀ s : RoutineController,
      (calls.foldl (fun s c => c.apply s) s).mRunStatus = s.mRunStatus := by
  induction calls with
  | nil => intro s; rfl
  | cons c cs ih =>
    intro s
    rw [List.foldl_cons, ih]
    cases c
    · simp only [Call.apply, RoutineController.stop, RoutineController.wake,
        RoutineController.resume]
      split_ifs <;> rfl
    · rfl
    · rfl
    · rfl

theorem call_mRunStatus (c : Call) (s : RoutineController) :
    (c.apply s).mRunStatus = s.mRunStatus :=
  calls_mRunStatus [c] s

theorem waitWhilePaused_some (calls : List Call) :
    ∀ s s2 : RoutineController, waitWhilePaused calls s = some s2 →
      s2.mRunStatus = s.mRunStatus ∧ s2.mPauseRequested = false := by
  induction calls with
  | nil =>
    intro s s2 hw
    rw [waitWhilePaused] at hw
    split_ifs at hw with hp
    obtain rfl := Option.some.inj hw
    exact ⟨rfl, by simpa using hp⟩
  | cons c cs ih =>
    intro s s2 hw
    rw [waitWhilePaused] at hw
    split_ifs at hw with hp
    · obtain ⟨h1, h2⟩ := ih _ _ hw
      exact ⟨by rw [h1, call_mRunStatus], h2⟩
    · obtain rfl := Option.some.inj hw
      exact ⟨rfl, by simpa using hp⟩

theorem statusWrites_append (a b : List Signal) :
    statusWrites (a ++ b) = statusWrites a ++ statusWrites b :=
  List.filterMap_append _ _ _

theorem processLine_status (h : Host) (dummyRun : Bool) (i : Nat) (raw : QString)
    (s : RoutineController) :
    statusWrites (processLine h dummyRun i raw s).signals = [] ∧
    (processLine h dummyRun i raw s).state.mRunStatus = s.mRunStatus := by
  rw [processLine_eq_perform]
  exact ⟨perform_statusWrites _ _ _ _ _ _, (perform_frame _ _ _ _ _ _).1⟩

theorem LoopExit.of_silent (start : RunStatus) (s : RoutineController) (front : List Signal)
    (returned : Bool) (hs : s.mRunStatus = start) (hfront : statusWrites front = []) :
    LoopExit start ⟨s, front, returned⟩ := by
  refine ⟨?_, ?_, fun hp => Or.inl ⟨?_, hfront⟩⟩
  · simp only [hfront, statusAfter, List.foldl_nil, hs]
  · intro prev
    simp only [hfront]
    exact List.Chain.nil
  · rw [← hs]; exact hp

theorem LoopExit.of_paused (start : RunStatus) (s : RoutineController) (front : List Signal)
    (returned : Bool) (hs : s.mRunStatus = RunStatus.Paused)
    (hfront : statusWrites front = [])
    (hstop : returned = true → s.mStopRequested = true) :
    LoopExit start ⟨s, front ++ [Signal.paused], returned⟩ := by
  have hw : statusWrites (front ++ [Signal.paused]) = [RunStatus.Paused] := by
    rw [statusWrites_append, hfront]; rfl
  refine ⟨?_, ?_, fun _ => Or.inr ⟨⟨front, rfl⟩, hstop⟩⟩
  · simp only [hw, statusAfter, List.foldl_cons, List.foldl_nil, hs]
  · intro prev
    simp only [hw]
    exact List.Chain.cons (fun e => by cases e) List.Chain.nil

theorem LoopExit.after_silent (start : RunStatus) (r : RunResult) (front : List Signal)
    (hfront : statusWrites front = []) (hr : LoopExit start r) :
    LoopExit start (r.after front) := by
  obtain ⟨h1, h2, h3⟩ := hr
  have hw : statusWrites (front ++ r.signals) = statusWrites r.signals := by
    rw [statusWrites_append, hfront, List.nil_append]
  refine ⟨?_, ?_, fun hp => ?_⟩
  · simp only [RunResult.after, hw]; exact h1
  · simp only [RunResult.after, hw]; exact h2
  · simp only [RunResult.after, hw] at hp ⊢
    rcases h3 hp with hl | ⟨⟨pre, hpre⟩, hstop⟩
    · exact Or.inl hl
    · exact Or.inr ⟨⟨front ++ pre, by rw [hpre, List.append_assoc]⟩, hstop⟩

theorem LoopExit.after_resume (start : RunStatus) (r : RunResult) (front : List Signal)
    (hfront : statusWrites front = []) (hr : LoopExit RunStatus.Running r) :
    LoopExit start (r.after (front ++ [Signal.paused, Signal.resumed])) := by
  obtain ⟨h1, h2, h3⟩ := hr
  have hw : statusWrites ((front ++ [Signal.paused, Signal.resumed]) ++ r.signals)
      = RunStatus.Paused :: RunStatus.Running :: statusWrites r.signals := by
    rw [statusWrites_append, statusWrites_append, hfront]; rfl
  refine ⟨?_, ?_, fun hp => ?_⟩
  · simp only [RunResult.after, hw, statusAfter, List.foldl_cons]
    exact h1
  · intro prev
    simp only [RunResult.after, hw]
    exact List.Chain.cons (fun e => by cases e) (List.Chain.cons (fun _ => rfl) (h2 _))
  · simp only [RunResult.after] at hp ⊢
    rcases h3 hp with ⟨hl, -⟩ | ⟨⟨pre, hpre⟩, hstop⟩
    · cases hl
    · exact Or.inr ⟨⟨(front ++ [Signal.paused, Signal.resumed]) ++ pre,
        by rw [hpre]; simp only [List.append_assoc]⟩, hstop⟩

theorem runLoop_exit (h : Host) (dummyRun : Bool) (sched : Schedule) (lines : List QString) :
    ∀ (i : Nat) (s : RoutineController),
      LoopExit s.mRunStatus (runLoop h dummyRun sched lines i s) := by
  induction lines with
  | nil => intro i s; exact LoopExit.of_silent _ s [] true rfl rfl
  | cons raw rest ih =>
    intro i s
    obtain ⟨hw, hst⟩ := processLine_status h dummyRun i raw s
    have hcalls := calls_mRunStatus (sched.beforeCheck i) (processLine h dummyRun i raw s).state
    rw [hst] at hcalls
    rw [runLoop]
    dsimp only
    by_cases hc : (processLine h dummyRun i raw s).continued = true
    · rw [if_pos hc]
      have hnext := ih (i + 1) (processLine h dummyRun i raw s).state
      rw [hst] at hnext
      exact LoopExit.after_silent _ _ _ hw hnext
    · rw [if_neg hc]
      by_cases hstop : (List.foldl (fun s c => c.apply s) (processLine h dummyRun i raw s).state
          (sched.beforeCheck i)).mStopRequested = true
      · rw [if_pos hstop]
        exact LoopExit.of_silent _ _ _ true hcalls hw
      · rw [if_neg hstop]
        by_cases hpause : (List.foldl (fun s c => c.apply s)
            (processLine h dummyRun i raw s).state (sched.beforeCheck i)).mPauseRequested = true
        · rw [if_pos hpause]
          cases hwait : waitWhilePaused (sched.whilePaused i)
              { List.foldl (fun s c => c.apply s) (processLine h dummyRun i raw s).state
                  (sched.beforeCheck i) with mRunStatus := RunStatus.Paused } with
          | none =>
            exact LoopExit.of_paused _ _ _ false rfl hw (fun e => by cases e)
          | some s2 =>
            obtain ⟨hs2, -⟩ := waitWhilePaused_some _ _ _ hwait
            dsimp only
            by_cases hstop2 : s2.mStopRequested = true
            · rw [if_pos hstop2]
              exact LoopExit.of_paused _ _ _ true hs2 hw (fun _ => hstop2)
            · rw [if_neg hstop2]
              exact LoopExit.after_resume _ _ _ hw
                (ih (i + 1) { s2 with mRunStatus := RunStatus.Running })
        · rw [if_neg hpause]
          have hnext := ih (i + 1) (List.foldl (fun s c => c.apply s)
            (processLine h dummyRun i raw s).state (sched.beforeCheck i))
          rw [hcalls] at hnext
          exact LoopExit.after_silent _ _ _ hw hnext

theorem run_live (h : Host) (sched : Schedule) (s : RoutineController) :
    RoutineController.run h false sched s
      = if (runLoop h false sched s.mLines 0 (liveStart s)).returned = true then
          ⟨{ (runLoop h false sched s.mLines 0 (liveStart s)).state with
              mRunStatus := RunStatus.Finished },
           [Signal.runStatusChanged RunStatus.Running]
             ++ (runLoop h false sched s.mLines 0 (liveStart s)).signals
             ++ (if (runLoop h false sched s.mLines 0 (liveStart s)).state.mValidSteps ≠ []
                 then [Signal.stepsListChanged] else [])
             ++ [Signal.runStatusChanged RunStatus.Finished, Signal.finished],
           true⟩
        else
          (runLoop h false sched s.mLines 0 (liveStart s)).after
            [Signal.runStatusChanged RunStatus.Running] := by
  unfold RoutineController.run
  simp only [Bool.false_eq_true, if_false, RunResult.after]
  rfl

theorem run_dry (h : Host) (sched : Schedule) (s : RoutineController) :
    RoutineController.run h true sched s
      = if (runLoop h true sched s.mLines 0 (dryStart s)).returned = true then
          ⟨{ (runLoop h true sched s.mLines 0 (dryStart s)).state with
              mNumberOfSteps :=
                (runLoop h true sched s.mLines 0 (dryStart s)).state.mValidSteps.length },
           (runLoop h true sched s.mLines 0 (dryStart s)).signals
             ++ (if (runLoop h true sched s.mLines 0 (dryStart s)).state.mValidSteps ≠ []
                 then [Signal.stepsListChanged] else []),
           true⟩
        else runLoop h true sched s.mLines 0 (dryStart s) := by
  unfold RoutineController.run
  simp only [if_true, RunResult.after, List.nil_append]
  rfl

theorem chain_append_finished (ws : List RunStatus) :
    ∀ prev, List.Chain RunningAfterPaused prev ws →
      List.Chain RunningAfterPaused prev (ws ++ [RunStatus.Finished]) := by
  induction ws with
  | nil =>
    intro prev _
    exact List.Chain.cons (fun e => by cases e) List.Chain.nil
  | cons w ws ih =>
    intro prev hc
    rw [List.cons_append]
    rw [List.chain_cons] at hc ⊢
    exact ⟨hc.1, ih w hc.2⟩

theorem statusAfter_append (start : RunStatus) (a b : List RunStatus) :
    statusAfter start (a ++ b) = statusAfter (statusAfter start a) b :=
  List.foldl_append _ _ _ _

theorem statusWrites_changed (steps : List QString) :
    statusWrites (if steps ≠ [] then [Signal.stepsListChanged] else []) = [] := by
  split_ifs <;> rfl

theorem runLoop_quiet_frame (h : Host) (dummyRun : Bool) (lines : List QString) :
    ∀ (i : Nat) (s : RoutineController),
      s.mPauseRequested = false → s.mStopRequested = false →
      (runLoop h dummyRun Schedule.quiet lines i s).returned = true ∧
      (runLoop h dummyRun Schedule.quiet lines i s).state.mRunStatus = s.mRunStatus ∧
      (runLoop h dummyRun Schedule.quiet lines i s).state.mPauseRequested = false ∧
      (runLoop h dummyRun Schedule.quiet lines i s).state.mStopRequested = false := by
  induction lines with
  | nil =>
    intro i s hp hs
    exact ⟨rfl, rfl, hp, hs⟩
  | cons raw rest ih =>
    intro i s hp hs
    have hf := perform_frame h dummyRun i (simplified (removeComment raw))
      (classify h (simplified (removeComment raw))) s
    rw [← processLine_eq_perform] at hf
    have hnext := ih (i + 1) (processLine h dummyRun i raw s).state (by rw [hf.2.1, hp])
      (by rw [hf.2.2.1, hs])
    rw [runLoop_quiet_cons h dummyRun raw rest i s hp hs]
    simp only [RunResult.after]
    exact ⟨hnext.1, by rw [hnext.2.1, hf.1], hnext.2.2.1, hnext.2.2.2⟩

theorem run_dry_status (h : Host) (sched : Schedule) (s : RoutineController) :
    statusWrites (RoutineController.run h true sched s).signals
        = statusWrites (runLoop h true sched s.mLines 0 (dryStart s)).signals ∧
    (RoutineController.run h true sched s).state.mRunStatus
        = (runLoop h true sched s.mLines 0 (dryStart s)).state.mRunStatus := by
  rw [run_dry]
  by_cases hret : (runLoop h true sched s.mLines 0 (dryStart s)).returned = true
  · rw [if_pos hret]
    simp only [statusWrites_append, statusWrites_changed, List.append_nil, and_self]
  · rw [if_neg hret]
    exact ⟨rfl, rfl⟩

theorem stepNumbers_append (a b : List Signal) :
    stepNumbers (a ++ b) = stepNumbers a ++ stepNumbers b :=
  List.filterMap_append _ _ _

theorem errorSignals_append (a b : List Signal) :
    errorSignals (a ++ b) = errorSignals a ++ errorSignals b :=
  List.filterMap_append _ _ _

theorem stepLines_cons (h : Host) (raw : QString) (rest : List QString) :
    stepLines h (raw :: rest)
      = (if (classify h (simplified (removeComment raw))).isStep
          then [simplified (removeComment raw)] else []) ++ stepLines h rest := by
  unfold stepLines
  rw [List.map_cons, List.filter_cons]
  split_ifs <;> rfl

theorem runLoop_quiet_errors (h : Host) (dummyRun : Bool) (lines : List QString) :
    ∀ (i : Nat) (s : RoutineController),
      s.mPauseRequested = false → s.mStopRequested = false →
      (runLoop h dummyRun Schedule.quiet lines i s).state.mErrors
        = s.mErrors ++ lineErrors h lines i ∧
      (runLoop h dummyRun Schedule.quiet lines i s).state.mErrorCount
        = s.mErrorCount + (lineErrors h lines i).length ∧
      errorSignals (runLoop h dummyRun Schedule.quiet lines i s).signals
        = lineErrors h lines i := by
  induction lines with
  | nil =>
    intro i s _ _
    simp [runLoop, lineErrors, errorSignals]
  | cons raw rest ih =>
    intro i s hp hs
    have hf := perform_frame h dummyRun i (simplified (removeComment raw))
      (classify h (simplified (removeComment raw))) s
    have he := perform_errors h dummyRun i (simplified (removeComment raw))
      (classify h (simplified (removeComment raw))) s
    rw [← processLine_eq_perform] at hf he
    obtain ⟨h1, h2, h3⟩ := ih (i + 1) (processLine h dummyRun i raw s).state
      (by rw [hf.2.1, hp]) (by rw [hf.2.2.1, hs])
    rw [runLoop_quiet_cons h dummyRun raw rest i s hp hs]
    simp only [RunResult.after, lineErrors, errorSignals_append]
    refine ⟨?_, ?_, ?_⟩
    · rw [h1, he.1, List.append_assoc]
    · rw [h2, he.2.1, List.length_append]
      push_cast
      ring
    · rw [h3, he.2.2]

theorem runLoop_dry_quiet_validSteps (h : Host) (lines : List QString) :
    ∀ (i : Nat) (s : RoutineController),
      s.mPauseRequested = false → s.mStopRequested = false →
      (runLoop h true Schedule.quiet lines i s).state.mValidSteps
        = s.mValidSteps ++ stepLines h lines := by
  induction lines with
  | nil =>
    intro i s _ _
    simp [runLoop, stepLines]
  | cons raw rest ih =>
    intro i s hp hs
    have hf := perform_frame h true i (simplified (removeComment raw))
      (classify h (simplified (removeComment raw))) s
    have hv := perform_dry_validSteps h i (simplified (removeComment raw))
      (classify h (simplified (removeComment raw))) s
    rw [← processLine_eq_perform] at hf hv
    rw [runLoop_quiet_cons h true raw rest i s hp hs]
    simp only [RunResult.after]
    rw [ih (i + 1) _ (by rw [hf.2.1, hp]) (by rw [hf.2.2.1, hs]), hv, stepLines_cons,
      List.append_assoc]

theorem runLoop_live_quiet_stepNumbers (h : Host) (lines : List QString) :
    ∀ (i : Nat) (s : RoutineController),
      s.mPauseRequested = false → s.mStopRequested = false →
      stepNumbers (runLoop h false Schedule.quiet lines i s).signals
        = (List.range (stepLines h lines).length).map (fun (j : Nat) => s.mCurrentStep + 1 + (j : Int)) ∧
      (runLoop h false Schedule.quiet lines i s).state.mCurrentStep
        = s.mCurrentStep + ((stepLines h lines).length : Int) := by
  induction lines with
  | nil =>
    intro i s _ _
    simp [runLoop, stepLines, stepNumbers]
  | cons raw rest ih =>
    intro i s hp hs
    have hf := perform_frame h false i (simplified (removeComment raw))
      (classify h (simplified (removeComment raw))) s
    have hn := perform_stepNumbers h false i (simplified (removeComment raw))
      (classify h (simplified (removeComment raw))) s
    rw [← processLine_eq_perform] at hf hn
    obtain ⟨h1, h2⟩ := ih (i + 1) (processLine h false i raw s).state
      (by rw [hf.2.1, hp]) (by rw [hf.2.2.1, hs])
    rw [runLoop_quiet_cons h false raw rest i s hp hs]
    simp only [RunResult.after, stepNumbers_append]
    rw [h1, h2, hn.1, hn.2, stepLines_cons]
    by_cases hstep : (classify h (simplified (removeComment raw))).isStep = true
    · simp only [hstep, and_self, if_true, List.singleton_append, List.length_cons,
        List.range_succ_eq_map, List.map_cons, List.map_map]
      refine ⟨?_, by push_cast; ring⟩
      simp only [Nat.cast_zero, add_zero, List.cons.injEq, true_and]
      apply List.map_congr_left
      intro j _
      simp only [Function.comp_apply, Nat.cast_succ]
      ring
    · simp only [hstep, Bool.false_eq_true, false_and, if_false, List.nil_append, add_zero,
        and_self]

theorem filterMap_changed {α : Type} (f : Signal → Option α) (steps : List QString)
    (hf : f Signal.stepsListChanged = none) :
    (if steps ≠ [] then [Signal.stepsListChanged] else []).filterMap f = [] := by
  split_ifs
  · simp [hf]
  · rfl

theorem run_live_quiet (h : Host) (s : RoutineController) (hp : s.mPauseRequested = false) :
    RoutineController.run h false Schedule.quiet s
      = ⟨{ (runLoop h false Schedule.quiet s.mLines 0 (liveStart s)).state with
            mRunStatus := RunStatus.Finished },
         [Signal.runStatusChanged RunStatus.Running]
           ++ (runLoop h false Schedule.quiet s.mLines 0 (liveStart s)).signals
           ++ (if (runLoop h false Schedule.quiet s.mLines 0 (liveStart s)).state.mValidSteps ≠ []
               then [Signal.stepsListChanged] else [])
           ++ [Signal.runStatusChanged RunStatus.Finished, Signal.finished],
         true⟩ := by
  rw [run_live, if_pos (runLoop_quiet_frame h false s.mLines 0 (liveStart s) hp rfl).1]

theorem classify_wait (h : Host) (line : QString) (rest : List QString)
    (htok : split ' ' line = "wait".toList :: rest) :
    classify h line = classifyWait h ("wait".toList :: rest) := by
  have hne := line_ne_nil_of_tokens line _ rest (by decide) htok
  have hv : ¬ ("wait".toList = "valve".toList) := by decide
  have hp : ¬ ("wait".toList = "pressure".toList) := by decide
  unfold classify
  simp only [if_neg hne, htok, List.getD_cons_zero, if_neg hv, if_neg hp, if_true]

theorem waitMultiplier_eq_specWaitFactor (u : QString) :
    waitMultiplier u = specWaitFactor (some u) := by
  unfold waitMultiplier specWaitFactor
  simp only [List.mem_cons, List.mem_singleton, List.not_mem_nil, or_false]
  by_cases h1 : u = "ms".toList ∨ u = "milliseconds".toList ∨ u = "millisecond".toList
      ∨ u = "msec".toList
  · have h1b : u = "ms".toList ∨ u = "millisecond".toList ∨ u = "milliseconds".toList
        ∨ u = "msec".toList := by tauto
    rw [if_pos h1, if_pos h1b]
  · have h1b : ¬ (u = "ms".toList ∨ u = "millisecond".toList ∨ u = "milliseconds".toList
        ∨ u = "msec".toList) := by tauto
    rw [if_neg h1, if_neg h1b]
    by_cases h2 : u = "minutes".toList ∨ u = "minute".toList ∨ u = "min".toList
        ∨ u = "mins".toList ∨ u = "min".toList
    · have h2b : u = "min".toList ∨ u = "mins".toList ∨ u = "minute".toList
          ∨ u = "minutes".toList := by tauto
      rw [if_pos h2, if_pos h2b]
    · have h2b : ¬ (u = "min".toList ∨ u = "mins".toList ∨ u = "minute".toList
          ∨ u = "minutes".toList) := by tauto
      rw [if_neg h2, if_neg h2b]
      by_cases h3 : u = "hours".toList ∨ u = "hour".toList ∨ u = "hrs".toList
          ∨ u = "hr".toList ∨ u = "h".toList
      · have h3b : u = "h".toList ∨ u = "hr".toList ∨ u = "hrs".toList ∨ u = "hour".toList
            ∨ u = "hours".toList := by tauto
        rw [if_pos h3, if_pos h3b]
      · have h3b : ¬ (u = "h".toList ∨ u = "hr".toList ∨ u = "hrs".toList ∨ u = "hour".toList
            ∨ u = "hours".toList) := by tauto
        rw [if_neg h3, if_neg h3b]

theorem Double.mul_one_of_isValue (x : Double) (hx : x.IsValue) : x * 1 = x := by
  rw [Double.one_eq]
  cases x with
  | finite v =>
    show Double.mul (Double.finite v) (Double.finite 1) = Double.finite v
    rw [Double.mul, mul_one]
    exact hx
  | infinite a =>
    show Double.mul (Double.infinite a) (Double.finite 1) = Double.infinite a
    rw [Double.mul, if_neg (by norm_num)]
    cases a <;> simp
  | nan => rfl

theorem classifyWait_of_spec (h : Host) (rest : List QString)
    (hvalue : ∀ text x, h.toDouble text = some x → x.IsValue) :
    (∀ t, specWaitSeconds h rest = some t →
      classifyWait h ("wait".toList :: rest) = LineAction.step (Step.wait t)) ∧
    (specWaitSeconds h rest = none →
      ∃ text, classifyWait h ("wait".toList :: rest) = LineAction.reject text) := by
  unfold classifyWait
  match rest with
  | [] =>
    have hl : ("wait".toList :: ([] : List QString)).length ≠ 2
        ∧ ("wait".toList :: ([] : List QString)).length ≠ 3 := by simp
    refine ⟨fun t ht => ?_, fun _ => ⟨_, if_pos hl⟩⟩
    simp [specWaitSeconds] at ht
  | [a] =>
    have hl : ¬ (["wait".toList, a].length ≠ 2 ∧ ["wait".toList, a].length ≠ 3) := by simp
    have h3 : ¬ (["wait".toList, a].length = 3) := by simp
    rw [if_neg hl]
    simp only [List.getD_cons_succ, List.getD_cons_zero, specWaitSeconds, specWaitFactor]
    cases hd : h.toDouble a with
    | none => exact ⟨fun t ht => by simp at ht, fun _ => ⟨_, rfl⟩⟩
    | some x =>
      refine ⟨fun t ht => ?_, fun hn => by simp at hn⟩
      simp only [Option.map_some', Option.some.injEq] at ht
      rw [Double.mul_one_of_isValue x (hvalue a x hd)] at ht
      subst ht
      simp only [if_neg h3]
  | [a, u] =>
    have hl : ¬ (["wait".toList, a, u].length ≠ 2 ∧ ["wait".toList, a, u].length ≠ 3) := by
      simp
    have h3 : ["wait".toList, a, u].length = 3 := by simp
    rw [if_neg hl]
    simp only [List.getD_cons_succ, List.getD_cons_zero, specWaitSeconds]
    cases h.toDouble a with
    | none => exact ⟨fun t ht => by simp at ht, fun _ => ⟨_, rfl⟩⟩
    | some x =>
      refine ⟨fun t ht => ?_, fun hn => by simp at hn⟩
      simp only [Option.map_some', Option.some.injEq] at ht
      subst ht
      simp only [if_pos h3, waitMultiplier_eq_specWaitFactor]
  | a :: u :: w :: more =>
    have hl : ("wait".toList :: a :: u :: w :: more).length ≠ 2
        ∧ ("wait".toList :: a :: u :: w :: more).length ≠ 3 := by
      simp only [List.length_cons]; omega
    refine ⟨fun t ht => ?_, fun _ => ⟨_, if_pos hl⟩⟩
    simp [specWaitSeconds] at ht

theorem classifyValve_waitTime (h : Host) (list : List QString) :
    (classifyValve h list).waitTime = none := by
  unfold classifyValve
  by_cases hl : list.length ≠ 3
  · rw [if_pos hl]; rfl
  · rw [if_neg hl]
    by_cases ha : list.getD 1 [] = "all".toList
    · rw [if_pos ha]
      split_ifs <;> rfl
    · rw [if_neg ha]
      cases h.toUInt (list.getD 1 []) with
      | none => rfl
      | some v =>
        dsimp only
        split_ifs <;> rfl

theorem classifyPressure_waitTime (h : Host) (list : List QString) :
    (classifyPressure h list).waitTime = none := by
  unfold classifyPressure
  by_cases hl : list.length ≠ 3
  · rw [if_pos hl]; rfl
  · rw [if_neg hl]
    cases h.toUInt (list.getD 1 []) with
    | none => rfl
    | some c =>
      dsimp only
      by_cases hc : c < 1 ∨ c > h.nPressureControllers
      · rw [if_pos hc]; rfl
      · rw [if_neg hc]
        cases h.toDouble (list.getD 2 []) with
        | none => rfl
        | some x =>
          dsimp only
          split_ifs <;> rfl

theorem classify_waitTime (h : Host) (raw : QString)
    (hvalue : ∀ text x, h.toDouble text = some x → x.IsValue) :
    (classify h (simplified (removeComment raw))).waitTime = specLineWait h raw := by
  unfold specLineWait
  generalize simplified (removeComment raw) = line
  obtain ⟨first, rest, htok⟩ := split_eq_cons ' ' line
  rw [htok]
  dsimp only
  by_cases hw : first = "wait".toList
  · subst hw
    rw [if_pos rfl, classify_wait h line rest htok]
    cases hs : specWaitSeconds h rest with
    | none =>
      obtain ⟨text, e⟩ := (classifyWait_of_spec h rest hvalue).2 hs
      rw [e]; rfl
    | some t =>
      rw [(classifyWait_of_spec h rest hvalue).1 t hs]; rfl
  · rw [if_neg hw]
    unfold classify
    by_cases h0 : line = []
    · rw [if_pos h0]; rfl
    · rw [if_neg h0]
      simp only [htok, List.getD_cons_zero, if_neg hw]
      split_ifs
      · exact classifyValve_waitTime h _
      · exact classifyPressure_waitTime h _
      all_goals rfl

theorem perform_dry_totalWaitTime (h : Host) (i : Nat) (line : QString) (a : LineAction)
    (s : RoutineController) :
    (perform h true i line a s).state.mTotalWaitTime
      = (a.waitTime.toList).foldl (fun total time => total + time) s.mTotalWaitTime := by
  cases a with
  | blank => rfl
  | reject text => rfl
  | unknown => rfl
  | step st => cases st <;> rfl

theorem runLoop_dry_quiet_totalWaitTime (h : Host) (lines : List QString)
    (hvalue : ∀ text x, h.toDouble text = some x → x.IsValue) :
    ∀ (i : Nat) (s : RoutineController),
      s.mPauseRequested = false → s.mStopRequested = false →
      (runLoop h true Schedule.quiet lines i s).state.mTotalWaitTime
        = (specWaitTimes h lines).foldl (fun total time => total + time) s.mTotalWaitTime := by
  induction lines with
  | nil => intro i s _ _; rfl
  | cons raw rest ih =>
    intro i s hp hs
    have hf := perform_frame h true i (simplified (removeComment raw))
      (classify h (simplified (removeComment raw))) s
    have hw := perform_dry_totalWaitTime h i (simplified (removeComment raw))
      (classify h (simplified (removeComment raw))) s
    rw [← processLine_eq_perform] at hf hw
    rw [runLoop_quiet_cons h true raw rest i s hp hs]
    simp only [RunResult.after]
    rw [ih (i + 1) _ (by rw [hf.2.1, hp]) (by rw [hf.2.2.1, hs]), hw,
      classify_waitTime h raw hvalue]
    unfold specWaitTimes
    rw [List.filterMap_cons]
    cases specLineWait h raw <;> rfl

theorem sampleToDouble_isValue (text : QString) (x : Double)
    (hx : sampleToDouble text = some x) : x.IsValue := by
  unfold sampleToDouble at hx
  split_ifs at hx
  · cases hx; trivial
  · cases hx; trivial
  · split at hx
    · split_ifs at hx
      cases hd : decimalValue _ 0 with
      | none => rw [hd] at hx; cases hx
      | some v =>
        rw [hd] at hx
        cases hx
        exact Double.ofRat_isValue _
    · split_ifs at hx
      split at hx
      · cases hx
        exact Double.ofRat_isValue _
      · cases hx
    · cases hx

theorem perform_checked_continued (h : Host) (dummyRun : Bool) (i : Nat) (line : QString)
    (a : LineAction) (s : RoutineController)
    (ha : a.isStep = true ∨ a = LineAction.unknown) :
    (perform h dummyRun i line a s).continued = false := by
  rcases ha with ha | rfl
  · cases a with
    | blank => cases ha
    | reject text => cases ha
    | unknown => cases ha
    | step st => cases st <;> cases dummyRun <;> rfl
  · rfl

theorem RunResult.after_after (r : RunResult) (a b : List Signal) :
    (r.after b).after a = r.after (a ++ b) := by
  simp only [RunResult.after, List.append_assoc]

theorem runLoop_cons_of_no_calls (h : Host) (dummyRun : Bool) (sched : Schedule)
    (raw : QString) (rest : List QString) (i : Nat) (s : RoutineController)
    (hcalls : sched.beforeCheck i = [])
    (hp : s.mPauseRequested = false) (hs : s.mStopRequested = false) :
    runLoop h dummyRun sched (raw :: rest) i s
      = (runLoop h dummyRun sched rest (i + 1)
          (processLine h dummyRun i raw s).state).after (processLine h dummyRun i raw s).signals := by
  have hf := perform_frame h dummyRun i (simplified (removeComment raw))
    (classify h (simplified (removeComment raw))) s
  rw [← processLine_eq_perform] at hf
  have hp2 : (processLine h dummyRun i raw s).state.mPauseRequested = false := by
    rw [hf.2.1, hp]
  have hs2 : (processLine h dummyRun i raw s).state.mStopRequested = false := by
    rw [hf.2.2.1, hs]
  rw [runLoop]
  by_cases hc : (processLine h dummyRun i raw s).continued = true
  · simp only [if_pos hc]
  · simp only [if_neg hc, hcalls, List.foldl_nil, hs2, hp2, Bool.false_eq_true, if_false]

theorem runLoop_append_of_no_calls (h : Host) (dummyRun : Bool) (sched : Schedule)
    (tail : List QString) (pre : List QString) :
    ∀ (i : Nat) (s : RoutineController),
      s.mPauseRequested = false → s.mStopRequested = false →
      (∀ j, i ≤ j → j < i + pre.length → sched.beforeCheck j = []) →
      runLoop h dummyRun sched (pre ++ tail) i s
        = (runLoop h dummyRun sched tail (i + pre.length)
            (runLoop h dummyRun Schedule.quiet pre i s).state).after
            (runLoop h dummyRun Schedule.quiet pre i s).signals := by
  induction pre with
  | nil =>
    intro i s _ _ _
    simp [runLoop, RunResult.after]
  | cons raw rest ih =>
    intro i s hp hs hcalls
    have hf := perform_frame h dummyRun i (simplified (removeComment raw))
      (classify h (simplified (removeComment raw))) s
    rw [← processLine_eq_perform] at hf
    rw [List.cons_append,
      runLoop_cons_of_no_calls h dummyRun sched raw (rest ++ tail) i s
        (hcalls i le_rfl (by rw [List.length_cons]; omega)) hp hs,
      runLoop_quiet_cons h dummyRun raw rest i s hp hs,
      ih (i + 1) _ (by rw [hf.2.1, hp]) (by rw [hf.2.2.1, hs])
        (fun j h1 h2 => hcalls j (by omega) (by rw [List.length_cons]; omega)),
      RunResult.after_after]
    simp only [RunResult.after, List.length_cons, List.append_assoc]
    rw [show i + 1 + rest.length = i + (rest.length + 1) by omega]

theorem waitWhilePaused_stop (waits later : List Call)
    (hwaits : ∀ c ∈ waits, c = Call.wake ∨ c = Call.pause) :
    ∀ s : RoutineController, s.mPauseRequested = true → s.mRunStatus = RunStatus.Paused →
      waitWhilePaused (waits ++ Call.stop :: later) s
        = some { s with mStopRequested := true, mPauseRequested := false } := by
  induction waits with
  | nil =>
    intro s hp hst
    have hdone : waitWhilePaused later
        (Call.stop.apply s) = some (Call.stop.apply s) := by
      have hnp : (Call.stop.apply s).mPauseRequested = false := by
        simp [Call.apply, RoutineController.stop, RoutineController.wake,
          RoutineController.resume, hst]
      cases later with
      | nil => rw [waitWhilePaused, hnp]; rfl
      | cons c cs => rw [waitWhilePaused, hnp]; rfl
    rw [List.nil_append, waitWhilePaused, if_pos hp, hdone]
    simp [Call.apply, RoutineController.stop, RoutineController.wake,
      RoutineController.resume, hst]
  | cons c cs ih =>
    intro s hp hst
    have hsame : c.apply s = s := by
      rcases hwaits c (List.mem_cons_self _ _) with rfl | rfl
      · rfl
      · obtain ⟨a1, a2, a3, a4, a5, a6, a7, a8, a9, a10, a11, a12⟩ := s
        simp only at hp
        subst hp
        rfl
    rw [List.cons_append, waitWhilePaused, if_pos hp, hsame]
    exact ih (fun d hd => hwaits d (List.mem_cons_of_mem _ hd)) s hp hst

theorem runLoop_quiet_statusWrites (h : Host) (dummyRun : Bool) (lines : List QString) :
    ∀ (i : Nat) (s : RoutineController),
      s.mPauseRequested = false → s.mStopRequested = false →
      statusWrites (runLoop h dummyRun Schedule.quiet lines i s).signals = [] := by
  induction lines with
  | nil => intro i s _ _; rfl
  | cons raw rest ih =>
    intro i s hp hs
    have hf := perform_frame h dummyRun i (simplified (removeComment raw))
      (classify h (simplified (removeComment raw))) s
    rw [← processLine_eq_perform] at hf
    rw [runLoop_quiet_cons h dummyRun raw rest i s hp hs]
    simp only [RunResult.after, statusWrites_append, (processLine_status h dummyRun i raw s).1,
      List.nil_append]
    exact ih (i + 1) _ (by rw [hf.2.1, hp]) (by rw [hf.2.2.1, hs])

theorem runLoop_pause_then_stop (h : Host) (dummyRun : Bool) (sched : Schedule)
    (raw : QString) (rest : List QString) (i : Nat) (s : RoutineController)
    (waits later : List Call)
    (hstep : (classify h (simplified (removeComment raw))).isStep = true
      ∨ classify h (simplified (removeComment raw)) = LineAction.unknown)
    (hs : s.mStopRequested = false)
    (hpause : sched.beforeCheck i = [Call.pause])
    (hstop : sched.whilePaused i = waits ++ Call.stop :: later)
    (hwaits : ∀ c ∈ waits, c = Call.wake ∨ c = Call.pause) :
    runLoop h dummyRun sched (raw :: rest) i s
      = ⟨{ (processLine h dummyRun i raw s).state with
            mPauseRequested := false, mStopRequested := true, mRunStatus := RunStatus.Paused },
         (processLine h dummyRun i raw s).signals ++ [Signal.paused], true⟩ := by
  have hf := perform_frame h dummyRun i (simplified (removeComment raw))
    (classify h (simplified (removeComment raw))) s
  have hc := perform_checked_continued h dummyRun i (simplified (removeComment raw))
    (classify h (simplified (removeComment raw))) s hstep
  rw [← processLine_eq_perform] at hf hc
  have hs2 : (processLine h dummyRun i raw s).state.mStopRequested = false := by
    rw [hf.2.2.1, hs]
  rw [runLoop]
  simp only [hc, Bool.false_eq_true, if_false, hpause, List.foldl_cons, List.foldl_nil,
    Call.apply, RoutineController.pause, RoutineController.wake, hs2, if_true, hstop]
  rw [waitWhilePaused_stop waits later hwaits _ rfl rfl]
  simp only [if_true]

/-! ## Claims -/

/-- C1: from an idle decoder (not recording, not escaped, empty accumulator), one
call of `decodeBuffer` on a buffer made of junk without `START_BYTE` followed by
the frame of a message whose first byte is a known command tag returns exactly
that message, whatever its other bytes are. The stop and escape markers are
assumed to be different bytes. -/
theorem decodeBuffer_frameMessage_roundtrip (k : Constants) (s : Communicator)
    (j : List Byte) (t : Byte) (m : List Byte)
    (hse : k.STOP_BYTE ≠ k.ESCAPE_BYTE)
    (hrec : s.mDecoderRecording = false) (hesc : s.mDecoderEscaped = false)
    (hacc : s.mDecodedBuffer = [])
    (hj : k.START_BYTE ∉ j) (ht : t < k.NUM_COMMANDS)
    (hbuf : s.mBuffer = j ++ frameMessage k (t :: m)) :
    (decodeBuffer k s).1 = t :: m := by
  have h := decodeBuffer_frame k s j (t :: m) [] hse hrec hesc hacc hj ⟨t, m, rfl, ht⟩
    (by rw [hbuf, List.append_nil])
  rw [h]

theorem decodeBuffer_frameMessage_roundtrip_witness :
    (decodeBuffer sampleConstants
      { idle with mBuffer := [7, 250, 251] ++ frameMessage sampleConstants [0, 250, 251, 249, 9] }).1
      = [0, 250, 251, 249, 9] :=
  decodeBuffer_frameMessage_roundtrip sampleConstants _ [7, 250, 251] 0 [250, 251, 249, 9]
    (by decide) rfl rfl rfl (by decide) (by decide) rfl

/-- C2: `frameMessage` yields `START_BYTE`, then the bytes of the message in
order with one `ESCAPE_BYTE` inserted right before each byte equal to
`STOP_BYTE` or `ESCAPE_BYTE` and before no other byte, then `STOP_BYTE`; its
length is the length of the message plus 2 plus the number of such bytes. -/
theorem frameMessage_layout (k : Constants) (message : List Byte) :
    frameMessage k message = frameSpec k message ∧
    (frameMessage k message).length
      = message.length + 2
        + message.countP (fun c => c = k.STOP_BYTE ∨ c = k.ESCAPE_BYTE) := by
  refine ⟨frameMessage_eq_frameSpec k message, ?_⟩
  rw [frameMessage_eq_frameSpec, frameSpec]
  simp only [List.length_cons, List.length_append, length_escapeBytes, List.length_nil]
  omega

/-- C3, the claim as stated fails: when the caller drains until a call returns no
message, the bytes `START_BYTE, 200, START_BYTE, 0, STOP_BYTE` yield the message
`[0]` when cut after the second byte and no message when fed as one chunk,
because the call that meets the unknown tag 200 stops and returns the empty
array with the complete frame still pending. -/
theorem chunk_invariance_fails_when_draining_until_no_message :
    (feedUntilNoMessage sampleConstants idle [[249, 200], [249, 0, 250]]).1 = [[0]] ∧
    (feedUntilNoMessage sampleConstants idle [[249, 200] ++ [249, 0, 250]]).1 = [] ∧
    (feedUntilNoMessage sampleConstants idle [[249, 200], [249, 0, 250]]).1
      ≠ (feedUntilNoMessage sampleConstants idle [[249, 200] ++ [249, 0, 250]]).1 := by
  decide

/-- C3, amended: for every byte sequence and every way of cutting it into
consecutive chunks, feeding the chunks one at a time to an idle decoder (append
the chunk to the pending buffer, then call `decodeBuffer` repeatedly as long as
there is data left in the pending buffer) produces the same sequence of
non-empty returned messages, and leaves the same object, as feeding the whole
sequence as a single chunk; both leave the pending buffer empty. This holds
for every assignment of the protocol constants. -/
theorem feedWhileData_chunk_invariance (k : Constants) (chunks : List (List Byte)) :
    feedWhileData k idle chunks = feedWhileData k idle [chunks.flatten] ∧
    (feedWhileData k idle chunks).2.mBuffer = [] := by
  have h1 := feedWhileData_eq_scan k chunks idle rfl
  have h2 := feedWhileData_eq_scan k [chunks.flatten] idle rfl
  rw [h1, h2]
  exact ⟨by simp, scan_mBuffer_nil k _ _⟩

/-- C4: with the pending buffer holding the frames of messages `m1 .. mn`, each
starting with a known command tag, and an idle decoder, the first `i` calls of
`decodeBuffer` return `m1 .. mi` in order, one message a call, for every
`i ≤ n`, and leave the frames of the later messages in the buffer (behind the
`STOP_BYTE` of frame `i`, which the call does not remove); call `n + 1`
returns the empty array. The three markers are assumed to be such that
`STOP_BYTE` differs from `START_BYTE` and from `ESCAPE_BYTE`. -/
theorem decodeCalls_frameAll (k : Constants) (s : Communicator) (ms : List (List Byte))
    (hss : k.START_BYTE ≠ k.STOP_BYTE) (hse : k.STOP_BYTE ≠ k.ESCAPE_BYTE)
    (hrec : s.mDecoderRecording = false) (hesc : s.mDecoderEscaped = false)
    (hacc : s.mDecodedBuffer = [])
    (hms : ∀ m ∈ ms, startsWithCommand k m = true)
    (hbuf : s.mBuffer = frameAll k ms) :
    (∀ i, i ≤ ms.length →
      (decodeCalls k i s).1 = ms.take i ∧
      (decodeCalls k i s).2.mBuffer
        = (if i = 0 then [] else [k.STOP_BYTE]) ++ frameAll k (ms.drop i)) ∧
    (decodeCalls k (ms.length + 1) s).1 = ms ++ [[]] := by
  have hms : ∀ m ∈ ms, ∃ t m2, m = t :: m2 ∧ t < k.NUM_COMMANDS :=
    fun m hm => (startsWithCommand_iff k m).mp (hms m hm)
  constructor
  · intro i hi
    have h := decodeCalls_frames k hss hse i ms s [] hrec hesc hacc (by simp) hms
      (by simpa using hbuf) hi
    exact ⟨h.1, h.2.1⟩
  · exact decodeCalls_frames_then_empty k hss hse ms s [] hrec hesc hacc (by simp) hms
      (by simpa using hbuf)

theorem decodeCalls_frameAll_witness :
    (∀ i, i ≤ 2 →
      (decodeCalls sampleConstants i
        { idle with mBuffer := frameAll sampleConstants [[0, 1, 250], [4, 249]] }).1
        = [[0, 1, 250], [4, 249]].take i ∧
      (decodeCalls sampleConstants i
        { idle with mBuffer := frameAll sampleConstants [[0, 1, 250], [4, 249]] }).2.mBuffer
        = (if i = 0 then [] else [sampleConstants.STOP_BYTE])
          ++ frameAll sampleConstants ([[0, 1, 250], [4, 249]].drop i)) ∧
    (decodeCalls sampleConstants 3
      { idle with mBuffer := frameAll sampleConstants [[0, 1, 250], [4, 249]] }).1
      = [[0, 1, 250], [4, 249]] ++ [[]] :=
  decodeCalls_frameAll sampleConstants
    { idle with mBuffer := frameAll sampleConstants [[0, 1, 250], [4, 249]] }
    [[0, 1, 250], [4, 249]] (by decide) (by decide) rfl rfl rfl (by decide) rfl

/-- C5, the claim as stated fails: with an unknown tag 200 after `START_BYTE`,
followed by the frame of the message `[0]`, the single call of `decodeBuffer`
returns the empty array and not the message. -/
theorem decodeBuffer_unknown_tag_single_call_fails :
    sampleConstants.NUM_COMMANDS ≤ (200 : Byte) ∧
    (200 : Byte) ≠ sampleConstants.ESCAPE_BYTE ∧ (200 : Byte) ≠ sampleConstants.STOP_BYTE ∧
    startsWithCommand sampleConstants [0] = true ∧
    (decodeBuffer sampleConstants
      { idle with
        mBuffer := [sampleConstants.START_BYTE, 200] ++ frameMessage sampleConstants [0] }).1
      = [] ∧
    (decodeBuffer sampleConstants
      { idle with
        mBuffer := [sampleConstants.START_BYTE, 200] ++ frameMessage sampleConstants [0] }).1
      ≠ [0] := by
  decide

/-- C5, amended: for a byte `b` that is no known command tag and none of the
three markers, and a message `m` starting with a known command tag, the call of
`decodeBuffer` from an idle decoder on `[START_BYTE, b] ++ frameMessage m`
abandons the corrupt frame and stops there: it returns the empty array, leaves
the decoder idle and keeps `b` and the frame of `m` in the pending buffer. The
next call skips `b` and returns `m`. -/
theorem decodeBuffer_unknown_tag_recovery (k : Constants) (s : Communicator) (b : Byte)
    (m : List Byte)
    (hse : k.STOP_BYTE ≠ k.ESCAPE_BYTE)
    (hrec : s.mDecoderRecording = false) (hesc : s.mDecoderEscaped = false)
    (hacc : s.mDecodedBuffer = [])
    (hb : k.NUM_COMMANDS ≤ b) (hbe : b ≠ k.ESCAPE_BYTE) (hbs : b ≠ k.STOP_BYTE)
    (hbst : b ≠ k.START_BYTE)
    (hm : startsWithCommand k m = true)
    (hbuf : s.mBuffer = [k.START_BYTE, b] ++ frameMessage k m) :
    decodeBuffer k s
      = ([], { s with mBuffer := b :: frameMessage k m, mLastByteWasStart := false }) ∧
    (decodeBuffer k (decodeBuffer k s).2).1 = m := by
  have h1 := decodeBuffer_invalid_tag k s b (frameMessage k m) hrec hesc hb hbe hbs
    (by simpa using hbuf)
  refine ⟨h1, ?_⟩
  rw [h1]
  have hj : k.START_BYTE ∉ [b] := by
    simpa using fun e : k.START_BYTE = b => hbst e.symm
  have h2 := decodeBuffer_frame k
    { s with mBuffer := b :: frameMessage k m, mLastByteWasStart := false } [b] m [] hse
    hrec hesc hacc hj ((startsWithCommand_iff k m).mp hm) (by simp)
  rw [h2]

theorem decodeBuffer_unknown_tag_recovery_witness :
    decodeBuffer sampleConstants
        { idle with
          mBuffer := [sampleConstants.START_BYTE, 200] ++ frameMessage sampleConstants [1, 1, 250] }
      = ([], { idle with mBuffer := 200 :: frameMessage sampleConstants [1, 1, 250] }) ∧
    (decodeBuffer sampleConstants
      (decodeBuffer sampleConstants
        { idle with
          mBuffer := [sampleConstants.START_BYTE, 200]
            ++ frameMessage sampleConstants [1, 1, 250] }).2).1
      = [1, 1, 250] :=
  decodeBuffer_unknown_tag_recovery sampleConstants
    { idle with
      mBuffer := [sampleConstants.START_BYTE, 200] ++ frameMessage sampleConstants [1, 1, 250] }
    200 [1, 1, 250] (by decide) rfl rfl rfl (by decide) (by decide) (by decide) (by decide)
    (by decide) rfl

/-- C6, the claim as stated fails: the partial frame `START_BYTE, 0, 5` followed
by the frame of `[1, 7]` yields the single message `[0, 5, START_BYTE, 1, 7]`,
not `[1, 7]`, with either way of draining. -/
theorem partial_frame_not_discarded :
    startsWithCommand sampleConstants [0, 5] = true ∧
    sampleConstants.STOP_BYTE ∉ [(0 : Byte), 5] ∧ sampleConstants.ESCAPE_BYTE ∉ [(0 : Byte), 5] ∧
    sampleConstants.START_BYTE ∉ [(0 : Byte), 5] ∧
    (feedUntilNoMessage sampleConstants idle
      [sampleConstants.START_BYTE :: [0, 5] ++ frameMessage sampleConstants [1, 7]]).1
      = [[0, 5, 249, 1, 7]] ∧
    (feedWhileData sampleConstants idle
      [sampleConstants.START_BYTE :: [0, 5] ++ frameMessage sampleConstants [1, 7]]).1
      = [[0, 5, 249, 1, 7]] ∧
    [[(0 : Byte), 5, 249, 1, 7]] ≠ [[1, 7]] := by
  decide

/-- C6, amended: a partial frame `START_BYTE ++ p`, where `p` starts with a known
command tag and contains no `STOP_BYTE`, `ESCAPE_BYTE` or `START_BYTE`,
followed by a complete frame `frameMessage m`, is not discarded. The decoder,
idle at the start, takes the `START_BYTE` of the second frame as data: the
first call of `decodeBuffer` returns `p ++ [START_BYTE] ++ m`, and that is the
only completed message, whether the caller drains until a call returns no
message or until the pending buffer is empty. The three markers are assumed to
be pairwise different. -/
theorem partial_frame_merged_with_next (k : Constants) (p m : List Byte)
    (hss : k.START_BYTE ≠ k.STOP_BYTE) (hsta : k.START_BYTE ≠ k.ESCAPE_BYTE)
    (hse : k.STOP_BYTE ≠ k.ESCAPE_BYTE)
    (hp : startsWithCommand k p = true)
    (hs : k.STOP_BYTE ∉ p) (he : k.ESCAPE_BYTE ∉ p) (_hst : k.START_BYTE ∉ p) :
    (decodeBuffer k { idle with mBuffer := k.START_BYTE :: p ++ frameMessage k m }).1
      = p ++ k.START_BYTE :: m ∧
    (feedUntilNoMessage k idle [k.START_BYTE :: p ++ frameMessage k m]).1
      = [p ++ k.START_BYTE :: m] ∧
    (feedWhileData k idle [k.START_BYTE :: p ++ frameMessage k m]).1
      = [p ++ k.START_BYTE :: m] := by
  have hmerge := partial_frame_merges k p m hss hsta hs he
  have hcmd := (startsWithCommand_iff k _).mp
    (startsWithCommand_append k p (k.START_BYTE :: m) hp)
  have hne : p ++ k.START_BYTE :: m ≠ [] := by simp
  have h1 := decodeBuffer_frame k
    { idle with mBuffer := k.START_BYTE :: p ++ frameMessage k m } [] (p ++ k.START_BYTE :: m)
    [] hse rfl rfl rfl (by simp) hcmd (by simp [hmerge])
  have hjunk : k.START_BYTE ∉ [k.STOP_BYTE] := by simpa using hss
  have h2 := decodeBuffer_junk k
    { idle with mBuffer := [k.STOP_BYTE], mLastByteWasStart := false } rfl hjunk
  refine ⟨by rw [h1], ?_, ?_⟩
  · simp only [feedUntilNoMessage, idle, List.nil_append] at h1 h2 ⊢
    rw [drainUntilNoMessage]
    simp only [h1, hne, if_false]
    obtain ⟨n, hn⟩ : ∃ n, 2 * (k.START_BYTE :: p ++ frameMessage k m).length + 1 = n + 1 :=
      ⟨_, rfl⟩
    rw [hn, drainUntilNoMessage]
    simp [h2]
  · simp only [feedWhileData, idle, List.nil_append] at h1 h2 ⊢
    rw [drainWhileData]
    simp only [h1, hne, if_false]
    obtain ⟨n, hn⟩ : ∃ n, 2 * (k.START_BYTE :: p ++ frameMessage k m).length = n + 1 :=
      ⟨2 * (p ++ frameMessage k m).length + 1, by simp; omega⟩
    rw [hn, drainWhileData]
    simp [h2, drainWhileData_of_empty]

theorem partial_frame_merged_with_next_witness :
    (decodeBuffer sampleConstants
      { idle with mBuffer := sampleConstants.START_BYTE :: [0, 5]
          ++ frameMessage sampleConstants [1, 7] }).1
      = [0, 5] ++ sampleConstants.START_BYTE :: [1, 7] ∧
    (feedUntilNoMessage sampleConstants idle
      [sampleConstants.START_BYTE :: [0, 5] ++ frameMessage sampleConstants [1, 7]]).1
      = [[0, 5] ++ sampleConstants.START_BYTE :: [1, 7]] ∧
    (feedWhileData sampleConstants idle
      [sampleConstants.START_BYTE :: [0, 5] ++ frameMessage sampleConstants [1, 7]]).1
      = [[0, 5] ++ sampleConstants.START_BYTE :: [1, 7]] :=
  partial_frame_merged_with_next sampleConstants [0, 5] [1, 7] (by decide) (by decide)
    (by decide) (by decide) (by decide) (by decide) (by decide)

/-- C7: for a known command tag `c` and one or more parameters, each at most 255
bytes long, `parseDecodedBuffer` applied to `c`, followed for each parameter by
its length byte and its bytes, takes the path that calls `handleCommand` once,
with command `c` and the parameters in their order; its effects are those of
that call. -/
theorem parseDecodedBuffer_inverts_layout (k : Constants) (c : Byte) (p : List Byte)
    (ps : List (List Byte))
    (hc : c < k.NUM_COMMANDS) (hlen : ∀ q ∈ p :: ps, q.length ≤ 255) :
    parseDecodedBufferTrace k (c :: encodeParameters (p :: ps))
      = ParseTrace.handleCommand c (p :: ps) ∧
    parseDecodedBuffer k (c :: encodeParameters (p :: ps)) = handleCommand k c (p :: ps) := by
  have hloop := parseLoop_encodeParameters (p :: ps) (c :: encodeParameters (p :: ps)) [c] []
    (c :: encodeParameters (p :: ps)).length hlen rfl
    (by
      have := length_le_length_encodeParameters (p :: ps)
      simp only [List.length_cons] at this ⊢
      omega)
  have hsize : ¬ (c :: encodeParameters (p :: ps)).length < 2 := by
    simp [encodeParameters]
  have htrace : parseDecodedBufferTrace k (c :: encodeParameters (p :: ps))
      = ParseTrace.handleCommand c (p :: ps) := by
    unfold parseDecodedBufferTrace
    simp only [hsize, if_false, List.getD_cons_zero, hc, if_true]
    simp only [List.length_singleton] at hloop
    rw [hloop]
    simp
  exact ⟨htrace, by unfold parseDecodedBuffer; rw [htrace]⟩

theorem parseDecodedBuffer_inverts_layout_witness :
    parseDecodedBufferTrace sampleConstants (2 :: encodeParameters [[1], [], [128, 250, 3]])
      = ParseTrace.handleCommand 2 [[1], [], [128, 250, 3]] ∧
    parseDecodedBuffer sampleConstants (2 :: encodeParameters [[1], [], [128, 250, 3]])
      = handleCommand sampleConstants 2 [[1], [], [128, 250, 3]] :=
  parseDecodedBuffer_inverts_layout sampleConstants 2 [1] [[], [128, 250, 3]] (by decide)
    (by decide)

/-- C8: a decoded message body in which, after zero or more well-formed
parameters, a declared parameter length exceeds the number of bytes that remain
after it, or whose command tag is not smaller than `NUM_COMMANDS`, makes
`parseDecodedBuffer` take an early exit: it does not call `handleCommand` and
its only effect is one diagnostic, so no domain event is raised. -/
theorem parseDecodedBuffer_rejects_malformed (k : Constants) (buffer : List Byte)
    (h : (∃ (c : Byte) (ps : List (List Byte)) (sz : Byte) (tail : List Byte),
            (∀ p ∈ ps, p.length ≤ 255) ∧
            buffer = c :: (encodeParameters ps ++ sz :: tail) ∧ tail.length < sz.val)
         ∨ (∃ (c : Byte) (rest : List Byte), buffer = c :: rest ∧ k.NUM_COMMANDS ≤ c)) :
    (∀ c ps, parseDecodedBufferTrace k buffer ≠ ParseTrace.handleCommand c ps) ∧
    (∃ channel text, parseDecodedBuffer k buffer = [Effect.diagnostic channel text]) ∧
    (∀ e ∈ parseDecodedBuffer k buffer, e.isDomainEvent = false) := by
  have key : parseDecodedBufferTrace k buffer = ParseTrace.tooShort
      ∨ parseDecodedBufferTrace k buffer = ParseTrace.unknownCommand
      ∨ parseDecodedBufferTrace k buffer = ParseTrace.incomplete := by
    rcases h with ⟨c, ps, sz, tail, hlen, hbuf, htail⟩ | ⟨c, rest, hbuf, hc⟩
    · have hloop := parseLoop_overrun ps buffer [c] [] buffer.length sz tail hlen
        (by rw [hbuf]; rfl) htail
        (by
          have := length_le_length_encodeParameters ps
          rw [hbuf]
          simp only [List.length_cons, List.length_append]
          omega)
      simp only [List.length_singleton] at hloop
      unfold parseDecodedBufferTrace
      by_cases h2 : buffer.length < 2
      · simp [h2]
      · by_cases h3 : buffer.getD 0 0 < k.NUM_COMMANDS
        · simp only [h2, h3, if_false, if_true, hloop]; simp
        · simp only [h2, h3, if_false]; simp
    · unfold parseDecodedBufferTrace
      by_cases h2 : buffer.length < 2
      · simp [h2]
      · have h3 : ¬ buffer.getD 0 0 < k.NUM_COMMANDS := by
          rw [hbuf]; simpa using hc
        simp only [h2, h3, if_false]; simp
  unfold parseDecodedBuffer
  rcases key with e | e | e <;> rw [e] <;> simp [Effect.isDomainEvent]

theorem parseDecodedBuffer_rejects_malformed_witness :
    (∀ c ps, parseDecodedBufferTrace sampleConstants [0, 1, 5, 3, 1, 1]
      ≠ ParseTrace.handleCommand c ps) ∧
    (∃ channel text,
      parseDecodedBuffer sampleConstants [0, 1, 5, 3, 1, 1] = [Effect.diagnostic channel text]) ∧
    (∀ e ∈ parseDecodedBuffer sampleConstants [0, 1, 5, 3, 1, 1], e.isDomainEvent = false) :=
  parseDecodedBuffer_rejects_malformed sampleConstants [0, 1, 5, 3, 1, 1]
    (Or.inl ⟨0, [[5]], 3, [1, 1], by decide, by decide, by decide⟩)

/-- C9: for the VALVE command, and likewise for the PUMP command, `handleCommand`
raises a domain event if and only if there are exactly 2 parameters of 1 byte
each; it then raises exactly one `valveStateChanged` (`pumpStateChanged`) whose
number is the first byte as an unsigned value and whose state is true exactly
when the second byte is not zero, and otherwise its only effect is a warning.
The case labels `VALVE` and `PUMP` are different, as a `switch` requires. -/
theorem handleCommand_valve_pump (k : Constants) (parameters : List (List Byte))
    (hvp : k.PUMP ≠ k.VALVE) :
    (((∃ e ∈ handleCommand k k.VALVE parameters, e.isDomainEvent = true)
        ↔ (parameters.length = 2 ∧ ∀ p ∈ parameters, p.length = 1)) ∧
      (∀ a b : Byte, parameters = [[a], [b]] →
        handleCommand k k.VALVE parameters
          = [Effect.valveStateChanged a.val (decide (b ≠ 0))] ∧ a.val ≤ 255) ∧
      (¬ (parameters.length = 2 ∧ ∀ p ∈ parameters, p.length = 1) →
        ∃ text, handleCommand k k.VALVE parameters
          = [Effect.diagnostic Channel.warning text])) ∧
    (((∃ e ∈ handleCommand k k.PUMP parameters, e.isDomainEvent = true)
        ↔ (parameters.length = 2 ∧ ∀ p ∈ parameters, p.length = 1)) ∧
      (∀ a b : Byte, parameters = [[a], [b]] →
        handleCommand k k.PUMP parameters
          = [Effect.pumpStateChanged a.val (decide (b ≠ 0))] ∧ a.val ≤ 255) ∧
      (¬ (parameters.length = 2 ∧ ∀ p ∈ parameters, p.length = 1) →
        ∃ text, handleCommand k k.PUMP parameters
          = [Effect.diagnostic Channel.warning text])) := by
  constructor
  · rcases handleCommand_valve_shape k parameters with ⟨a, b, hp, hv⟩ | ⟨hn, text, hv⟩
    · refine ⟨?_, ?_, ?_⟩
      · rw [hv]; simp [hp, Effect.isDomainEvent]
      · intro a2 b2 h2
        rw [hp] at h2
        simp only [List.cons.injEq, and_true] at h2
        obtain ⟨rfl, rfl⟩ := h2
        exact ⟨hv, Nat.le_of_lt_succ a.isLt⟩
      · intro hn; exact absurd (by simp [hp]) hn
    · refine ⟨?_, ?_, ?_⟩
      · rw [hv]; simp only [List.mem_singleton, exists_eq_left, Effect.isDomainEvent]
        exact ⟨fun h => by simp at h, fun h => absurd h hn⟩
      · intro a2 b2 h2; exact absurd (by simp [h2]) hn
      · intro _; exact ⟨text, hv⟩
  · rcases handleCommand_pump_shape k parameters hvp with ⟨a, b, hp, hv⟩ | ⟨hn, text, hv⟩
    · refine ⟨?_, ?_, ?_⟩
      · rw [hv]; simp [hp, Effect.isDomainEvent]
      · intro a2 b2 h2
        rw [hp] at h2
        simp only [List.cons.injEq, and_true] at h2
        obtain ⟨rfl, rfl⟩ := h2
        exact ⟨hv, Nat.le_of_lt_succ a.isLt⟩
      · intro hn; exact absurd (by simp [hp]) hn
    · refine ⟨?_, ?_, ?_⟩
      · rw [hv]; simp only [List.mem_singleton, exists_eq_left, Effect.isDomainEvent]
        exact ⟨fun h => by simp at h, fun h => absurd h hn⟩
      · intro a2 b2 h2; exact absurd (by simp [h2]) hn
      · intro _; exact ⟨text, hv⟩

theorem handleCommand_valve_pump_witness :
    handleCommand sampleConstants sampleConstants.VALVE [[200], [2]]
      = [Effect.valveStateChanged 200 true] ∧
    handleCommand sampleConstants sampleConstants.PUMP [[1], [0]]
      = [Effect.pumpStateChanged 1 false] :=
  ⟨((handleCommand_valve_pump sampleConstants [[200], [2]] (by decide)).1.2.1 200 2 rfl).1,
   ((handleCommand_valve_pump sampleConstants [[1], [0]] (by decide)).2.2.1 1 0 rfl).1⟩

/-- C10: for the PRESSURE command `handleCommand` raises domain events if and only
if there are exactly 3 parameters of 1 byte each; it then raises
`pressureSetpointChanged(number, sp / 255)` followed by
`pressureChanged(number, pv / 255)`, where `number`, `sp`, `pv` are the three
bytes as unsigned values, so both values lie between 0 and 1; `sp = 128` gives
`128 / 255` and `pv = 255` gives 1. The quotient of the `double` division is
taken exactly. The case label `PRESSURE` differs from `VALVE` and `PUMP`, as a
`switch` requires. -/
theorem handleCommand_pressure (k : Constants) (parameters : List (List Byte))
    (hpv : k.PRESSURE ≠ k.VALVE) (hpp : k.PRESSURE ≠ k.PUMP) :
    ((∃ e ∈ handleCommand k k.PRESSURE parameters, e.isDomainEvent = true)
        ↔ (parameters.length = 3 ∧ ∀ p ∈ parameters, p.length = 1)) ∧
    (∀ n sp pv : Byte, parameters = [[n], [sp], [pv]] →
      handleCommand k k.PRESSURE parameters
        = [Effect.pressureSetpointChanged n.val ((sp.val : ℚ) / 255),
           Effect.pressureChanged n.val ((pv.val : ℚ) / 255)] ∧
      (0 : ℚ) ≤ (sp.val : ℚ) / 255 ∧ (sp.val : ℚ) / 255 ≤ 1 ∧
      (0 : ℚ) ≤ (pv.val : ℚ) / 255 ∧ (pv.val : ℚ) / 255 ≤ 1) ∧
    (∀ n : Byte, parameters = [[n], [128], [255]] →
      handleCommand k k.PRESSURE parameters
        = [Effect.pressureSetpointChanged n.val (128 / 255),
           Effect.pressureChanged n.val 1]) ∧
    (¬ (parameters.length = 3 ∧ ∀ p ∈ parameters, p.length = 1) →
      ∃ text, handleCommand k k.PRESSURE parameters
        = [Effect.diagnostic Channel.warning text]) := by
  rcases handleCommand_pressure_shape k parameters hpv hpp with
    ⟨n, sp, pv, hp, hv⟩ | ⟨hn, text, hv⟩
  · refine ⟨?_, ?_, ?_, ?_⟩
    · rw [hv]; simp [hp, Effect.isDomainEvent]
    · intro n2 sp2 pv2 h2
      rw [hp] at h2
      simp only [List.cons.injEq, and_true] at h2
      obtain ⟨rfl, rfl, rfl⟩ := h2
      exact ⟨hv, (byte_ratio_bounds sp).1, (byte_ratio_bounds sp).2,
        (byte_ratio_bounds pv).1, (byte_ratio_bounds pv).2⟩
    · intro n2 h2
      rw [hp] at h2
      simp only [List.cons.injEq, and_true] at h2
      obtain ⟨rfl, rfl, rfl⟩ := h2
      have e1 : (128 : Byte).val = 128 := rfl
      have e2 : (255 : Byte).val = 255 := rfl
      rw [hv, e1, e2]
      norm_num
    · intro hn; exact absurd (by simp [hp]) hn
  · refine ⟨?_, ?_, ?_, ?_⟩
    · rw [hv]; simp only [List.mem_singleton, exists_eq_left, Effect.isDomainEvent]
      exact ⟨fun h => by simp at h, fun h => absurd h hn⟩
    · intro n2 sp2 pv2 h2; exact absurd (by simp [h2]) hn
    · intro n2 h2; exact absurd (by simp [h2]) hn
    · intro _; exact ⟨text, hv⟩

theorem handleCommand_pressure_witness :
    handleCommand sampleConstants sampleConstants.PRESSURE [[3], [128], [255]]
      = [Effect.pressureSetpointChanged 3 (128 / 255), Effect.pressureChanged 3 1] :=
  (handleCommand_pressure sampleConstants [[3], [128], [255]] (by decide) (by decide)).2.2.1
    3 rfl

/-- C11, the code at a failing input: with a 64-bit `long`, the UPTIME parameter
`80 00 00 00` (hexadecimal) raises `uptimeChanged` with `2^64 - 2^31` and not with
the big-endian value `2^31`: `value0 << 24` is an `int`, negative when the top
bit of `value0` is set, and it is sign-extended to `long` before the conversion
to `ulong`. -/
theorem handleCommand_uptime_sign_extends :
    sampleConstants.LONG_BITS = 64 ∧
    handleCommand sampleConstants sampleConstants.UPTIME [[128, 0, 0, 0]]
      = [Effect.uptimeChanged (2 ^ 64 - 2 ^ 31)] ∧
    (2 ^ 64 - 2 ^ 31 : Nat) ≠ 128 * 2 ^ 24 + 0 * 2 ^ 16 + 0 * 2 ^ 8 + 0 ∧
    handleCommand sampleConstants sampleConstants.UPTIME [[127, 255, 1, 2]]
      = [Effect.uptimeChanged (127 * 2 ^ 24 + 255 * 2 ^ 16 + 1 * 2 ^ 8 + 2)] := by
  decide

/-- C12, the code at a failing input: a LOG message with two parameters whose
first parameter is 2 bytes long is routed all the same, with the first byte of
that parameter as the level; the LOG branch checks the number of parameters
and not the size of the first. -/
theorem handleCommand_log_ignores_level_size :
    handleCommand sampleConstants sampleConstants.LOG [[2, 9], [72, 105]]
      = [Effect.microcontrollerMessage Channel.warning true [72, 105]] ∧
    ([(2 : Byte), 9] : List Byte).length ≠ 1 := by
  decide

/-- C13: `setPressure(controller, p)` hands no frame to `sendMessage` when `p < 0`
or `p > 1`: it logs the warning and returns. When `p` is a value with
`0 ≤ p ≤ 1` it sends exactly one frame, that of the message
`[PRESSURE, 1, controller mod 256, 1, sp]`, where `sp` is the integer part of
the `double` product `p * 255`; `sp` is at most 255, and it is the integer part
of the exact product or one more, when the product rounds up to an integer.
`p = 0` sends the setpoint byte 0 and `p = 1` sends 255. A NaN is neither below
0 nor above 1, and its conversion to `uint8_t` is undefined. -/
theorem setPressure_frames (k : Constants) (controllerNumber : Nat) (p : Double) :
    ((p < 0 ∨ p > 1) →
      setPressure k controllerNumber p
        = some [Effect.diagnostic Channel.debug "Communicator: setting pressure controller",
                Effect.diagnostic Channel.warning
                  "Pressure invalid. Must be between 0 and 1."]) ∧
    (∀ v : ℚ, p = Double.finite v → 0 ≤ v → v ≤ 1 →
      ∃ sp : Nat, sp ≤ 255 ∧ Double.toUInt 8 (p * 255) = some sp ∧
        Int.floor (255 * v) ≤ (sp : ℤ) ∧ (sp : ℤ) ≤ Int.floor (255 * v) + 1 ∧
        setPressure k controllerNumber p
          = some [Effect.diagnostic Channel.debug "Communicator: setting pressure controller",
                  Effect.sendMessage
                    (frameMessage k
                      [k.PRESSURE, 1, Fin.ofNat (controllerNumber % 256), 1, Fin.ofNat sp])]) ∧
    (setPressure k controllerNumber 0
      = some [Effect.diagnostic Channel.debug "Communicator: setting pressure controller",
              Effect.sendMessage
                (frameMessage k [k.PRESSURE, 1, Fin.ofNat controllerNumber, 1, 0])]) ∧
    (setPressure k controllerNumber 1
      = some [Effect.diagnostic Channel.debug "Communicator: setting pressure controller",
              Effect.sendMessage
                (frameMessage k [k.PRESSURE, 1, Fin.ofNat controllerNumber, 1, 255])]) ∧
    setPressure k controllerNumber Double.nan = none := by
  have hmod : (Fin.ofNat (controllerNumber % 256) : Byte) = Fin.ofNat controllerNumber := by
    apply Fin.ext
    simp [Fin.ofNat]
  have hframe : ∀ v : ℚ, 0 ≤ v → v ≤ 1 →
      Double.toUInt 8 (Double.finite v * Double.ofRat (PR_MAX_VALUE : ℚ))
          = some (Int.floor (roundMagnitude (v * 255))).toNat ∧
      setPressure k controllerNumber (Double.finite v)
        = some [Effect.diagnostic Channel.debug "Communicator: setting pressure controller",
                Effect.sendMessage
                  (frameMessage k
                    [k.PRESSURE, 1, Fin.ofNat controllerNumber, 1,
                     Fin.ofNat (Int.floor (roundMagnitude (v * 255))).toNat])] := by
    intro v h0 h1
    obtain ⟨e, b0, b1, -, -⟩ := Double.finite_mul_255 v h0 h1
    have hguard : ¬ (Double.finite v < 0 ∨ Double.finite v > 1) := by
      rw [Double.finite_lt_zero, Double.one_lt_finite]
      rintro (hlt | hgt)
      · exact absurd h0 (not_le.mpr hlt)
      · exact absurd h1 (not_le.mpr hgt)
    have hcast := Double.toUInt_finite 8 (roundMagnitude (v * 255)) b0
      (lt_of_le_of_lt b1 (by norm_num))
    refine ⟨by rw [e, hcast], ?_⟩
    unfold setPressure
    simp only [if_neg hguard, e, hcast]
  refine ⟨fun hg => ?_, ?_, ?_, ?_, ?_⟩
  · unfold setPressure
    simp only [if_pos hg]
  · rintro v rfl h0 h1
    obtain ⟨-, b0, b1, b2, b3⟩ := Double.finite_mul_255 v h0 h1
    obtain ⟨hcast, hset⟩ := hframe v h0 h1
    have hfl0 : 0 ≤ Int.floor (roundMagnitude (v * 255)) := Int.floor_nonneg.mpr b0
    have hfl1 : Int.floor (roundMagnitude (v * 255)) ≤ 255 := by
      have h255 := Int.floor_mono b1
      rwa [show (255 : ℚ) = ((255 : ℤ) : ℚ) by norm_num, Int.floor_intCast] at h255
    have hlow : Int.floor (255 * v) ≤ Int.floor (roundMagnitude (v * 255)) := by
      rw [mul_comm]
      exact Int.le_floor.mpr b2
    have hhigh : Int.floor (roundMagnitude (v * 255)) ≤ Int.floor (255 * v) + 1 := by
      rw [mul_comm 255 v]
      have := Int.floor_mono b3
      rwa [show (Int.floor (v * 255) : ℚ) + 1 = ((Int.floor (v * 255) + 1 : ℤ) : ℚ) by
        push_cast; ring, Int.floor_intCast] at this
    refine ⟨(Int.floor (roundMagnitude (v * 255))).toNat, by omega, ?_, by omega, by omega, ?_⟩
    · have h255 : (255 : Double) = Double.ofRat (PR_MAX_VALUE : ℚ) := rfl
      rw [h255, hcast]
    · rw [hmod, hset]
  · have h := (hframe 0 le_rfl (by norm_num)).2
    have hr : roundMagnitude ((0 : ℚ) * 255) = 0 := by
      rw [zero_mul]
      unfold roundMagnitude
      rw [if_pos le_rfl]
    rw [Double.zero_eq, h, hr, Int.floor_zero]
    rfl
  · have h := (hframe 1 (by norm_num) le_rfl).2
    have hr : roundMagnitude ((1 : ℚ) * 255) = ((255 : ℤ) : ℚ) := by
      have h255 := roundMagnitude_natCast 255 (by norm_num)
      rw [one_mul]
      exact_mod_cast h255
    rw [Double.one_eq, h, hr, Int.floor_intCast]
    rfl
  · have hg : ¬ (Double.nan < 0 ∨ Double.nan > 1) := by
      rintro (h | h)
      · exact Double.not_nan_lt _ h
      · exact Double.not_lt_nan _ h
    unfold setPressure
    simp only [if_neg hg, Double.nan_mul]
    rfl

theorem setPressure_frames_witness :
    (∃ sp : Nat, sp ≤ 255 ∧
      Double.toUInt 8 (Double.finite (4521260802379792 / 2 ^ 53) * 255) = some sp ∧
      Int.floor (255 * (4521260802379792 / 2 ^ 53 : ℚ)) ≤ (sp : ℤ) ∧
      (sp : ℤ) ≤ Int.floor (255 * (4521260802379792 / 2 ^ 53 : ℚ)) + 1 ∧
      setPressure sampleConstants 2 (Double.finite (4521260802379792 / 2 ^ 53))
        = some [Effect.diagnostic Channel.debug "Communicator: setting pressure controller",
                Effect.sendMessage
                  (frameMessage sampleConstants
                    [sampleConstants.PRESSURE, 1, Fin.ofNat (2 % 256), 1, Fin.ofNat sp])]) ∧
    Double.ofRat (128 / 255) = Double.finite (4521260802379792 / 2 ^ 53) ∧
    Double.toUInt 8 (Double.ofRat (128 / 255) * 255) = some 128 ∧
    Int.floor (255 * (4521260802379792 / 2 ^ 53 : ℚ)) = 127 ∧
    setPressure sampleConstants 2 (Double.ofRat (3 / 2))
      = some [Effect.diagnostic Channel.debug "Communicator: setting pressure controller",
              Effect.diagnostic Channel.warning "Pressure invalid. Must be between 0 and 1."] :=
  ⟨(setPressure_frames sampleConstants 2 (Double.finite (4521260802379792 / 2 ^ 53))).2.1 _ rfl
      (by norm_num) (by norm_num),
   by decide!, by decide!, by decide!,
   (setPressure_frames sampleConstants 2 (Double.ofRat (3 / 2))).1 (Or.inr (by decide!))⟩

/-- C14: `setConnectionStatus(s)` changes nothing and emits nothing when `s` is
the current status; otherwise it sets the status to `s` and emits
`connectionStatusChanged(s)` exactly once. Hence over any sequence of calls the
notifications are `connectionStatusChanged` signals of which no two consecutive
ones carry the same status, and the first differs from the status at the
start. -/
theorem setConnectionStatus_notifies_changes (status : ConnectionStatus) (s : Communicator)
    (statuses : List ConnectionStatus) :
    (status = s.mConnectionStatus → setConnectionStatus status s = ([], s)) ∧
    (status ≠ s.mConnectionStatus →
      setConnectionStatus status s
        = ([Effect.connectionStatusChanged status], { s with mConnectionStatus := status })) ∧
    List.Chain (fun a b => a ≠ b) (Effect.connectionStatusChanged s.mConnectionStatus)
      (setConnectionStatuses statuses s).1 ∧
    (∀ e ∈ (setConnectionStatuses statuses s).1, ∃ st, e = Effect.connectionStatusChanged st) := by
  refine ⟨?_, ?_, (setConnectionStatuses_chain statuses s).1,
    (setConnectionStatuses_chain statuses s).2⟩
  · intro h; simp [setConnectionStatus, h]
  · intro h; simp [setConnectionStatus, h]

theorem setConnectionStatus_notifies_changes_witness :
    setConnectionStatus ConnectionStatus.Disconnected idle = ([], idle) ∧
    setConnectionStatus ConnectionStatus.Connecting idle
      = ([Effect.connectionStatusChanged ConnectionStatus.Connecting],
         { idle with mConnectionStatus := ConnectionStatus.Connecting }) :=
  ⟨(setConnectionStatus_notifies_changes ConnectionStatus.Disconnected idle []).1 rfl,
   (setConnectionStatus_notifies_changes ConnectionStatus.Connecting idle []).2.1
     (by decide)⟩

/-- C15, the code at the input of the claim: with 32 valves, 3 pressure
controllers and the range 0 to 10 for controller 1, `verify()` on the lines
`valve 1 open`, `wait 2`, `pressure 1 5`, `garbage line` records 3 valid steps
and a total wait time of 2, but returns 0 errors and not 1: a line whose first
word is none of the five commands reaches no branch of `run` and is neither a
step nor an error. -/
theorem verify_example_reports_no_error :
    (RoutineController.verify sampleHost Schedule.quiet
      (loaded ["valve 1 open".toList, "wait 2".toList, "pressure 1 5".toList,
        "garbage line".toList])).1 = 0 ∧
    (RoutineController.verify sampleHost Schedule.quiet
      (loaded ["valve 1 open".toList, "wait 2".toList, "pressure 1 5".toList,
        "garbage line".toList])).2.state.mErrors = [] ∧
    (RoutineController.verify sampleHost Schedule.quiet
      (loaded ["valve 1 open".toList, "wait 2".toList, "pressure 1 5".toList,
        "garbage line".toList])).2.state.mValidSteps
      = ["valve 1 open".toList, "wait 2".toList, "pressure 1 5".toList] ∧
    (RoutineController.verify sampleHost Schedule.quiet
      (loaded ["valve 1 open".toList, "wait 2".toList, "pressure 1 5".toList,
        "garbage line".toList])).2.state.mNumberOfSteps = 3 ∧
    (RoutineController.verify sampleHost Schedule.quiet
      (loaded ["valve 1 open".toList, "wait 2".toList, "pressure 1 5".toList,
        "garbage line".toList])).2.state.mTotalWaitTime = 2 := by
  decide!

/-- C16, the code at a failing input: on the routine `garbage line`,
`valve 1 open`, both lines are non-empty, the first conforms to no rule of the
grammar, and `verify()` adds no error for it: there are 0 errors and 1 step for
2 non-empty lines. -/
theorem verify_ignores_unknown_command :
    nonEmptyLines ["garbage line".toList, "valve 1 open".toList] = 2 ∧
    (RoutineController.verify sampleHost Schedule.quiet
      (loaded ["garbage line".toList, "valve 1 open".toList])).1 = 0 ∧
    (RoutineController.verify sampleHost Schedule.quiet
      (loaded ["garbage line".toList, "valve 1 open".toList])).2.state.mErrors = [] ∧
    (RoutineController.verify sampleHost Schedule.quiet
      (loaded ["garbage line".toList, "valve 1 open".toList])).2.state.mNumberOfSteps = 1 := by
  decide!

/-- C18, the code at a failing input: after `loadFile` and a call of `pause()`,
the status is `Ready` and `verify()` on the routine `valve 1 open` sets it to
`Paused`, emits `paused()` and waits; when no other thread calls `resume()` it
never returns, and when one does, it emits `resumed()` and returns with the
status `Running`. No intent is emitted and the step index stays -1. -/
theorem verify_pauses_when_pause_is_pending :
    (loaded ["valve 1 open".toList]).pause.mRunStatus = RunStatus.Ready ∧
    (RoutineController.verify sampleHost Schedule.quiet
      (loaded ["valve 1 open".toList]).pause).2.returned = false ∧
    (RoutineController.verify sampleHost Schedule.quiet
      (loaded ["valve 1 open".toList]).pause).2.state.mRunStatus = RunStatus.Paused ∧
    (RoutineController.verify sampleHost Schedule.quiet
      (loaded ["valve 1 open".toList]).pause).2.signals = [Signal.paused] ∧
    (RoutineController.verify sampleHost
      { beforeCheck := fun _ => [], whilePaused := fun _ => [Call.resume] }
      (loaded ["valve 1 open".toList]).pause).2.returned = true ∧
    (RoutineController.verify sampleHost
      { beforeCheck := fun _ => [], whilePaused := fun _ => [Call.resume] }
      (loaded ["valve 1 open".toList]).pause).2.state.mRunStatus = RunStatus.Running ∧
    (RoutineController.verify sampleHost
      { beforeCheck := fun _ => [], whilePaused := fun _ => [Call.resume] }
      (loaded ["valve 1 open".toList]).pause).2.signals
      = [Signal.paused, Signal.resumed, Signal.stepsListChanged] ∧
    (RoutineController.verify sampleHost
      { beforeCheck := fun _ => [], whilePaused := fun _ => [Call.resume] }
      (loaded ["valve 1 open".toList]).pause).2.state.mCurrentStep = -1 := by
  decide!

/-- C19: a line whose first token is `valve` is accepted as a step if and only if
it has exactly 3 tokens, the second is `all` or an unsigned integer `v` with
`1 ≤ v ≤ nValves`, and the third is `open` or `close`. An accepted line is
appended to the valid steps in a dry run; in a live run it advances the step
index and emits exactly one `setValve(v, third == open)` for a numeric id, and
`setValve(k, third == open)` once for each `k = 1, ..., nValves` in increasing
order for `all`. A line that is not accepted emits no intent and adds exactly
one error, with its line number, in either mode. The number of valves is below
the largest `uint`. -/
theorem valve_line_step_iff_conforms (h : Host) (i : Nat) (raw : QString)
    (rest : List QString) (s : RoutineController) (hn : h.nValves < 2 ^ 32 - 1)
    (htok : split ' ' (simplified (removeComment raw)) = "valve".toList :: rest) :
    (conformsValve h rest →
      processLine h true i raw s
        = ⟨{ s with mValidSteps := s.mValidSteps ++ [simplified (removeComment raw)] },
           [], false⟩) ∧
    (∀ a b v, rest = [a, b] → a ≠ "all".toList → h.toUInt a = some v → 1 ≤ v →
      v ≤ h.nValves → (b = "open".toList ∨ b = "close".toList) →
      processLine h false i raw s
        = ⟨{ s with mCurrentStep := s.mCurrentStep + 1 },
           [Signal.currentStepChanged (s.mCurrentStep + 1),
            Signal.setValve v (decide (b = "open".toList))], false⟩) ∧
    (∀ a b, rest = [a, b] → a = "all".toList → (b = "open".toList ∨ b = "close".toList) →
      processLine h false i raw s
        = ⟨{ s with mCurrentStep := s.mCurrentStep + 1 },
           Signal.currentStepChanged (s.mCurrentStep + 1)
             :: (List.range' 1 h.nValves).map
                  (fun k => Signal.setValve k (decide (b = "open".toList))), false⟩) ∧
    (¬ conformsValve h rest → ∀ dummyRun, ∃ text,
      processLine h dummyRun i raw s
        = ⟨{ s with mErrors := s.mErrors ++ [⟨i + 1, text⟩],
                    mErrorCount := s.mErrorCount + 1 },
           [Signal.error ⟨i + 1, text⟩], true⟩) := by
  have hcl := classify_valve h _ rest htok
  refine ⟨?_, ?_, ?_, ?_⟩
  · rintro ⟨a, b, rfl, ha, hb⟩
    rw [processLine_eq_perform, hcl]
    rcases classifyValve_of_conforms h a b ha hb with ⟨-, e⟩ | ⟨-, v, -, -, -, e⟩ <;>
      rw [e] <;> rfl
  · rintro a b v rfl hall hv h1 h2 hb
    rw [processLine_eq_perform, hcl]
    rcases classifyValve_of_conforms h a b (Or.inr ⟨v, hv, h1, h2⟩) hb with
      ⟨e, -⟩ | ⟨-, v2, hv2, -, -, e⟩
    · exact absurd e hall
    · rw [hv] at hv2
      obtain rfl := Option.some.inj hv2
      rw [e]
      rfl
  · rintro a b rfl hall hb
    rw [processLine_eq_perform, hcl]
    rcases classifyValve_of_conforms h a b (Or.inl hall) hb with ⟨-, e⟩ | ⟨e, -⟩
    · rw [e]
      simp only [perform, Bool.false_eq_true, if_false, if_true, toggleAllLoop_all _ _ hn,
        RoutineController.setCurrentStep, List.singleton_append]
    · exact absurd hall e
  · intro hnot dummyRun
    obtain ⟨text, e⟩ := classifyValve_of_not_conforms h rest hnot
    exact ⟨text, by rw [processLine_eq_perform, hcl, e]; rfl⟩

theorem valve_line_step_iff_conforms_witness :
    processLine sampleHost false 4 "  valve  12   open # fill".toList RoutineController.initial
      = ⟨{ RoutineController.initial with
            mCurrentStep := RoutineController.initial.mCurrentStep + 1 },
         [Signal.currentStepChanged (RoutineController.initial.mCurrentStep + 1),
          Signal.setValve 12 (decide ("open".toList = "open".toList))], false⟩ :=
  (valve_line_step_iff_conforms sampleHost 4 "  valve  12   open # fill".toList
    ["12".toList, "open".toList] RoutineController.initial (by decide) (by decide)).2.1
    "12".toList "open".toList 12 rfl (by decide) (by decide) (by decide) (by decide)
    (Or.inl rfl)

/-- C20, the code at a failing input: with 3 pressure controllers whose range is
0 to 10, the line `pressure 1 nan` has 3 tokens and a valid controller, and its
third token converts to a NaN, which is no number `x` with `x ≥ 0` and
`minPressure(1) ≤ x ≤ maxPressure(1)`: every comparison with a NaN is false.
All three comparisons of `run` are false as well, so `verify()` reports no
error and records the line as a step, and a live run emits
`setPressure(1, NaN)`. -/
theorem pressure_line_accepts_nan :
    sampleHost.toUInt "1".toList = some 1 ∧
    sampleHost.toDouble "nan".toList = some Double.nan ∧
    (∀ y : Double, ¬ (Double.nan < y) ∧ ¬ (y < Double.nan)) ∧
    (RoutineController.verify sampleHost Schedule.quiet
      (loaded ["pressure 1 nan".toList])).1 = 0 ∧
    (RoutineController.verify sampleHost Schedule.quiet
      (loaded ["pressure 1 nan".toList])).2.state.mErrors = [] ∧
    (RoutineController.verify sampleHost Schedule.quiet
      (loaded ["pressure 1 nan".toList])).2.state.mValidSteps = ["pressure 1 nan".toList] ∧
    (RoutineController.begin sampleHost Schedule.quiet
      (loaded ["pressure 1 nan".toList])).signals
      = [Signal.runStatusChanged RunStatus.Running, Signal.currentStepChanged 0,
         Signal.setPressure 1 Double.nan, Signal.runStatusChanged RunStatus.Finished,
         Signal.finished] :=
  ⟨by decide, by decide, fun y => ⟨Double.not_nan_lt y, Double.not_lt_nan y⟩,
   by decide!, by decide!, by decide!, by decide!⟩

/-- C21: a line `wait A` or `wait A U` with a numeric `A` is accepted and stands
for `A * k` seconds, the product of `double`s, with `k` the factor the
specification gives for `U` (0.001 for ms, millisecond, milliseconds, msec; 60
for min, mins, minute, minutes; 3600 for h, hr, hrs, hour, hours; 1 for no unit
or any other word): in a dry run the line is recorded as a step and `A * k` is
added to the total wait time; in a live run the step index advances, the run
waits the integer part of `A * k * 1000` milliseconds and `A * k` is added to
the elapsed time. A `wait` line with fewer than 2 or more than 3 tokens, or
with an `A` that is not numeric, adds exactly one error and nothing else, in
either mode. When no pause is pending and no other thread calls the
controller, `verify()` returns and the total wait time after it is the sum of
`A * k` over the accepted `wait` lines, added as `double`s from zero in the
order of the file. What `toDouble` returns are values of `double`. -/
theorem wait_lines_and_total_wait_time (h : Host)
    (hvalue : ∀ text x, h.toDouble text = some x → x.IsValue) :
    (∀ (i : Nat) (raw : QString) (rest : List QString) (s : RoutineController),
      split ' ' (simplified (removeComment raw)) = "wait".toList :: rest →
      (∀ t, specWaitSeconds h rest = some t →
        processLine h true i raw s
          = ⟨{ s with mValidSteps := s.mValidSteps ++ [simplified (removeComment raw)],
                      mTotalWaitTime := s.mTotalWaitTime + t },
             [Signal.totalRunTimeChanged (s.mTotalWaitTime + t)], false⟩ ∧
        processLine h false i raw s
          = ⟨{ s with mCurrentStep := s.mCurrentStep + 1,
                      mElapsedTime := s.mElapsedTime + t },
             [Signal.currentStepChanged (s.mCurrentStep + 1),
              Signal.waitFor (Double.toUInt 64 (t * 1000)),
              Signal.elapsedTimeChanged (s.mElapsedTime + t)], false⟩) ∧
      (specWaitSeconds h rest = none → ∀ dummyRun, ∃ text,
        processLine h dummyRun i raw s
          = ⟨{ s with mErrors := s.mErrors ++ [⟨i + 1, text⟩],
                      mErrorCount := s.mErrorCount + 1 },
             [Signal.error ⟨i + 1, text⟩], true⟩)) ∧
    (∀ s : RoutineController, s.mPauseRequested = false →
      (RoutineController.verify h Schedule.quiet s).2.returned = true ∧
      (RoutineController.verify h Schedule.quiet s).2.state.mTotalWaitTime
        = doubleSum (specWaitTimes h s.mLines)) := by
  refine ⟨fun i raw rest s htok => ⟨fun t ht => ⟨?_, ?_⟩, fun hn dummyRun => ?_⟩,
    fun s hp => ⟨?_, ?_⟩⟩
  · rw [processLine_eq_perform, classify_wait h _ rest htok,
      (classifyWait_of_spec h rest hvalue).1 t ht]
    rfl
  · rw [processLine_eq_perform, classify_wait h _ rest htok,
      (classifyWait_of_spec h rest hvalue).1 t ht]
    rfl
  · obtain ⟨text, e⟩ := (classifyWait_of_spec h rest hvalue).2 hn
    exact ⟨text, by rw [processLine_eq_perform, classify_wait h _ rest htok, e]; rfl⟩
  · unfold RoutineController.verify
    rw [run_dry_quiet h s hp]
  · unfold RoutineController.verify
    rw [run_dry_quiet h s hp]
    dsimp only
    rw [runLoop_dry_quiet_totalWaitTime h s.mLines hvalue 0 (dryStart s) hp rfl]
    rfl

theorem wait_lines_and_total_wait_time_witness :
    (processLine sampleHost false 0 "wait 1.001".toList RoutineController.initial
      = ⟨{ RoutineController.initial with
            mCurrentStep := RoutineController.initial.mCurrentStep + 1,
            mElapsedTime := RoutineController.initial.mElapsedTime
              + Double.ofRat (1001 / 1000) },
         [Signal.currentStepChanged (RoutineController.initial.mCurrentStep + 1),
          Signal.waitFor (Double.toUInt 64 (Double.ofRat (1001 / 1000) * 1000)),
          Signal.elapsedTimeChanged
            (RoutineController.initial.mElapsedTime + Double.ofRat (1001 / 1000))],
         false⟩) ∧
    Double.toUInt 64 (Double.ofRat (1001 / 1000) * 1000) = some 1000 ∧
    specWaitSeconds sampleHost ["2".toList, "min".toList] = some 120 ∧
    (RoutineController.verify sampleHost Schedule.quiet
      (loaded ["wait 0.1".toList, "wait 0.1 s".toList, "valve 1 open".toList,
        "wait soon".toList, "wait 0.1 # seconds".toList])).2.state.mTotalWaitTime
      = doubleSum (specWaitTimes sampleHost
          (loaded ["wait 0.1".toList, "wait 0.1 s".toList, "valve 1 open".toList,
            "wait soon".toList, "wait 0.1 # seconds".toList]).mLines) ∧
    doubleSum (specWaitTimes sampleHost
        (loaded ["wait 0.1".toList, "wait 0.1 s".toList, "valve 1 open".toList,
          "wait soon".toList, "wait 0.1 # seconds".toList]).mLines)
      = Double.finite (5404319552844596 / 2 ^ 54) :=
  ⟨(((wait_lines_and_total_wait_time sampleHost sampleToDouble_isValue).1 0
      "wait 1.001".toList ["1.001".toList] RoutineController.initial (by decide)).1
      (Double.ofRat (1001 / 1000)) (by decide!)).2,
   by decide!, by decide!,
   ((wait_lines_and_total_wait_time sampleHost sampleToDouble_isValue).2
      (loaded ["wait 0.1".toList, "wait 0.1 s".toList, "valve 1 open".toList,
        "wait soon".toList, "wait 0.1 # seconds".toList]) rfl).2,
   by decide!⟩

/-- C17: when no pause is pending and no other thread calls the controller,
`verify()` returns, and a second `verify()` right after it returns the same
error count, emits the same signals and leaves the object as the first call
left it: the same `errors()`, `steps()`, `numberOfSteps()` and total wait
time. -/
theorem verify_idempotent (h : Host) (s : RoutineController)
    (hp : s.mPauseRequested = false) :
    (RoutineController.verify h Schedule.quiet s).2.returned = true ∧
    RoutineController.verify h Schedule.quiet (RoutineController.verify h Schedule.quiet s).2.state
      = RoutineController.verify h Schedule.quiet s := by
  have hret : (RoutineController.run h true Schedule.quiet s).returned = true := by
    rw [run_dry_quiet h s hp]
  unfold RoutineController.verify
  exact ⟨hret, by simp only [run_dry_quiet_twice h s hp]⟩

theorem verify_idempotent_witness :
    (RoutineController.verify sampleHost Schedule.quiet
      (loaded ["valve 1 open".toList, "wait 2".toList, "valve 40 open".toList])).2.returned
      = true ∧
    RoutineController.verify sampleHost Schedule.quiet
        (RoutineController.verify sampleHost Schedule.quiet
          (loaded ["valve 1 open".toList, "wait 2".toList, "valve 40 open".toList])).2.state
      = RoutineController.verify sampleHost Schedule.quiet
          (loaded ["valve 1 open".toList, "wait 2".toList, "valve 40 open".toList]) :=
  verify_idempotent sampleHost
    (loaded ["valve 1 open".toList, "wait 2".toList, "valve 40 open".toList]) rfl

/-- C22, the code at inputs of the claim: `begin()` is not guarded by the status.
On a new object, whose status is `NotReady`, the live run writes `Running` and
then `Finished`; and on the object a finished run leaves, whose status is
`Finished`, a second `begin()` writes `Running` again, with no load in
between. -/
theorem begin_sets_running_from_not_ready_and_from_finished :
    RoutineController.initial.mRunStatus = RunStatus.NotReady ∧
    (liveStart RoutineController.initial).mRunStatus = RunStatus.Running ∧
    (RoutineController.begin sampleHost Schedule.quiet RoutineController.initial).signals
      = [Signal.runStatusChanged RunStatus.Running,
         Signal.runStatusChanged RunStatus.Finished, Signal.finished] ∧
    (RoutineController.begin sampleHost Schedule.quiet
      (loaded ["valve 1 open".toList])).state.mRunStatus = RunStatus.Finished ∧
    (liveStart (RoutineController.begin sampleHost Schedule.quiet
      (loaded ["valve 1 open".toList])).state).mRunStatus = RunStatus.Running ∧
    statusWrites (RoutineController.begin sampleHost Schedule.quiet
      (RoutineController.begin sampleHost Schedule.quiet
        (loaded ["valve 1 open".toList])).state).signals
      = [RunStatus.Running, RunStatus.Finished] := by
  decide!

/-- C22, amended: the status becomes `Running` at the start of every live run,
whatever the status before it, and otherwise only right after `Paused`, when
a paused run resumes. `stop`, `pause`, `resume` and `wake` leave the status as
it is, `reset` sets `NotReady`, and `loadFile` sets `NotReady` or `Ready`. The
first write of a live run is `Running`, each later write of `Running` in it
comes right after a write of `Paused`, and the status at the end is the one the
writes give. In a dry run each write of `Running` comes right after a write of
`Paused`, and the status at the end is the one the writes give. -/
theorem running_written_at_run_start_or_after_paused (h : Host) (sched : Schedule)
    (s : RoutineController) :
    (∀ c : Call, (c.apply s).mRunStatus = s.mRunStatus) ∧
    s.reset.mRunStatus = RunStatus.NotReady ∧
    (∀ file, (RoutineController.loadFile file s).2.2.mRunStatus = RunStatus.NotReady ∨
      (RoutineController.loadFile file s).2.2.mRunStatus = RunStatus.Ready) ∧
    (∃ ws, statusWrites (RoutineController.begin h sched s).signals = RunStatus.Running :: ws ∧
      List.Chain RunningAfterPaused RunStatus.Running ws ∧
      (RoutineController.begin h sched s).state.mRunStatus
        = statusAfter s.mRunStatus (RunStatus.Running :: ws)) ∧
    (∀ prev, List.Chain RunningAfterPaused prev
      (statusWrites (RoutineController.verify h sched s).2.signals)) ∧
    (RoutineController.verify h sched s).2.state.mRunStatus
      = statusAfter s.mRunStatus (statusWrites (RoutineController.verify h sched s).2.signals) := by
  refine ⟨fun c => call_mRunStatus c s, rfl, fun file => ?_, ?_, ?_, ?_⟩
  · cases file with
    | none => exact Or.inl rfl
    | some f => exact Or.inr rfl
  · obtain ⟨h1, h2, -⟩ := runLoop_exit h false sched s.mLines 0 (liveStart s)
    unfold RoutineController.begin
    rw [run_live]
    by_cases hret : (runLoop h false sched s.mLines 0 (liveStart s)).returned = true
    · rw [if_pos hret]
      refine ⟨statusWrites (runLoop h false sched s.mLines 0 (liveStart s)).signals
        ++ [RunStatus.Finished], ?_, chain_append_finished _ _ (h2 _), ?_⟩
      · simp only [statusWrites_append, statusWrites_changed, List.append_nil]
        rfl
      · simp only [statusAfter, List.foldl_cons, List.foldl_append, List.foldl_nil]
    · rw [if_neg hret]
      refine ⟨statusWrites (runLoop h false sched s.mLines 0 (liveStart s)).signals, ?_,
        h2 _, ?_⟩
      · simp only [RunResult.after, statusWrites_append]
        rfl
      · simp only [RunResult.after, statusAfter, List.foldl_cons]
        exact h1
  · intro prev
    obtain ⟨-, h2, -⟩ := runLoop_exit h true sched s.mLines 0 (dryStart s)
    show List.Chain RunningAfterPaused prev
      (statusWrites (RoutineController.run h true sched s).signals)
    rw [(run_dry_status h sched s).1]
    exact h2 prev
  · obtain ⟨h1, -, -⟩ := runLoop_exit h true sched s.mLines 0 (dryStart s)
    show (RoutineController.run h true sched s).state.mRunStatus
      = statusAfter s.mRunStatus (statusWrites (RoutineController.run h true sched s).signals)
    rw [(run_dry_status h sched s).1, (run_dry_status h sched s).2]
    exact h1

theorem running_written_at_run_start_or_after_paused_witness :
    ∃ ws, statusWrites (RoutineController.begin sampleHost
        { beforeCheck := fun i => if i = 0 then [Call.pause] else [],
          whilePaused := fun _ => [Call.resume] }
        RoutineController.initial).signals = RunStatus.Running :: ws ∧
      List.Chain RunningAfterPaused RunStatus.Running ws ∧
      (RoutineController.begin sampleHost
        { beforeCheck := fun i => if i = 0 then [Call.pause] else [],
          whilePaused := fun _ => [Call.resume] }
        RoutineController.initial).state.mRunStatus
        = statusAfter RoutineController.initial.mRunStatus (RunStatus.Running :: ws) :=
  (running_written_at_run_start_or_after_paused sampleHost
    { beforeCheck := fun i => if i = 0 then [Call.pause] else [],
      whilePaused := fun _ => [Call.resume] }
    RoutineController.initial).2.2.2.1

/-- C23: comments, blank lines and spacing do not affect interpretation. (a) A
line that is empty, all white space, or white space followed by a comment yields
neither a step nor an error, in either mode: the object is unchanged and nothing
is emitted. (b) Appending `#` and any text to any line changes nothing of what
`run` does with the line; and a line made of words with any white space before
the first word, after the last and between the words, with or without a comment
after it, is treated as the normalized line, the words with one space between
each two: the outcome is that of the checks on the normalized line, and the text
a dry run records in `steps()` for an accepted line is the normalized line. -/
theorem comments_and_spacing_do_not_matter (h : Host) (dummyRun : Bool) (i : Nat)
    (s : RoutineController) :
    (∀ blank text : QString, isBlank blank = true →
      processLine h dummyRun i blank s = ⟨s, [], true⟩ ∧
      processLine h dummyRun i (blank ++ '#' :: text) s = ⟨s, [], true⟩) ∧
    (∀ raw text : QString,
      processLine h dummyRun i (raw ++ '#' :: text) s = processLine h dummyRun i raw s) ∧
    (∀ (lead first : QString) (more : List (QString × QString)) (trail text : QString),
      isBlank lead = true → isWord first = true →
      (∀ gw ∈ more, isGap gw.1 = true ∧ isWord gw.2 = true) → isBlank trail = true →
      processLine h dummyRun i (spacedLine lead first more trail) s
        = processLine h dummyRun i (normalLine first (more.map Prod.snd)) s ∧
      processLine h dummyRun i (spacedLine lead first more trail ++ '#' :: text) s
        = processLine h dummyRun i (normalLine first (more.map Prod.snd)) s ∧
      processLine h dummyRun i (normalLine first (more.map Prod.snd)) s
        = perform h dummyRun i (normalLine first (more.map Prod.snd))
            (classify h (normalLine first (more.map Prod.snd))) s ∧
      (processLine h true i (spacedLine lead first more trail ++ '#' :: text) s).state.mValidSteps
        = s.mValidSteps
            ++ (if (classify h (normalLine first (more.map Prod.snd))).isStep
                then [normalLine first (more.map Prod.snd)] else [])) := by
  refine ⟨fun blank text hb => ?_, fun raw text => ?_,
    fun lead first more trail text hlead hfirst hmore htrail => ?_⟩
  · obtain ⟨e1, e2⟩ := normalized_blank blank text hb
    rw [processLine_eq_perform, processLine_eq_perform, e1, e2]
    exact ⟨rfl, rfl⟩
  · rw [processLine_eq_perform, processLine_eq_perform, removeComment_append_comment]
  · obtain ⟨e1, e2⟩ := normalized_spacedLine lead first more trail text hlead hfirst hmore htrail
    have e3 : simplified (removeComment (normalLine first (more.map Prod.snd)))
        = normalLine first (more.map Prod.snd) := by
      have hn := (normalized_spacedLine [] first
        ((more.map Prod.snd).map (fun w => ([' '], w))) [] [] rfl hfirst
        (by
          intro gw hgw
          obtain ⟨w, hw, rfl⟩ := List.mem_map.mp hgw
          obtain ⟨x, hx, rfl⟩ := List.mem_map.mp hw
          exact ⟨(by decide : isGap [' '] = true), (hmore x hx).2⟩)
        rfl).1
      have hl : spacedLine [] first ((more.map Prod.snd).map (fun w => ([' '], w))) []
          = normalLine first (more.map Prod.snd) := by
        simp [spacedLine, normalLine, List.map_map, Function.comp_def]
      have hr : ((more.map Prod.snd).map (fun w => (([' '] : QString), w))).map Prod.snd
          = more.map Prod.snd := by
        simp [List.map_map, Function.comp_def]
      rw [hl, hr] at hn
      exact hn
    refine ⟨?_, ?_, ?_, ?_⟩
    · rw [processLine_eq_perform, processLine_eq_perform, e1, e3]
    · rw [processLine_eq_perform, processLine_eq_perform, e2, e3]
    · rw [processLine_eq_perform, e3]
    · rw [processLine_eq_perform, e2, perform_dry_validSteps]

theorem comments_and_spacing_do_not_matter_witness :
    processLine sampleHost true 3 "\t valve   7  open  # fill the chamber".toList
        RoutineController.initial
      = processLine sampleHost true 3 "valve 7 open".toList RoutineController.initial ∧
    (processLine sampleHost true 3 "\t valve   7  open  # fill the chamber".toList
        RoutineController.initial).state.mValidSteps
      = ["valve 7 open".toList] :=
  ⟨((comments_and_spacing_do_not_matter sampleHost true 3 RoutineController.initial).2.2
      "\t ".toList "valve".toList
      [("   ".toList, "7".toList), ("  ".toList, "open".toList)] "  ".toList
      " fill the chamber".toList (by decide) (by decide) (by decide) (by decide)).2.1,
   ((comments_and_spacing_do_not_matter sampleHost true 3 RoutineController.initial).2.2
      "\t ".toList "valve".toList
      [("   ".toList, "7".toList), ("  ".toList, "open".toList)] "  ".toList
      " fill the chamber".toList (by decide) (by decide) (by decide) (by decide)).2.2.2⟩

/-- C24: a live run that leaves its line loop ends by setting the status to
`Finished` and emitting `runStatusChanged(Finished)` and then `finished()`, in
whatever way the loop was left. For `stop()` issued while the run is paused:
let no pause be pending when the run starts, let no other thread call the
controller during the lines before line `k`, let line `k` be a line that reaches
the pause check (a valid step, or a line of no known command), let `pause()` be
called while that line is processed, and let the calls made during the pause be
any number of wake-ups and `pause()` calls followed by `stop()`. Then the run
returns, the loop is left with the status `Paused`, and the signals are exactly
`runStatusChanged(Running)`, the signals of the lines up to line `k`,
`paused()`, `stepsListChanged()` if there are recorded steps,
`runStatusChanged(Finished)` and `finished()`: the values written to the status
are `Running`, `Paused`, `Finished` in this order, no `resumed()` is emitted, and
no line after line `k` is executed. When no pause is pending and no other thread
calls the controller, the live run leaves its loop. The number of valves is
below the largest `uint`, so that the loop of `valve all` ends. -/
theorem live_run_ends_finished (h : Host) (sched : Schedule) (s : RoutineController)
    (_hn : h.nValves < 2 ^ 32 - 1) :
    ((RoutineController.begin h sched s).returned = true →
      (RoutineController.begin h sched s).state.mRunStatus = RunStatus.Finished ∧
      ∃ pre, (RoutineController.begin h sched s).signals
        = pre ++ [Signal.runStatusChanged RunStatus.Finished, Signal.finished]) ∧
    (∀ (pre : List QString) (raw : QString) (rest : List QString) (waits later : List Call),
      s.mLines = pre ++ raw :: rest →
      s.mPauseRequested = false →
      (∀ j, j < pre.length → sched.beforeCheck j = []) →
      ((classify h (simplified (removeComment raw))).isStep = true
        ∨ classify h (simplified (removeComment raw)) = LineAction.unknown) →
      sched.beforeCheck pre.length = [Call.pause] →
      sched.whilePaused pre.length = waits ++ Call.stop :: later →
      (∀ c ∈ waits, c = Call.wake ∨ c = Call.pause) →
      (RoutineController.begin h sched s).returned = true ∧
      (runLoop h false sched s.mLines 0 (liveStart s)).state.mRunStatus = RunStatus.Paused ∧
      (RoutineController.begin h sched s).state.mRunStatus = RunStatus.Finished ∧
      (∃ changed, (changed = [] ∨ changed = [Signal.stepsListChanged]) ∧
        (RoutineController.begin h sched s).signals
          = [Signal.runStatusChanged RunStatus.Running]
              ++ (runLoop h false Schedule.quiet (pre ++ [raw]) 0 (liveStart s)).signals
              ++ [Signal.paused] ++ changed
              ++ [Signal.runStatusChanged RunStatus.Finished, Signal.finished]) ∧
      statusWrites (RoutineController.begin h sched s).signals
        = [RunStatus.Running, RunStatus.Paused, RunStatus.Finished] ∧
      Signal.resumed ∉ (RoutineController.begin h sched s).signals) ∧
    (s.mPauseRequested = false →
      (RoutineController.begin h Schedule.quiet s).returned = true) := by
  have hrun := run_live h sched s
  refine ⟨fun hret => ?_, ?_, fun hp => ?_⟩
  · unfold RoutineController.begin at hret ⊢
    by_cases hl : (runLoop h false sched s.mLines 0 (liveStart s)).returned = true
    · rw [if_pos hl] at hrun
      rw [hrun]
      exact ⟨rfl, _, rfl⟩
    · rw [if_neg hl] at hrun
      rw [hrun] at hret
      exact absurd hret hl
  · intro pre raw rest waits later hlines hp hquiet hline hpause hstop hwaits
    have hp0 : (liveStart s).mPauseRequested = false := hp
    have hs0 : (liveStart s).mStopRequested = false := rfl
    obtain ⟨-, -, hp1, hs1⟩ := runLoop_quiet_frame h false pre 0 (liveStart s) hp0 hs0
    have hquietWrites := runLoop_quiet_statusWrites h false (pre ++ [raw]) 0 (liveStart s) hp0 hs0
    have hfront := runLoop_append_of_no_calls h false Schedule.quiet [raw] pre 0 (liveStart s)
      hp0 hs0 (fun _ _ _ => rfl)
    rw [runLoop_quiet_cons h false raw [] _ _ hp1 hs1] at hfront
    have hloop := runLoop_append_of_no_calls h false sched (raw :: rest) pre 0 (liveStart s)
      hp0 hs0 (fun j _ hj => hquiet j (by omega))
    rw [Nat.zero_add] at hloop hfront
    rw [runLoop_pause_then_stop h false sched raw rest pre.length _ waits later hline hs1
      hpause hstop hwaits, ← hlines] at hloop
    have hsignals : (runLoop h false sched s.mLines 0 (liveStart s)).signals
        = (runLoop h false Schedule.quiet (pre ++ [raw]) 0 (liveStart s)).signals
            ++ [Signal.paused] := by
      rw [hloop, hfront]
      simp only [RunResult.after, runLoop, List.append_nil, List.append_assoc]
    have hl : (runLoop h false sched s.mLines 0 (liveStart s)).returned = true := by
      rw [hloop]; rfl
    have hstatus : (runLoop h false sched s.mLines 0 (liveStart s)).state.mRunStatus
        = RunStatus.Paused := by
      rw [hloop]; rfl
    unfold RoutineController.begin
    rw [if_pos hl] at hrun
    rw [hrun]
    refine ⟨rfl, hstatus, rfl,
      ⟨(if (runLoop h false sched s.mLines 0 (liveStart s)).state.mValidSteps ≠ []
        then [Signal.stepsListChanged] else []), ?_, ?_⟩, ?_, ?_⟩
    · split_ifs
      · exact Or.inr rfl
      · exact Or.inl rfl
    · simp only [hsignals, List.append_assoc]
    · simp only [hsignals, statusWrites_append, statusWrites_changed, hquietWrites,
        List.append_nil, List.nil_append]
      rfl
    · simp only [hsignals, List.mem_append, List.mem_cons, List.mem_singleton,
        List.not_mem_nil, not_or, or_false]
      refine ⟨⟨⟨?_, ?_, ?_⟩, ?_⟩, ?_, ?_⟩
      · exact fun hx => Signal.noConfusion hx
      · intro hmem
        have hnone := (List.filterMap_eq_nil_iff.mp hquietWrites) _ hmem
        cases hnone
      · exact fun hx => Signal.noConfusion hx
      · split_ifs
        · simp
        · simp
      · exact fun hx => Signal.noConfusion hx
      · exact fun hx => Signal.noConfusion hx
  · have hl := (runLoop_quiet_frame h false s.mLines 0 (liveStart s) hp rfl).1
    unfold RoutineController.begin
    rw [run_live, if_pos hl]

theorem live_run_ends_finished_witness :
    (RoutineController.begin sampleHost
      { beforeCheck := fun i => if i = 1 then [Call.pause] else [],
        whilePaused := fun _ => [Call.wake, Call.stop] }
      (loaded ["valve 1 open".toList, "valve 2 open".toList, "valve 3 open".toList])).signals
      = [Signal.runStatusChanged RunStatus.Running,
         Signal.currentStepChanged 0, Signal.setValve 1 true,
         Signal.currentStepChanged 1, Signal.setValve 2 true,
         Signal.paused,
         Signal.runStatusChanged RunStatus.Finished, Signal.finished] ∧
    ((RoutineController.begin sampleHost
      { beforeCheck := fun i => if i = 1 then [Call.pause] else [],
        whilePaused := fun _ => [Call.wake, Call.stop] }
      (loaded ["valve 1 open".toList, "valve 2 open".toList,
        "valve 3 open".toList])).returned = true ∧
    (runLoop sampleHost false
      { beforeCheck := fun i => if i = 1 then [Call.pause] else [],
        whilePaused := fun _ => [Call.wake, Call.stop] }
      (loaded ["valve 1 open".toList, "valve 2 open".toList, "valve 3 open".toList]).mLines 0
      (liveStart (loaded ["valve 1 open".toList, "valve 2 open".toList,
        "valve 3 open".toList]))).state.mRunStatus = RunStatus.Paused ∧
    (RoutineController.begin sampleHost
      { beforeCheck := fun i => if i = 1 then [Call.pause] else [],
        whilePaused := fun _ => [Call.wake, Call.stop] }
      (loaded ["valve 1 open".toList, "valve 2 open".toList,
        "valve 3 open".toList])).state.mRunStatus = RunStatus.Finished ∧
    (∃ changed, (changed = [] ∨ changed = [Signal.stepsListChanged]) ∧
      (RoutineController.begin sampleHost
        { beforeCheck := fun i => if i = 1 then [Call.pause] else [],
          whilePaused := fun _ => [Call.wake, Call.stop] }
        (loaded ["valve 1 open".toList, "valve 2 open".toList, "valve 3 open".toList])).signals
        = [Signal.runStatusChanged RunStatus.Running]
            ++ (runLoop sampleHost false Schedule.quiet
                (["valve 1 open".toList] ++ ["valve 2 open".toList]) 0
                (liveStart (loaded ["valve 1 open".toList, "valve 2 open".toList,
                  "valve 3 open".toList]))).signals
            ++ [Signal.paused] ++ changed
            ++ [Signal.runStatusChanged RunStatus.Finished, Signal.finished]) ∧
    statusWrites (RoutineController.begin sampleHost
      { beforeCheck := fun i => if i = 1 then [Call.pause] else [],
        whilePaused := fun _ => [Call.wake, Call.stop] }
      (loaded ["valve 1 open".toList, "valve 2 open".toList, "valve 3 open".toList])).signals
      = [RunStatus.Running, RunStatus.Paused, RunStatus.Finished] ∧
    Signal.resumed ∉ (RoutineController.begin sampleHost
      { beforeCheck := fun i => if i = 1 then [Call.pause] else [],
        whilePaused := fun _ => [Call.wake, Call.stop] }
      (loaded ["valve 1 open".toList, "valve 2 open".toList,
        "valve 3 open".toList])).signals) :=
  ⟨by decide,
   (live_run_ends_finished sampleHost
    { beforeCheck := fun i => if i = 1 then [Call.pause] else [],
      whilePaused := fun _ => [Call.wake, Call.stop] }
    (loaded ["valve 1 open".toList, "valve 2 open".toList, "valve 3 open".toList])
    (by decide)).2.1
    ["valve 1 open".toList] "valve 2 open".toList ["valve 3 open".toList] [Call.wake] []
    rfl rfl
    (fun j hj => by
      have hj0 : j = 0 := by simpa using hj
      subst hj0
      rfl)
    (Or.inl (by decide)) rfl rfl
    (fun c hc => Or.inl (by simpa using hc))⟩

/-- C25: the dry pass and the live pass agree on what a step is. On each line,
either the live pass advances the step index by one, announcing it with one
`currentStepChanged`, and the dry pass records the normalized line in
`steps()`, or the live pass leaves the step index and the dry pass leaves
`steps()` as they are. When no pause is pending and no other thread calls the
controller, `verify()` and the live run both return; `steps()` after `verify()`
holds the accepted lines in the order of the file and `numberOfSteps()` is
their number `n`; the live run emits `currentStepChanged` with 0, 1, ...,
`n - 1` in that order; and the live run reports the same errors as `verify()`:
the same error list, the same error count and the same `error` signals. The
number of valves is below the largest `uint`, so that the loop of `valve all`
ends. -/
theorem live_run_agrees_with_verify (h : Host) (s : RoutineController)
    (hp : s.mPauseRequested = false) (_hn : h.nValves < 2 ^ 32 - 1) :
    (∀ (i : Nat) (raw : QString) (s1 s2 : RoutineController),
      (stepNumbers (processLine h false i raw s1).signals = [s1.mCurrentStep + 1] ∧
        (processLine h false i raw s1).state.mCurrentStep = s1.mCurrentStep + 1 ∧
        (processLine h true i raw s2).state.mValidSteps
          = s2.mValidSteps ++ [simplified (removeComment raw)]) ∨
      (stepNumbers (processLine h false i raw s1).signals = [] ∧
        (processLine h false i raw s1).state.mCurrentStep = s1.mCurrentStep ∧
        (processLine h true i raw s2).state.mValidSteps = s2.mValidSteps)) ∧
    (RoutineController.verify h Schedule.quiet s).2.returned = true ∧
    (RoutineController.begin h Schedule.quiet s).returned = true ∧
    (RoutineController.verify h Schedule.quiet s).2.state.mValidSteps = stepLines h s.mLines ∧
    (RoutineController.verify h Schedule.quiet s).2.state.mNumberOfSteps
      = ((stepLines h s.mLines).length : Int) ∧
    stepNumbers (RoutineController.begin h Schedule.quiet s).signals
      = (List.range (stepLines h s.mLines).length).map (fun (j : Nat) => (j : Int)) ∧
    (RoutineController.begin h Schedule.quiet s).state.mErrors
      = (RoutineController.verify h Schedule.quiet s).2.state.mErrors ∧
    (RoutineController.begin h Schedule.quiet s).state.mErrorCount
      = (RoutineController.verify h Schedule.quiet s).1 ∧
    errorSignals (RoutineController.begin h Schedule.quiet s).signals
      = errorSignals (RoutineController.verify h Schedule.quiet s).2.signals := by
  have hdry := run_dry_quiet h s hp
  have hlive := run_live_quiet h s hp
  have hsteps := runLoop_dry_quiet_validSteps h s.mLines 0 (dryStart s) hp rfl
  have hnum := runLoop_live_quiet_stepNumbers h s.mLines 0 (liveStart s) hp rfl
  obtain ⟨hd1, hd2, hd3⟩ := runLoop_quiet_errors h true s.mLines 0 (dryStart s) hp rfl
  obtain ⟨hl1, hl2, hl3⟩ := runLoop_quiet_errors h false s.mLines 0 (liveStart s) hp rfl
  have hstart : (dryStart s).mValidSteps ++ stepLines h s.mLines = stepLines h s.mLines := rfl
  unfold RoutineController.verify RoutineController.begin
  rw [hdry, hlive]
  dsimp only
  refine ⟨fun i raw s1 s2 => ?_, rfl, rfl, ?_, ?_, ?_, ?_, ?_, ?_⟩
  · have hn := perform_stepNumbers h false i (simplified (removeComment raw))
      (classify h (simplified (removeComment raw))) s1
    have hv := perform_dry_validSteps h i (simplified (removeComment raw))
      (classify h (simplified (removeComment raw))) s2
    rw [← processLine_eq_perform] at hn hv
    by_cases hstep : (classify h (simplified (removeComment raw))).isStep = true
    · left
      simp only [hstep, and_self, if_true] at hn hv
      exact ⟨hn.1, hn.2, hv⟩
    · right
      simp only [hstep, Bool.false_eq_true, false_and, if_false, add_zero,
        List.append_nil] at hn hv
      exact ⟨hn.1, hn.2, hv⟩
  · rw [hsteps, hstart]
  · rw [hsteps, hstart]
  · simp only [stepNumbers_append]
    rw [hnum.1]
    have hc := filterMap_changed Signal.stepNumber
      (runLoop h false Schedule.quiet s.mLines 0 (liveStart s)).state.mValidSteps rfl
    unfold stepNumbers
    rw [hc]
    simp [liveStart, Signal.stepNumber]
  · rw [hl1, hd1]; rfl
  · rw [hl2, hd2]; rfl
  · simp only [errorSignals_append]
    rw [hl3, hd3]
    have hc1 := filterMap_changed Signal.errorString
      (runLoop h false Schedule.quiet s.mLines 0 (liveStart s)).state.mValidSteps rfl
    have hc2 := filterMap_changed Signal.errorString
      (runLoop h true Schedule.quiet s.mLines 0 (dryStart s)).state.mValidSteps rfl
    unfold errorSignals
    rw [hc1, hc2]
    simp [Signal.errorString]

theorem live_run_agrees_with_verify_witness :
    (RoutineController.verify sampleHost Schedule.quiet
      (loaded ["valve 1 open".toList, "valve 40 open".toList, "# rest".toList,
        "wait 2".toList, "pressure 9 1".toList, "input A".toList])).2.state.mValidSteps
      = ["valve 1 open".toList, "wait 2".toList, "input A".toList] ∧
    stepNumbers (RoutineController.begin sampleHost Schedule.quiet
      (loaded ["valve 1 open".toList, "valve 40 open".toList, "# rest".toList,
        "wait 2".toList, "pressure 9 1".toList, "input A".toList])).signals
      = [0, 1, 2] ∧
    (RoutineController.begin sampleHost Schedule.quiet
      (loaded ["valve 1 open".toList, "valve 40 open".toList, "# rest".toList,
        "wait 2".toList, "pressure 9 1".toList, "input A".toList])).state.mErrors
      = (RoutineController.verify sampleHost Schedule.quiet
          (loaded ["valve 1 open".toList, "valve 40 open".toList, "# rest".toList,
            "wait 2".toList, "pressure 9 1".toList, "input A".toList])).2.state.mErrors :=
  ⟨((live_run_agrees_with_verify sampleHost
      (loaded ["valve 1 open".toList, "valve 40 open".toList, "# rest".toList,
        "wait 2".toList, "pressure 9 1".toList, "input A".toList]) rfl (by decide)).2.2.2.1).trans
      (by decide),
   ((live_run_agrees_with_verify sampleHost
      (loaded ["valve 1 open".toList, "valve 40 open".toList, "# rest".toList,
        "wait 2".toList, "pressure 9 1".toList, "input A".toList]) rfl (by decide)).2.2.2.2.2.1).trans
      (by decide),
   (live_run_agrees_with_verify sampleHost
      (loaded ["valve 1 open".toList, "valve 40 open".toList, "# rest".toList,
        "wait 2".toList, "pressure 9 1".toList, "input A".toList]) rfl (by decide)).2.2.2.2.2.2.1⟩

/-- C26: from an idle decoder, after every call of `decodeBuffer`, whatever bytes
arrive in `mBuffer` before each call and however many calls are made: when the
decoder is not recording it is not escaped and the accumulator is empty; and
when it is escaped it is recording, and the last byte it consumed is
`ESCAPE_BYTE`, met while recording and not escaped. -/
theorem decoder_state_invariant (k : Constants) (chunks : List (List Byte)) :
    ((feedCalls k idle none chunks).1.mDecoderRecording = false →
      (feedCalls k idle none chunks).1.mDecoderEscaped = false ∧
      (feedCalls k idle none chunks).1.mDecodedBuffer = []) ∧
    ((feedCalls k idle none chunks).1.mDecoderEscaped = true →
      (feedCalls k idle none chunks).1.mDecoderRecording = true ∧
      ∃ l, (feedCalls k idle none chunks).2 = some l ∧ l.byte = k.ESCAPE_BYTE ∧
        l.recording = true ∧ l.escaped = false) := by
  obtain ⟨hs, hl⟩ := feedCalls_inv k chunks idle none
    ⟨fun _ => ⟨rfl, rfl⟩, fun e => (by cases e)⟩ (fun e => (by cases e))
  refine ⟨hs.1, fun he => ⟨?_, hl he⟩⟩
  by_contra hr
  have hnot : (feedCalls k idle none chunks).1.mDecoderRecording = false := by simpa using hr
  rw [(hs.1 hnot).1] at he
  cases he

theorem decoder_state_invariant_witness :
    (feedCalls sampleConstants idle none [[7, 249, 2, 251], [], [251, 3, 250, 249, 9]]).1.mDecoderRecording
      = false ∧
    (feedCalls sampleConstants idle none [[7, 249, 2, 251], []]).1.mDecoderEscaped = true ∧
    ((feedCalls sampleConstants idle none [[7, 249, 2, 251], []]).1.mDecoderRecording = true ∧
      ∃ l, (feedCalls sampleConstants idle none [[7, 249, 2, 251], []]).2 = some l ∧
        l.byte = sampleConstants.ESCAPE_BYTE ∧ l.recording = true ∧ l.escaped = false) :=
  ⟨by decide, by decide,
   (decoder_state_invariant sampleConstants [[7, 249, 2, 251], []]).2 (by decide)⟩

/-- C27, the code at a failing input: controller 1 has `minPressure(1) = 0` and
`maxPressure(1) = 10 > 0`, and validation accepts the line `pressure 1 nan`,
whose value is a NaN. The live run emits `setPressure(1, p)` with `p` a NaN,
for which `0 ≤ p ≤ 1` does not hold, every comparison with a NaN being false.
`Communicator::setPressure(1, p)` does not reject it, its guard being false
too, and goes on to the conversion of a NaN to `uint8_t`, which is
undefined. -/
theorem live_run_emits_nan_setpoint :
    sampleHost.minPressure 1 = 0 ∧
    (0 : Double) < sampleHost.maxPressure 1 ∧
    (RoutineController.verify sampleHost Schedule.quiet
      (loaded ["pressure 1 nan".toList])).1 = 0 ∧
    Signal.setPressure 1 Double.nan
      ∈ (RoutineController.begin sampleHost Schedule.quiet
          (loaded ["pressure 1 nan".toList])).signals ∧
    (∀ p, Signal.setPressure 1 p
        ∈ (RoutineController.begin sampleHost Schedule.quiet
            (loaded ["pressure 1 nan".toList])).signals → p = Double.nan) ∧
    (∀ y : Double, ¬ (Double.nan < y) ∧ ¬ (y < Double.nan)) ∧
    ¬ (Double.nan < 0 ∨ Double.nan > 1) ∧
    setPressure sampleConstants 1 Double.nan = none := by
  have hsig : (RoutineController.begin sampleHost Schedule.quiet
      (loaded ["pressure 1 nan".toList])).signals
      = [Signal.runStatusChanged RunStatus.Running, Signal.currentStepChanged 0,
         Signal.setPressure 1 Double.nan, Signal.runStatusChanged RunStatus.Finished,
         Signal.finished] := by decide!
  have hg : ¬ (Double.nan < 0 ∨ Double.nan > 1) := by
    rintro (h | h)
    · exact Double.not_nan_lt _ h
    · exact Double.not_lt_nan _ h
  refine ⟨rfl, by decide!, by decide!, ?_, ?_,
    fun y => ⟨Double.not_nan_lt y, Double.not_lt_nan y⟩, hg, ?_⟩
  · rw [hsig]
    simp
  · intro p hp
    rw [hsig] at hp
    simpa using hp
  · unfold setPressure
    simp only [if_neg hg, Double.nan_mul]
    rfl

end Estem
